import Mathlib

/-!
# go-steamauth: code generation, confirmation signing, JSON adapters, login

A shallow embedding of the package `steamauth`.  Go `string` and `[]byte`
values are byte sequences (`Bytes`), `error` values are optional messages,
a pointer is an `Option` (`none` is nil), and a run-time panic (index or
slice out of range, nil dereference) is the `none` of an `Option` result.

The standard-library routines the package calls are written out so that
every definition evaluates: `crypto/sha1`, `crypto/hmac`,
`encoding/base64`, `encoding/binary`, `net/url`, `strconv`,
`unicode/utf8`, `encoding/json` (scanner, string escaping and the storing
of values into the structs of the package) and the RFC 3339 layout of
`time` (in UTC: a `Time` is its Unix seconds and nanoseconds).  What the
network contributes to a call (`LoginExchange`) is an argument of the
call.  Definitions come first, the lemmas and the theorems on the
package follow from the section "Digest, bit and byte-order lemmas" on.
-/

namespace steamauth

/-- A Go byte sequence: a `[]byte` or the contents of a `string`. -/
abbrev Bytes := List Nat

/-- A Go `error`: `none` is `nil`, `some msg` an error with that message. -/
abbrev error := Option String

/-- The bytes of an ASCII literal (for ASCII the code points are the bytes). -/
def ascii (s : String) : Bytes := s.data.map Char.toNat

/-! ## crypto/sha1 and crypto/hmac -/

namespace sha1

/-- Rotate a 32-bit word left by `n` bits. -/
def rotl (n x : Nat) : Nat := ((x <<< n) ||| (x >>> (32 - n))) % 4294967296

/-- Big-endian 32-bit words of a block. -/
def wordsOf : Bytes → List Nat
  | b0 :: b1 :: b2 :: b3 :: rest =>
    (b0 * 16777216 + b1 * 65536 + b2 * 256 + b3) :: wordsOf rest
  | _ => []

/-- The four big-endian bytes of a 32-bit word. -/
def bytesOfWord (w : Nat) : Bytes :=
  [w / 16777216 % 256, w / 65536 % 256, w / 256 % 256, w % 256]

/-- Round function of round `t`. -/
def f (t b c d : Nat) : Nat :=
  if t < 20 then (b &&& c) ||| ((4294967295 - b) &&& d)
  else if t < 40 then b ^^^ c ^^^ d
  else if t < 60 then (b &&& c) ||| (b &&& d) ||| (c &&& d)
  else b ^^^ c ^^^ d

/-- Round constant of round `t`. -/
def K (t : Nat) : Nat :=
  if t < 20 then 0x5A827999
  else if t < 40 then 0x6ED9EBA1
  else if t < 60 then 0x8F1BBCDC
  else 0xCA62C1D6

/-- The five chaining words. -/
structure State where
  a : Nat
  b : Nat
  c : Nat
  d : Nat
  e : Nat
deriving DecidableEq, Repr

/-- Run `n` rounds starting at round `t`; `win` is the sliding window of
the sixteen most recent schedule words. -/
def rounds : Nat → Nat → List Nat → State → State
  | 0, _, _, s => s
  | n + 1, t, win, s =>
    let w := win.headD 0
    let nw := rotl 1 (win.getD 13 0 ^^^ win.getD 8 0 ^^^ win.getD 2 0 ^^^ w)
    let tmp := (rotl 5 s.a + f t s.b s.c s.d + s.e + w + K t) % 4294967296
    rounds n (t + 1) (win.tail ++ [nw]) ⟨tmp, s.a, rotl 30 s.b, s.c, s.d⟩

/-- Compress one 64-byte block into the chaining state. -/
def block (h : State) (blk : Bytes) : State :=
  let r := rounds 80 0 (wordsOf blk) h
  ⟨(h.a + r.a) % 4294967296, (h.b + r.b) % 4294967296, (h.c + r.c) % 4294967296,
   (h.d + r.d) % 4294967296, (h.e + r.e) % 4294967296⟩

/-- Compress `n` consecutive blocks. -/
def blocks : Nat → State → Bytes → State
  | 0, h, _ => h
  | n + 1, h, m => blocks n (block h (m.take 64)) (m.drop 64)

/-- Message padding: 0x80, zeros, and the bit length as 64-bit big-endian. -/
def pad (m : Bytes) : Bytes :=
  let l := m.length
  let z := (119 - l % 64) % 64
  m ++ [128] ++ List.replicate z 0 ++
    bytesOfWord (l * 8 / 4294967296 % 4294967296) ++ bytesOfWord (l * 8 % 4294967296)

/-- The 20-byte SHA-1 digest (`sha1.Sum`). -/
def Sum (m : Bytes) : Bytes :=
  let p := pad m
  let h := blocks (p.length / 64)
    ⟨0x67452301, 0xEFCDAB89, 0x98BADCFE, 0x10325476, 0xC3D2E1F0⟩ p
  bytesOfWord h.a ++ bytesOfWord h.b ++ bytesOfWord h.c ++ bytesOfWord h.d ++ bytesOfWord h.e

end sha1

namespace hmac

/-- HMAC-SHA1: `mac := hmac.New(sha1.New, key); mac.Write(msg); mac.Sum(nil)`. -/
def SumSHA1 (key msg : Bytes) : Bytes :=
  let k := if key.length > 64 then sha1.Sum key else key
  let k := k ++ List.replicate (64 - k.length) 0
  sha1.Sum (k.map (· ^^^ 0x5c) ++ sha1.Sum (k.map (· ^^^ 0x36) ++ msg))

end hmac

/-! ## encoding/base64 (StdEncoding) -/

namespace base64

/-- The decode map of the standard alphabet: the 6-bit value of a symbol. -/
def decodeMap (c : Nat) : Option Nat :=
  if 65 ≤ c ∧ c ≤ 90 then some (c - 65)
  else if 97 ≤ c ∧ c ≤ 122 then some (c - 97 + 26)
  else if 48 ≤ c ∧ c ≤ 57 then some (c - 48 + 52)
  else if c = 43 then some 62
  else if c = 47 then some 63
  else none

/-- Drop leading carriage returns and line feeds. -/
def skipNewlines : Bytes → Bytes
  | c :: rest => if c = 10 ∨ c = 13 then skipNewlines rest else c :: rest
  | [] => []

/-- The bytes a quantum of `n` decoded symbols yields (`n - 1` of them). -/
def quantumBytes (acc : List Nat) : Bytes :=
  let val := acc.getD 0 0 * 262144 + acc.getD 1 0 * 4096 + acc.getD 2 0 * 64 + acc.getD 3 0
  ([val / 65536 % 256, val / 256 % 256, val % 256]).take (acc.length - 1)

/-- The decoding loop of `Encoding.Decode`: `out` is what was decoded so
far, `acc` the symbols of the current quantum.  Line breaks are skipped,
`=` padding must complete the quantum and end the input.  Returns the
decoded bytes and whether a `CorruptInputError` was raised. -/
def decodeLoop (out : Bytes) (acc : List Nat) : Bytes → Bytes × Bool
  | [] => if acc.length = 0 then (out, false) else (out, true)
  | c :: rest =>
    match decodeMap c with
    | some v =>
      if acc.length = 3 then decodeLoop (out ++ quantumBytes (acc ++ [v])) [] rest
      else decodeLoop out (acc ++ [v]) rest
    | none =>
      if c = 10 ∨ c = 13 then decodeLoop out acc rest
      else if c ≠ 61 then (out, true)
      else if acc.length < 2 then (out, true)
      else if acc.length = 2 then
        match skipNewlines rest with
        | [] => (out, true)
        | c2 :: rest2 =>
          if c2 ≠ 61 then (out, true)
          else (out ++ quantumBytes acc, decide (skipNewlines rest2 ≠ []))
      else (out ++ quantumBytes acc, decide (skipNewlines rest ≠ []))

/-- `base64.StdEncoding.DecodeString`: the bytes decoded before any error,
and the error. -/
def DecodeString (s : Bytes) : Bytes × error :=
  let r := decodeLoop [] [] s
  (r.1, if r.2 then some "illegal base64 data" else none)

/-- The symbol of a 6-bit value in the standard alphabet. -/
def encodeSymbol (v : Nat) : Nat :=
  if v < 26 then 65 + v
  else if v < 52 then 97 + (v - 26)
  else if v < 62 then 48 + (v - 52)
  else if v = 62 then 43
  else 47

/-- `base64.StdEncoding.EncodeToString`, with `=` padding. -/
def EncodeToString : Bytes → Bytes
  | b0 :: b1 :: b2 :: rest =>
    let val := b0 * 65536 + b1 * 256 + b2
    encodeSymbol (val / 262144 % 64) :: encodeSymbol (val / 4096 % 64) ::
      encodeSymbol (val / 64 % 64) :: encodeSymbol (val % 64) :: EncodeToString rest
  | [b0, b1] =>
    let val := b0 * 65536 + b1 * 256
    [encodeSymbol (val / 262144 % 64), encodeSymbol (val / 4096 % 64),
     encodeSymbol (val / 64 % 64), 61]
  | [b0] =>
    let val := b0 * 65536
    [encodeSymbol (val / 262144 % 64), encodeSymbol (val / 4096 % 64), 61, 61]
  | [] => []

end base64

/-! ## encoding/binary, net/url, strconv -/

namespace binary

/-- The values this package hands to `binary.Write`. -/
inductive Data where
  | int64 (v : Int)
  | string (s : Bytes)
deriving DecidableEq, Repr

/-- The eight big-endian bytes of an unsigned 64-bit value. -/
def bigEndianUint64 (v : Nat) : Bytes :=
  [v / 72057594037927936 % 256, v / 281474976710656 % 256, v / 1099511627776 % 256,
   v / 4294967296 % 256, v / 16777216 % 256, v / 65536 % 256, v / 256 % 256, v % 256]

/-- `binary.Write(buf, binary.BigEndian, data)`: an `int64` is appended as
its eight two-complement bytes.  A `string` is not a fixed-size value:
`Write` appends nothing and returns the error "invalid type string". -/
def Write (buf : Bytes) : Data → Bytes × error
  | .int64 v => (buf ++ bigEndianUint64 (v % 18446744073709551616).toNat, none)
  | .string _ => (buf, some "binary.Write: invalid type string")

end binary

namespace url

/-- The upper-case hexadecimal digit of a nibble. -/
def upperhex (n : Nat) : Nat := if n < 10 then 48 + n else 55 + n

/-- Whether a byte is left as it is by `url.QueryEscape`: letters, digits
and `-`, `_`, `.`, `~`. -/
def unreserved (c : Nat) : Bool :=
  (65 ≤ c && c ≤ 90) || (97 ≤ c && c ≤ 122) || (48 ≤ c && c ≤ 57) ||
    c = 45 || c = 95 || c = 46 || c = 126

/-- `url.QueryEscape`: a space becomes `+`, every other byte that is not
unreserved becomes `%XX`. -/
def QueryEscape : Bytes → Bytes
  | [] => []
  | c :: rest =>
    if unreserved c then c :: QueryEscape rest
    else if c = 32 then 43 :: QueryEscape rest
    else 37 :: upperhex (c / 16) :: upperhex (c % 16) :: QueryEscape rest

end url

namespace strconv

/-- The largest `uint64`. -/
def maxUint64 : Nat := 18446744073709551615

/-- The digit loop of `strconv.FormatUint(v, 10)`, most significant digit
first; `fuel` bounds the number of digits. -/
def formatDigits : Nat → Nat → Bytes → Bytes
  | 0, _, acc => acc
  | fuel + 1, v, acc =>
    if v < 10 then (48 + v) :: acc
    else formatDigits fuel (v / 10) ((48 + v % 10) :: acc)

/-- `strconv.FormatUint(v, 10)` for a `uint64` (at most 20 digits), and
`strconv.FormatInt(v, 10)` for a non-negative `int64`. -/
def FormatUint (v : Nat) : Bytes := formatDigits 20 v []

/-- `strconv.FormatInt(v, 10)`. -/
def FormatInt (v : Int) : Bytes :=
  if v < 0 then 45 :: FormatUint v.natAbs else FormatUint v.toNat

/-- The digit loop of `strconv.ParseUint(s, 10, 64)` with accumulator `n`:
a byte that is no decimal digit is a syntax error (value 0), an overflow
is a range error (value `maxUint64`). -/
def parseUintLoop (n : Nat) : Bytes → Nat × error
  | [] => (n, none)
  | c :: rest =>
    if 48 ≤ c ∧ c ≤ 57 then
      if n ≥ maxUint64 / 10 + 1 then (maxUint64, some "value out of range")
      else
        let n10 := n * 10 % 18446744073709551616
        let n1 := (n10 + (c - 48)) % 18446744073709551616
        if n1 < n10 ∨ n1 > maxUint64 then (maxUint64, some "value out of range")
        else parseUintLoop n1 rest
    else (0, some "invalid syntax")

/-- `strconv.ParseUint(s, 10, 64)`. -/
def ParseUint (s : Bytes) : Nat × error :=
  if s = [] then (0, some "invalid syntax") else parseUintLoop 0 s

end strconv

/-! ## misctypes.go -/

/-- Go's `time.Time`, reduced to what this package reads of it: the
seconds since the Unix epoch and the nanoseconds within that second. -/
structure Time where
  sec : Int
  nsec : Nat
deriving DecidableEq, Repr

/-- `Time.Unix()`: the seconds since the Unix epoch, an `int64`. -/
def Time.Unix (t : Time) : Int := t.sec

/-- The type `timestamp struct { time.Time }`. -/
structure timestamp where
  Time : Time
deriving DecidableEq, Repr

/-- The type `SteamID uint64`. -/
abbrev SteamID := Nat

/-- The method `(*SteamID).String`: the decimal digits, and the empty
string for zero. -/
def SteamID.String (s : SteamID) : Bytes :=
  if s > 0 then strconv.FormatUint s else []

/-- The method `(*SteamID).MarshalJSON`. -/
def SteamID.MarshalJSON (s : SteamID) : Bytes × error :=
  ([34] ++ SteamID.String s ++ [34], none)

/-- The method `(*SteamID).UnmarshalJSON`: the new value of the receiver
and the returned error.  `none` is the panic of `b[0]` on an empty input
or of `b[1 : len(b)-1]` on a one-byte input. -/
def SteamID.UnmarshalJSON (b : Bytes) : Option (SteamID × error) :=
  match b with
  | [] => none
  | c :: _ =>
    if c = 34 then
      if b.length < 2 then none
      else some (strconv.ParseUint ((b.take (b.length - 1)).drop 1))
    else some (strconv.ParseUint b)

/-- The type `CaptchaGID string`. -/
abbrev CaptchaGID := Bytes

/-- The method `(*CaptchaGID).UnmarshalJSON`: the new value of the
receiver and the returned error; `none` is a panic as for `SteamID`. -/
def CaptchaGID.UnmarshalJSON (b : Bytes) : Option (CaptchaGID × error) :=
  match b with
  | [] => none
  | c :: _ =>
    if c = 34 then
      if b.length < 2 then none
      else some ((b.take (b.length - 1)).drop 1, none)
    else some (b, none)

/-- The method `(*CaptchaGID).String`. -/
def CaptchaGID.String (c : CaptchaGID) : Bytes := c

/-! ## sessiondata.go, steamguardaccount.go -/

/-- The type `SessionData`. -/
structure SessionData where
  SessionID : Bytes
  SteamLogin : Bytes
  SteamLoginSecure : Bytes
  WebCookie : Bytes
  OAuthToken : Bytes
  SteamID : SteamID
deriving DecidableEq, Repr

/-- The type `SteamGuardAccount`; `Session` is a pointer, `none` is nil. -/
structure SteamGuardAccount where
  SharedSecret : Bytes
  SerialNumber : Bytes
  RevocationCode : Bytes
  URI : Bytes
  ServerTime : timestamp
  AccountName : Bytes
  TokenGID : Bytes
  IdentitySecret : Bytes
  Secret1 : Bytes
  Status : Int
  DeviceID : Bytes
  FullyEnrolled : Bool
  Session : Option SessionData
deriving DecidableEq, Repr

/-- The table `steamGuardCodeTranslations`. -/
def steamGuardCodeTranslations : Bytes :=
  [50, 51, 52, 53, 54, 55, 56, 57, 66, 67, 68, 70, 71, 72, 74, 75, 77, 78, 80, 81, 82, 84,
   86, 87, 88, 89]

/-- The loop `for i := 0; i < 5; i++` of `GenerateSteamGuardCodeForTime`,
with `n` iterations left: each one indexes the table at
`codePoint % translationCount` and divides `codePoint`. -/
def codeLoop : Nat → Nat → Option Bytes
  | 0, _ => some []
  | n + 1, codePoint => do
    let c ← steamGuardCodeTranslations[codePoint % steamGuardCodeTranslations.length]?
    let rest ← codeLoop n (codePoint / steamGuardCodeTranslations.length)
    pure (c :: rest)

/-- Lines 124 to 135 of `GenerateSteamGuardCodeForTime`: the byte `b` is
`hashedData[19] & 0xF` (byte arithmetic, hence `% 256`), `codePoint` the
four bytes from `b` with the top bit masked, and then the loop.  `none`
is an index out of range. -/
def codeOfDigest (hashedData : Bytes) : Option Bytes := do
  let h19 ← hashedData[19]?
  let b := (h19 &&& 0xF) % 256
  let h0 ← hashedData[b]?
  let h1 ← hashedData[(b + 1) % 256]?
  let h2 ← hashedData[(b + 2) % 256]?
  let h3 ← hashedData[(b + 3) % 256]?
  let codePoint := (h0 &&& 0x7F) <<< 24 ||| (h1 &&& 0xFF) <<< 16 |||
    (h2 &&& 0xFF) <<< 8 ||| (h3 &&& 0xFF)
  codeLoop 5 codePoint

/-- The method `GenerateSteamGuardCodeForTime`.  `none` is an index out of
range, in `hashedData` or in the table. -/
def SteamGuardAccount.GenerateSteamGuardCodeForTime (s : SteamGuardAccount) (atTime : Time) :
    Option Bytes :=
  if s.SharedSecret = [] then some []
  else
    match base64.DecodeString s.SharedSecret with
    | (_, some _) => some []
    | (sharedSecret, none) =>
      let buf := (binary.Write [] (.int64 (Int.tdiv atTime.Unix 30))).1
      let hashedData := hmac.SumSHA1 sharedSecret buf
      codeOfDigest hashedData

/-- The buffer `generateConfirmationHashForTime` signs: the two
`binary.Write` calls on a fresh buffer, their errors dropped as in the
source. -/
def confirmationBuffer (atTime : Time) (tag : Bytes) : Bytes :=
  let tagLen := if tag.length > 32 then 32 else tag.length
  let buf := (binary.Write [] (.int64 atTime.Unix)).1
  (binary.Write buf (.string (tag.take tagLen))).1

/-- The method `generateConfirmationHashForTime`; the error of
`DecodeString` is dropped as in the source. -/
def SteamGuardAccount.generateConfirmationHashForTime (s : SteamGuardAccount) (atTime : Time)
    (tag : Bytes) : Bytes :=
  let decode := (base64.DecodeString s.IdentitySecret).1
  let hashedData := hmac.SumSHA1 decode (confirmationBuffer atTime tag)
  let encoded := base64.EncodeToString hashedData
  url.QueryEscape encoded

/-! ## The reference derivation of the specification (section 4.2) -/

namespace spec

/-- The alphabet of the specification. -/
def alphabet : Bytes := ascii "23456789BCDFGHJKMNPQRTVWXY"

/-- An integer written as an 8-byte big-endian integer (two-complement). -/
def bigEndian8 (c : Int) : Bytes :=
  [(c / 72057594037927936 % 256).toNat, (c / 281474976710656 % 256).toNat,
   (c / 1099511627776 % 256).toNat, (c / 4294967296 % 256).toNat,
   (c / 16777216 % 256).toNat, (c / 65536 % 256).toNat, (c / 256 % 256).toNat,
   (c % 256).toNat]

/-- The `n` symbols `alphabet[codePoint mod 26]`, least-significant digit
first, dividing `codePoint` by 26 each time. -/
def symbols : Nat → Nat → Bytes
  | 0, _ => []
  | n + 1, codePoint => alphabet.getD (codePoint % 26) 0 :: symbols n (codePoint / 26)

/-- The code point of a digest: the 4 bytes at `offset = digest[19] & 0x0F`
read big-endian with the top bit of the first byte cleared. -/
def codePoint (digest : Bytes) : Nat :=
  let offset := digest.getD 19 0 &&& 0x0F
  digest.getD offset 0 % 128 * 16777216 + digest.getD (offset + 1) 0 * 65536 +
    digest.getD (offset + 2) 0 * 256 + digest.getD (offset + 3) 0

/-- The derivation of the specification from a given counter: the counter
as an 8-byte big-endian integer, HMAC-SHA1 under the decoded secret, the
code point of the digest and its 5 symbols. -/
def codeOfCounter (key : Bytes) (counter : Int) : Bytes :=
  let digest := hmac.SumSHA1 key (bigEndian8 counter)
  symbols 5 (codePoint digest)

/-- The reference derivation of the specification, from the decoded
secret and the Unix seconds: `counter = floor(unixSeconds / 30)`. -/
def referenceCode (key : Bytes) (unixSeconds : Int) : Bytes :=
  codeOfCounter key (Int.fdiv unixSeconds 30)

/-- The message the specification signs for a confirmation (section 4.3):
the 8-byte big-endian timestamp followed by the tag truncated to at most
its first 32 bytes. -/
def confirmationMessage (unixSeconds : Int) (tag : Bytes) : Bytes :=
  bigEndian8 unixSeconds ++ tag.take 32

/-- The confirmation signature of the specification: HMAC-SHA1 of the
message under the decoded identity secret, base64-encoded, then
percent-encoded. -/
def confirmationSignature (key : Bytes) (unixSeconds : Int) (tag : Bytes) : Bytes :=
  url.QueryEscape (base64.EncodeToString (hmac.SumSHA1 key (confirmationMessage unixSeconds tag)))

end spec

/-! ## Records used as concrete inputs -/

/-- An account record with the given shared secret and identity secret and
every other field zero. -/
def accountWithSecrets (sharedSecret identitySecret : Bytes) : SteamGuardAccount :=
  { SharedSecret := sharedSecret, SerialNumber := [], RevocationCode := [], URI := [],
    ServerTime := ⟨⟨0, 0⟩⟩, AccountName := [], TokenGID := [],
    IdentitySecret := identitySecret, Secret1 := [], Status := 0, DeviceID := [],
    FullyEnrolled := false, Session := none }

/-! ## unicode/utf8 and encoding/json

`json.Unmarshal` works in two passes, as in Go: the text is scanned into a
`Value` (a syntax error leaves the target untouched), then the value is
stored into the target.  Every value keeps the exact bytes it was scanned
from, because a type with its own `UnmarshalJSON` receives those bytes. -/

namespace utf8

/-- The width of the sequence a leading byte announces: 1 to 4, and 0 for
a byte that cannot lead (a continuation byte, an overlong lead 0xC0 or
0xC1, a lead above 0xF4). -/
def width (c : Nat) : Nat :=
  if c < 0x80 then 1
  else if 0xC2 ≤ c ∧ c ≤ 0xDF then 2
  else if 0xE0 ≤ c ∧ c ≤ 0xEF then 3
  else if 0xF0 ≤ c ∧ c ≤ 0xF4 then 4
  else 0

/-- Whether `b` may follow the leading byte `c`: the range is narrowed
after 0xE0 and 0xF0 (no overlong form), 0xED (no surrogate) and 0xF4
(nothing above U+10FFFF). -/
def second (c b : Nat) : Bool :=
  (if c = 0xE0 then 0xA0 else if c = 0xF0 then 0x90 else 0x80) ≤ b &&
    b ≤ (if c = 0xED then 0x9F else if c = 0xF4 then 0x8F else 0xBF)

/-- Whether a byte is a continuation byte, 0x80 to 0xBF. -/
def cont (b : Nat) : Bool := 0x80 ≤ b && b ≤ 0xBF

/-- The length of the well-formed UTF-8 sequence at the head of the
input, `none` when the head is malformed (`utf8.DecodeRune` then returns
`RuneError` with width 1). -/
def runeLen : Bytes → Option Nat
  | [] => none
  | c :: rest =>
    if width c = 0 then none
    else if width c = 1 then some 1
    else if rest.length + 1 < width c then none
    else if second c (rest.getD 0 0) && ((rest.take (width c - 1)).drop 1).all cont then
      some (width c)
    else none

/-- `utf8.EncodeRune`; surrogates and values above U+10FFFF become U+FFFD. -/
def EncodeRune (r : Nat) : Bytes :=
  if r < 0x80 then [r]
  else if r < 0x800 then [0xC0 + r / 64, 0x80 + r % 64]
  else if (0xD800 ≤ r ∧ r ≤ 0xDFFF) ∨ r > 0x10FFFF then [0xEF, 0xBF, 0xBD]
  else if r < 0x10000 then [0xE0 + r / 4096, 0x80 + r / 64 % 64, 0x80 + r % 64]
  else [0xF0 + r / 262144, 0x80 + r / 4096 % 64, 0x80 + r / 64 % 64, 0x80 + r % 64]

/-- Whether the input is well-formed UTF-8, rune by rune; the fuel bounds
the number of runes. -/
def validFuel : Nat → Bytes → Bool
  | 0, s => s.isEmpty
  | _ + 1, [] => true
  | fuel + 1, c :: rest =>
    match runeLen (c :: rest) with
    | none => false
    | some n => validFuel fuel ((c :: rest).drop n)

/-- `utf8.Valid`: whether the input is well-formed UTF-8. -/
def Valid (s : Bytes) : Bool := validFuel s.length s

end utf8

namespace json

/-- A scanned JSON value with the bytes it was scanned from. -/
inductive Value where
  | null
  | bool (b : Bool)
  | number (raw : Bytes)
  | string (raw : Bytes) (val : Bytes)
  | array (raw : Bytes) (items : List Value)
  | object (raw : Bytes) (members : List (Bytes × Value))

/-- The errors of `json.Unmarshal`: a `*SyntaxError`, an
`*UnmarshalTypeError` with its `Value` field, or the error a custom
`UnmarshalJSON` returned. -/
inductive Error where
  | SyntaxError
  | UnmarshalTypeError (value : Bytes)
  | custom (msg : String)
deriving DecidableEq, Repr

/-- The Go `error` of a JSON error. -/
def Error.toError : Error → String
  | .SyntaxError => "invalid character or unexpected end of JSON input"
  | .UnmarshalTypeError _ => "json: cannot unmarshal value into Go value"
  | .custom msg => msg

/-- The bytes a value was scanned from. -/
def Value.raw : Value → Bytes
  | .null => ascii "null"
  | .bool true => ascii "true"
  | .bool false => ascii "false"
  | .number raw => raw
  | .string raw _ => raw
  | .array raw _ => raw
  | .object raw _ => raw

/-- The `Value` field of the `UnmarshalTypeError` raised for a value. -/
def Value.kind : Value → Bytes
  | .null => ascii "null"
  | .bool _ => ascii "bool"
  | .number _ => ascii "number"
  | .string _ _ => ascii "string"
  | .array _ _ => ascii "array"
  | .object _ _ => ascii "object"

/-- Drop leading JSON white space. -/
def skipWS : Bytes → Bytes
  | c :: rest => if c = 32 ∨ c = 9 ∨ c = 13 ∨ c = 10 then skipWS rest else c :: rest
  | [] => []

/-- The value of a hexadecimal digit. -/
def hexVal (c : Nat) : Option Nat :=
  if 48 ≤ c ∧ c ≤ 57 then some (c - 48)
  else if 97 ≤ c ∧ c ≤ 102 then some (c - 87)
  else if 65 ≤ c ∧ c ≤ 70 then some (c - 55)
  else none

/-- The value of four hexadecimal digits at the head of the input. -/
def hex4 : Bytes → Option Nat
  | a :: b :: c :: d :: _ => do
    let a ← hexVal a
    let b ← hexVal b
    let c ← hexVal c
    let d ← hexVal d
    pure (a * 4096 + b * 256 + c * 16 + d)
  | _ => none

/-- The second half `\uXXXX` of a surrogate pair at the head of the input
(`getu4`), if it is a low surrogate. -/
def lowSurrogate : Bytes → Option Nat
  | 92 :: 117 :: rest =>
    match hex4 rest with
    | some r => if 0xDC00 ≤ r ∧ r ≤ 0xDFFF then some r else none
    | none => none
  | _ => none

/-- Scan a string after its opening quote: the decoded contents and the
input after the closing quote.  Escapes are decoded, an unpaired surrogate
and malformed UTF-8 become U+FFFD, a control character is a syntax error
(`none`). -/
def scanStringBody : Nat → Bytes → Option (Bytes × Bytes)
  | 0, _ => none
  | _ + 1, [] => none
  | fuel + 1, c :: rest =>
    if c = 34 then some ([], rest)
    else if c = 92 then
      match rest with
      | [] => none
      | e :: rest2 =>
        if e = 117 then
          match hex4 rest2 with
          | none => none
          | some r =>
            let rest3 := rest2.drop 4
            if 0xD800 ≤ r ∧ r ≤ 0xDBFF then
              match lowSurrogate rest3 with
              | some r2 =>
                (scanStringBody fuel (rest3.drop 6)).map fun p =>
                  (utf8.EncodeRune ((r - 0xD800) * 1024 + (r2 - 0xDC00) + 0x10000) ++ p.1, p.2)
              | none =>
                (scanStringBody fuel rest3).map fun p => (utf8.EncodeRune 0xFFFD ++ p.1, p.2)
            else (scanStringBody fuel rest3).map fun p => (utf8.EncodeRune r ++ p.1, p.2)
        else
          let plain : Option Nat :=
            if e = 34 ∨ e = 92 ∨ e = 47 then some e
            else if e = 98 then some 8
            else if e = 102 then some 12
            else if e = 110 then some 10
            else if e = 114 then some 13
            else if e = 116 then some 9
            else none
          match plain with
          | none => none
          | some v => (scanStringBody fuel rest2).map fun p => (v :: p.1, p.2)
    else if c < 32 then none
    else
      match utf8.runeLen (c :: rest) with
      | some n =>
        (scanStringBody fuel ((c :: rest).drop n)).map fun p => ((c :: rest).take n ++ p.1, p.2)
      | none => (scanStringBody fuel rest).map fun p => (utf8.EncodeRune 0xFFFD ++ p.1, p.2)

/-- Drop leading decimal digits. -/
def skipDigits : Bytes → Bytes
  | c :: rest => if 48 ≤ c ∧ c ≤ 57 then skipDigits rest else c :: rest
  | [] => []

/-- Whether the input starts with a decimal digit. -/
def startsWithDigit : Bytes → Bool
  | c :: _ => 48 ≤ c && c ≤ 57
  | [] => false

/-- Scan a number: the input after it, `none` on a syntax error. -/
def scanNumber (input : Bytes) : Option Bytes :=
  let afterSign := match input with
    | 45 :: rest => rest
    | _ => input
  let afterInt : Option Bytes := match afterSign with
    | 48 :: rest => some rest
    | c :: rest => if 49 ≤ c ∧ c ≤ 57 then some (skipDigits rest) else none
    | [] => none
  afterInt.bind fun r =>
    let afterFrac : Option Bytes := match r with
      | 46 :: rest => if startsWithDigit rest then some (skipDigits rest) else none
      | _ => some r
    afterFrac.bind fun r =>
      match r with
      | c :: rest =>
        if c = 101 ∨ c = 69 then
          let rest := match rest with
            | 43 :: t => t
            | 45 :: t => t
            | _ => rest
          if startsWithDigit rest then some (skipDigits rest) else none
        else some r
      | [] => some r

/-- The part of `input` consumed when `rest` is what remains. -/
def consumed (input rest : Bytes) : Bytes := input.take (input.length - rest.length)

/-- Strip a literal from the head of the input. -/
def stripLiteral (lit input : Bytes) : Option Bytes :=
  if input.take lit.length = lit then some (input.drop lit.length) else none

mutual

/-- Scan one value at the head of the input (white space already
skipped): the value and the remaining input. -/
def scanValue : Nat → Bytes → Option (Value × Bytes)
  | 0, _ => none
  | _ + 1, [] => none
  | fuel + 1, c :: rest =>
    if c = 123 then
      match skipWS rest with
      | 125 :: rest2 => some (.object (consumed (c :: rest) rest2) [], rest2)
      | rest2 =>
        (scanMembers fuel rest2).map fun p => (.object (consumed (c :: rest) p.2) p.1, p.2)
    else if c = 91 then
      match skipWS rest with
      | 93 :: rest2 => some (.array (consumed (c :: rest) rest2) [], rest2)
      | rest2 =>
        (scanItems fuel rest2).map fun p => (.array (consumed (c :: rest) p.2) p.1, p.2)
    else if c = 34 then
      (scanStringBody (rest.length + 1) rest).map fun p =>
        (.string (consumed (c :: rest) p.2) p.1, p.2)
    else if c = 45 ∨ (48 ≤ c ∧ c ≤ 57) then
      (scanNumber (c :: rest)).map fun r => (.number (consumed (c :: rest) r), r)
    else if c = 116 then (stripLiteral (ascii "true") (c :: rest)).map fun r => (.bool true, r)
    else if c = 102 then (stripLiteral (ascii "false") (c :: rest)).map fun r => (.bool false, r)
    else if c = 110 then (stripLiteral (ascii "null") (c :: rest)).map fun r => (.null, r)
    else none

/-- Scan the members of an object after its opening brace, up to and
including the closing brace. -/
def scanMembers : Nat → Bytes → Option (List (Bytes × Value) × Bytes)
  | 0, _ => none
  | fuel + 1, input =>
    match input with
    | 34 :: rest =>
      match scanStringBody (rest.length + 1) rest with
      | none => none
      | some (key, rest2) =>
        match skipWS rest2 with
        | 58 :: rest3 =>
          match scanValue fuel (skipWS rest3) with
          | none => none
          | some (v, rest4) =>
            match skipWS rest4 with
            | 125 :: rest5 => some ([(key, v)], rest5)
            | 44 :: rest5 =>
              (scanMembers fuel (skipWS rest5)).map fun p => ((key, v) :: p.1, p.2)
            | _ => none
        | _ => none
    | _ => none

/-- Scan the items of an array after its opening bracket, up to and
including the closing bracket. -/
def scanItems : Nat → Bytes → Option (List Value × Bytes)
  | 0, _ => none
  | fuel + 1, input =>
    match scanValue fuel input with
    | none => none
    | some (v, rest) =>
      match skipWS rest with
      | 93 :: rest2 => some ([v], rest2)
      | 44 :: rest2 => (scanItems fuel (skipWS rest2)).map fun p => (v :: p.1, p.2)
      | _ => none

end

/-- The first pass of `json.Unmarshal` (`checkValid`) together with the
scan: the text must be one value, white space around it allowed. -/
def scan (data : Bytes) : Option Value :=
  match scanValue (data.length + 1) (skipWS data) with
  | some (v, rest) => if skipWS rest = [] then some v else none
  | none => none

end json

namespace json

/-- The lower-case hexadecimal digit of a nibble. -/
def lowerhex (n : Nat) : Nat := if n < 10 then 48 + n else 87 + n

/-- The body of `encodeState.string` with HTML escaping, as `json.Marshal`
uses it: quote and backslash are escaped, so are control characters and
`<`, `>`, `&` (as `\u00XX`, with the short forms for line feed, carriage
return and tab), malformed UTF-8 becomes `�`, U+2028 and U+2029 are
written as escapes, every other rune is copied. -/
def escape : Nat → Bytes → Bytes
  | 0, _ => []
  | _ + 1, [] => []
  | fuel + 1, c :: rest =>
    if c < 0x80 then
      if c = 34 ∨ c = 92 then 92 :: c :: escape fuel rest
      else if c = 10 then 92 :: 110 :: escape fuel rest
      else if c = 13 then 92 :: 114 :: escape fuel rest
      else if c = 9 then 92 :: 116 :: escape fuel rest
      else if c < 32 ∨ c = 60 ∨ c = 62 ∨ c = 38 then
        [92, 117, 48, 48, lowerhex (c / 16), lowerhex (c % 16)] ++ escape fuel rest
      else c :: escape fuel rest
    else
      match utf8.runeLen (c :: rest) with
      | none => ascii "\\ufffd" ++ escape fuel rest
      | some n =>
        let r := (c :: rest).take n
        if r = [0xE2, 0x80, 0xA8] then ascii "\\u2028" ++ escape fuel ((c :: rest).drop n)
        else if r = [0xE2, 0x80, 0xA9] then ascii "\\u2029" ++ escape fuel ((c :: rest).drop n)
        else r ++ escape fuel ((c :: rest).drop n)

/-- The JSON string literal `json.Marshal` writes for a Go string. -/
def quote (s : Bytes) : Bytes := [34] ++ escape (s.length + 1) s ++ [34]

/-- The text of an object with the given members, rendered values given. -/
def renderObject : List (String × Bytes) → Bytes
  | [] => [123, 125]
  | (k, v) :: rest =>
    [123] ++ quote (ascii k) ++ [58] ++ v ++
      (rest.flatMap fun m => [44] ++ quote (ascii m.1) ++ [58] ++ m.2) ++ [125]

/-- The state in which storing a value into a target ends: the target,
the first `UnmarshalTypeError` saved while decoding went on, and the
error of a custom `UnmarshalJSON`, which ends decoding at once. -/
structure Stored (α : Type) where
  val : α
  saved : Option Error
  abort : Option Error

/-- Store into a Go `string`: a string is stored, `null` leaves the
target, anything else is a type error. -/
def storeString (v : Value) (cur : Bytes) : Stored Bytes :=
  match v with
  | .string _ val => ⟨val, none, none⟩
  | .null => ⟨cur, none, none⟩
  | _ => ⟨cur, some (.UnmarshalTypeError v.kind), none⟩

/-- Store into a Go `bool`. -/
def storeBool (v : Value) (cur : Bool) : Stored Bool :=
  match v with
  | .bool b => ⟨b, none, none⟩
  | .null => ⟨cur, none, none⟩
  | _ => ⟨cur, some (.UnmarshalTypeError v.kind), none⟩

/-- Upper-case an ASCII letter. -/
def upper (c : Nat) : Nat := if 97 ≤ c ∧ c ≤ 122 then c - 32 else c

/-- The case folding under which a key matches a field name: ASCII letters
fold together, and U+017F and U+212A fold onto `S` and `K`. -/
def fold : Bytes → Bytes
  | 0xC5 :: 0xBF :: rest => 83 :: fold rest
  | 0xE2 :: 0x84 :: 0xAA :: rest => 75 :: fold rest
  | c :: rest => upper c :: fold rest
  | [] => []

/-- The index of the field a key selects: the field of that exact name,
failing that the first field equal under case folding. -/
def fieldIndex (names : List String) (key : Bytes) : Option Nat :=
  let names := names.map ascii
  match names.indexOf? key with
  | some i => some i
  | none => (names.map fold).indexOf? (fold key)

/-- Decode the members of an object into a struct, member by member in
the order of the text; `step` stores one member.  `none` is a panic inside
a custom `UnmarshalJSON`. -/
def decodeMembers {α : Type} (step : Bytes → Value → α → Option (Stored α)) :
    List (Bytes × Value) → α → Option Error → Option (Stored α)
  | [], a, saved => some ⟨a, saved, none⟩
  | (k, v) :: rest, a, saved =>
    match step k v a with
    | none => none
    | some r =>
      let saved := if saved.isSome then saved else r.saved
      match r.abort with
      | some e => some ⟨r.val, saved, some e⟩
      | none => decodeMembers step rest r.val saved

/-- Store a value into a struct: an object is decoded member by member,
`null` leaves the target, anything else is a type error. -/
def storeStruct {α : Type} (step : Bytes → Value → α → Option (Stored α)) (v : Value)
    (cur : α) : Option (Stored α) :=
  match v with
  | .object _ members => decodeMembers step members cur none
  | .null => some ⟨cur, none, none⟩
  | _ => some ⟨cur, some (.UnmarshalTypeError v.kind), none⟩

/-- `json.Unmarshal(data, &target)` with `store` the decoding for the type
of the target: the new target and the error.  A syntax error leaves the
target; the error of a custom `UnmarshalJSON` comes before a saved type
error. -/
def Unmarshal {α : Type} (store : Value → α → Option (Stored α)) (data : Bytes) (target : α) :
    Option (α × Option Error) :=
  match scan data with
  | none => some (target, some .SyntaxError)
  | some v =>
    (store v target).map fun r => (r.val, if r.abort.isSome then r.abort else r.saved)

end json

/-! ## time: RFC 3339 in UTC -/

namespace time

/-- The zero `time.Time`: January 1 of year 1, 00:00:00 UTC. -/
def zero : Time := ⟨-62135596800, 0⟩

/-- `time.Unix(sec, 0)`. -/
def Unix (sec : Int) : Time := ⟨sec, 0⟩

/-- Whether a year is a leap year. -/
def isLeap (y : Int) : Bool := y % 4 = 0 && (y % 100 != 0 || y % 400 = 0)

/-- The number of days of a month. -/
def daysIn (m : Nat) (y : Int) : Nat :=
  if m = 2 then (if isLeap y then 29 else 28)
  else if m = 4 ∨ m = 6 ∨ m = 9 ∨ m = 11 then 30 else 31

/-- Days from the Unix epoch to a civil date. -/
def daysFromCivil (y : Int) (m d : Nat) : Int :=
  let y := if m ≤ 2 then y - 1 else y
  let era := y / 400
  let yoe := y - era * 400
  let mp : Int := if m > 2 then m - 3 else m + 9
  let doy := (153 * mp + 2) / 5 + d - 1
  let doe := yoe * 365 + yoe / 4 - yoe / 100 + doy
  era * 146097 + doe - 719468

/-- The civil date (year, month, day) of a day count from the Unix epoch. -/
def civilFromDays (z : Int) : Int × Nat × Nat :=
  let z := z + 719468
  let era := z / 146097
  let doe := z - era * 146097
  let yoe := (doe - doe / 1460 + doe / 36524 - doe / 146096) / 365
  let doy := doe - (365 * yoe + yoe / 4 - yoe / 100)
  let mp := (5 * doy + 2) / 153
  let d := doy - (153 * mp + 2) / 5 + 1
  let m := if mp < 10 then mp + 3 else mp - 9
  let y := yoe + era * 400 + (if m ≤ 2 then 1 else 0)
  (y, m.toNat, d.toNat)

/-- A number as exactly `n` decimal digits (its low `n` digits). -/
def pad : Nat → Nat → Bytes
  | 0, _ => []
  | n + 1, v => pad n (v / 10) ++ [48 + v % 10]

/-- Drop trailing zero digits. -/
def trimZeros (s : Bytes) : Bytes := (s.reverse.dropWhile (· = 48)).reverse

/-- The layout `RFC3339Nano` for a time in UTC. -/
def formatRFC3339Nano (t : Time) : Bytes :=
  let (y, m, d) := civilFromDays (t.sec / 86400)
  let s := (t.sec % 86400).toNat
  let frac := trimZeros (pad 9 t.nsec)
  pad 4 y.toNat ++ [45] ++ pad 2 m ++ [45] ++ pad 2 d ++ [84] ++ pad 2 (s / 3600) ++ [58] ++
    pad 2 (s / 60 % 60) ++ [58] ++ pad 2 (s % 60) ++
    (if frac = [] then [] else 46 :: frac) ++ [90]

/-- The method `Time.MarshalJSON`: the RFC 3339 text in quotes, an error
when the year is outside 0..9999. -/
def MarshalJSON (t : Time) : Bytes × error :=
  let y := (civilFromDays (t.sec / 86400)).1
  if y < 0 ∨ y ≥ 10000 then ([], some "Time.MarshalJSON: year outside of range [0,9999]")
  else ([34] ++ formatRFC3339Nano t ++ [34], none)

/-- Read exactly `n` decimal digits. -/
def digits : Nat → Nat → Bytes → Option (Nat × Bytes)
  | 0, acc, s => some (acc, s)
  | n + 1, acc, c :: rest => if 48 ≤ c ∧ c ≤ 57 then digits n (acc * 10 + (c - 48)) rest else none
  | _ + 1, _, [] => none

/-- Read one or two decimal digits (`getnum` without a fixed width). -/
def digits12 : Bytes → Option (Nat × Bytes)
  | c :: d :: rest =>
    if 48 ≤ c ∧ c ≤ 57 then
      if 48 ≤ d ∧ d ≤ 57 then some ((c - 48) * 10 + (d - 48), rest) else some (c - 48, d :: rest)
    else none
  | [c] => if 48 ≤ c ∧ c ≤ 57 then some (c - 48, []) else none
  | [] => none

/-- Expect one byte. -/
def expect (c : Nat) : Bytes → Option Bytes
  | d :: rest => if d = c then some rest else none
  | [] => none

/-- The nanoseconds of a run of fraction digits: the first nine count. -/
def nanos (ds : Bytes) : Nat :=
  ((ds.take 9 ++ List.replicate (9 - ds.length) 48).foldl (fun a c => a * 10 + (c - 48)) 0)

/-- An optional fraction of a second after the seconds field: a period or
comma followed by at least one digit. -/
def fraction (s : Bytes) : Nat × Bytes :=
  match s with
  | c :: d :: rest =>
    if (c = 46 ∨ c = 44) ∧ 48 ≤ d ∧ d ≤ 57 then
      let ds := (d :: rest).takeWhile (fun x => 48 ≤ x && x ≤ 57)
      (nanos ds, (d :: rest).drop ds.length)
    else (0, s)
  | _ => (0, s)

/-- The zone of the layout element `Z07:00`: `Z`, or a sign with hours and
minutes; the offset in seconds east of UTC. -/
def zone (s : Bytes) : Option (Int × Bytes) :=
  match s with
  | 90 :: rest => some (0, rest)
  | sign :: h1 :: h2 :: 58 :: m1 :: m2 :: rest =>
    match digits 2 0 [h1, h2], digits 2 0 [m1, m2] with
    | some (hr, _), some (mm, _) =>
      if hr > 24 ∨ mm > 60 then none
      else if sign = 43 then some (((hr * 60 + mm) * 60 : Nat), rest)
      else if sign = 45 then some (-((hr * 60 + mm) * 60 : Nat), rest)
      else none
    | _, _ => none
  | _ => none

/-- The date `2006-01-02` of the layout: year, month, day and the rest. -/
def parseDate (s : Bytes) : Option ((Int × Nat × Nat) × Bytes) :=
  (digits 4 0 s).bind fun (year, s) =>
  (expect 45 s).bind fun s =>
  (digits 2 0 s).bind fun (month, s) =>
  (expect 45 s).bind fun s =>
  (digits 2 0 s).bind fun (day, s) => some ((year, month, day), s)

/-- The clock `15:04:05` of the layout with an optional fraction: hour,
minute, second, nanoseconds and the rest. -/
def parseClock (s : Bytes) : Option ((Nat × Nat × Nat × Nat) × Bytes) :=
  (digits12 s).bind fun (hour, s) =>
  (expect 58 s).bind fun s =>
  (digits 2 0 s).bind fun (min, s) =>
  (expect 58 s).bind fun s =>
  (digits 2 0 s).bind fun (sec, s) => some ((hour, min, sec, (fraction s).1), (fraction s).2)

/-- `time.Parse(time.RFC3339, s)`; `none` is a `*time.ParseError`. -/
def ParseRFC3339 (s : Bytes) : Option Time :=
  (parseDate s).bind fun ((year, month, day), s) =>
  (expect 84 s).bind fun s =>
  (parseClock s).bind fun ((hour, min, sec, nsec), s) =>
  (zone s).bind fun (offset, s) =>
    if s ≠ [] ∨ month < 1 ∨ month > 12 ∨ hour ≥ 24 ∨ min ≥ 60 ∨ sec ≥ 60 ∨ day < 1 ∨
        day > daysIn month year then none
    else
      some ⟨daysFromCivil year month day * 86400 + (hour * 3600 + min * 60 + sec : Nat) - offset,
        nsec⟩

end time

/-! ## util.go and the JSON adapters of misctypes.go, userlogin.go -/

namespace strconv

/-- `strconv.ParseInt(s, 10, 64)`. -/
def ParseInt (s : Bytes) : Int × error :=
  match s with
  | [] => (0, some "invalid syntax")
  | c :: rest =>
    let neg := decide (c = 45)
    let digits := if c = 43 ∨ c = 45 then rest else s
    let r := ParseUint digits
    if r.2.isSome ∧ r.2 ≠ some "value out of range" then (0, r.2)
    else if ¬ neg ∧ r.1 ≥ 9223372036854775808 then
      (9223372036854775807, some "value out of range")
    else if neg ∧ r.1 > 9223372036854775808 then
      (-9223372036854775808, some "value out of range")
    else (if neg then -(r.1 : Int) else (r.1 : Int), none)

end strconv

namespace errors

/-- `errors.New`. -/
def New (msg : Bytes) : error := some (String.mk (msg.map Char.ofNat))

end errors

namespace json

/-- The state after storing, with the target mapped. -/
def Stored.map {α β : Type} (f : α → β) (r : Stored α) : Stored β := ⟨f r.val, r.saved, r.abort⟩

/-- Store into a Go `int`: a number is parsed with `strconv.ParseInt`,
`null` leaves the target, anything else is a type error. -/
def storeInt (v : Value) (cur : Int) : Stored Int :=
  match v with
  | .number raw =>
    match strconv.ParseInt raw with
    | (n, none) => ⟨n, none, none⟩
    | (_, some _) => ⟨cur, some (.UnmarshalTypeError (ascii "number " ++ raw)), none⟩
  | .null => ⟨cur, none, none⟩
  | _ => ⟨cur, some (.UnmarshalTypeError v.kind), none⟩

/-- `json.Unmarshal(data, &s)` for a Go `string` variable `s`. -/
def UnmarshalString (data : Bytes) (cur : Bytes) : Bytes × Option Error :=
  match scan data with
  | none => (cur, some .SyntaxError)
  | some v => ((storeString v cur).val, (storeString v cur).saved)

/-- Store into a type with its own `UnmarshalJSON`: the method receives
the bytes of the value, and its error ends decoding. -/
def storeCustom {α : Type} (unmarshal : Bytes → α → Option (α × error)) (v : Value) (cur : α) :
    Option (Stored α) :=
  (unmarshal v.raw cur).map fun r => ⟨r.1, none, r.2.map .custom⟩

end json

/-- The function `unmarshalStringyValue`. -/
def unmarshalStringyValue (b : Bytes) : Bytes × error :=
  ((json.UnmarshalString b []).1, (json.UnmarshalString b []).2.map json.Error.toError)

/-- The function `unmarshalStringyInt`. -/
def unmarshalStringyInt (b : Bytes) : Int × error :=
  match unmarshalStringyValue b with
  | (_, some e) => (0, some e)
  | (s, none) => strconv.ParseInt s

/-- The function `iif`. -/
def iif (cond : Bool) (a b : Bytes) : Bytes := if cond then a else b

/-- The method `(*timestamp).UnmarshalJSON`: an RFC 3339 string, failing
that a decimal count of Unix seconds. -/
def timestamp.UnmarshalJSON (b : Bytes) (t : timestamp) : timestamp × error :=
  match unmarshalStringyValue b with
  | (_, some e) => (t, some e)
  | (s, none) =>
    match time.ParseRFC3339 s with
    | some tm => (⟨tm⟩, none)
    | none =>
      match strconv.ParseInt s with
      | (_, some e) => (⟨time.zero⟩, some e)
      | (i, none) => (⟨time.Unix i⟩, none)

/-- The method `(*timestamp).String`. -/
def timestamp.String (t : timestamp) : Bytes := strconv.FormatInt t.Time.Unix

/-- The zero `SessionData`. -/
def SessionData.zero : SessionData :=
  { SessionID := [], SteamLogin := [], SteamLoginSecure := [], WebCookie := [],
    OAuthToken := [], SteamID := 0 }

/-- The zero `SteamGuardAccount`, an empty record. -/
def SteamGuardAccount.zero : SteamGuardAccount :=
  { SharedSecret := [], SerialNumber := [], RevocationCode := [], URI := [],
    ServerTime := ⟨time.zero⟩, AccountName := [], TokenGID := [], IdentitySecret := [],
    Secret1 := [], Status := 0, DeviceID := [], FullyEnrolled := false, Session := none }

/-- What `json.Marshal` writes for a `SessionData`; the `SteamID` field
goes through `SteamID.MarshalJSON`. -/
def SessionData.marshal (s : SessionData) : Bytes :=
  json.renderObject
    [("SessionID", json.quote s.SessionID), ("SteamLogin", json.quote s.SteamLogin),
     ("SteamLoginSecure", json.quote s.SteamLoginSecure), ("WebCookie", json.quote s.WebCookie),
     ("OAuthToken", json.quote s.OAuthToken), ("SteamID", (SteamID.MarshalJSON s.SteamID).1)]

/-- The method `Export`: `json.Marshal(s)`.  The `server_time` field goes
through `Time.MarshalJSON`, whose error is the error of `Marshal`; a nil
`Session` is written as `null`. -/
def SteamGuardAccount.Export (s : SteamGuardAccount) : Bytes × error :=
  match time.MarshalJSON s.ServerTime.Time with
  | (_, some e) => ([], some e)
  | (serverTime, none) =>
    (json.renderObject
      [("shared_secret", json.quote s.SharedSecret), ("serial_number", json.quote s.SerialNumber),
       ("revocation_code", json.quote s.RevocationCode), ("uri", json.quote s.URI),
       ("server_time", serverTime), ("account_name", json.quote s.AccountName),
       ("token_gid", json.quote s.TokenGID), ("identity_secret", json.quote s.IdentitySecret),
       ("secret_1", json.quote s.Secret1), ("status", strconv.FormatInt s.Status),
       ("device_id", json.quote s.DeviceID),
       ("fully_enrolled", if s.FullyEnrolled then ascii "true" else ascii "false"),
       ("session", match s.Session with
          | none => ascii "null"
          | some sd => sd.marshal)], none)

/-- Store one member of a JSON object into a `SessionData`. -/
def SessionData.step (key : Bytes) (v : json.Value) (s : SessionData) :
    Option (json.Stored SessionData) :=
  match json.fieldIndex
      ["SessionID", "SteamLogin", "SteamLoginSecure", "WebCookie", "OAuthToken", "SteamID"]
      key with
  | some 0 => some ((json.storeString v s.SessionID).map fun x => { s with SessionID := x })
  | some 1 => some ((json.storeString v s.SteamLogin).map fun x => { s with SteamLogin := x })
  | some 2 =>
    some ((json.storeString v s.SteamLoginSecure).map fun x => { s with SteamLoginSecure := x })
  | some 3 => some ((json.storeString v s.WebCookie).map fun x => { s with WebCookie := x })
  | some 4 => some ((json.storeString v s.OAuthToken).map fun x => { s with OAuthToken := x })
  | some 5 =>
    (json.storeCustom (fun b _ => SteamID.UnmarshalJSON b) v s.SteamID).map
      fun r => r.map fun x => { s with SteamID := x }
  | _ => some ⟨s, none, none⟩

/-- Store into the pointer field `Session *SessionData`: `null` sets it to
nil, any other value allocates a zero `SessionData` when it is nil and
stores into the struct. -/
def storeSession (v : json.Value) (cur : Option SessionData) :
    Option (json.Stored (Option SessionData)) :=
  match v with
  | .null => some ⟨none, none, none⟩
  | _ => (json.storeStruct SessionData.step v (cur.getD SessionData.zero)).map fun r => r.map some

/-- Store one member of a JSON object into a `SteamGuardAccount`. -/
def SteamGuardAccount.step (key : Bytes) (v : json.Value) (s : SteamGuardAccount) :
    Option (json.Stored SteamGuardAccount) :=
  match json.fieldIndex
      ["shared_secret", "serial_number", "revocation_code", "uri", "server_time", "account_name",
       "token_gid", "identity_secret", "secret_1", "status", "device_id", "fully_enrolled",
       "session"] key with
  | some 0 => some ((json.storeString v s.SharedSecret).map fun x => { s with SharedSecret := x })
  | some 1 => some ((json.storeString v s.SerialNumber).map fun x => { s with SerialNumber := x })
  | some 2 =>
    some ((json.storeString v s.RevocationCode).map fun x => { s with RevocationCode := x })
  | some 3 => some ((json.storeString v s.URI).map fun x => { s with URI := x })
  | some 4 =>
    (json.storeCustom (fun b t => some (timestamp.UnmarshalJSON b t)) v s.ServerTime).map
      fun r => r.map fun x => { s with ServerTime := x }
  | some 5 => some ((json.storeString v s.AccountName).map fun x => { s with AccountName := x })
  | some 6 => some ((json.storeString v s.TokenGID).map fun x => { s with TokenGID := x })
  | some 7 =>
    some ((json.storeString v s.IdentitySecret).map fun x => { s with IdentitySecret := x })
  | some 8 => some ((json.storeString v s.Secret1).map fun x => { s with Secret1 := x })
  | some 9 => some ((json.storeInt v s.Status).map fun x => { s with Status := x })
  | some 10 => some ((json.storeString v s.DeviceID).map fun x => { s with DeviceID := x })
  | some 11 => some ((json.storeBool v s.FullyEnrolled).map fun x => { s with FullyEnrolled := x })
  | some 12 => (storeSession v s.Session).map fun r => r.map fun x => { s with Session := x }
  | _ => some ⟨s, none, none⟩

/-- The method `Import`: `json.Unmarshal([]byte(jsonStr), s)`; the record
after the call and the error.  `none` is a panic. -/
def SteamGuardAccount.Import (s : SteamGuardAccount) (jsonStr : Bytes) :
    Option (SteamGuardAccount × error) :=
  (json.Unmarshal (json.storeStruct SteamGuardAccount.step) jsonStr s).map
    fun r => (r.1, r.2.map json.Error.toError)

/-- The type `OAuth`. -/
structure OAuth where
  SteamID : SteamID
  OAuthToken : Bytes
  SteamLogin : Bytes
  SteamLoginSecure : Bytes
  Webcookie : Bytes
deriving DecidableEq, Repr

/-- The zero `OAuth`. -/
def OAuth.zero : OAuth :=
  { SteamID := 0, OAuthToken := [], SteamLogin := [], SteamLoginSecure := [], Webcookie := [] }

/-- Store one member of a JSON object into a `localOAuth`, the type with
the fields of `OAuth` and none of its methods. -/
def localOAuth.step (key : Bytes) (v : json.Value) (o : OAuth) : Option (json.Stored OAuth) :=
  match json.fieldIndex ["steamid", "oauth_token", "wgtoken", "wgtoken_secure", "webcookie"]
      key with
  | some 0 =>
    (json.storeCustom (fun b _ => SteamID.UnmarshalJSON b) v o.SteamID).map
      fun r => r.map fun x => { o with SteamID := x }
  | some 1 => some ((json.storeString v o.OAuthToken).map fun x => { o with OAuthToken := x })
  | some 2 => some ((json.storeString v o.SteamLogin).map fun x => { o with SteamLogin := x })
  | some 3 =>
    some ((json.storeString v o.SteamLoginSecure).map fun x => { o with SteamLoginSecure := x })
  | some 4 => some ((json.storeString v o.Webcookie).map fun x => { o with Webcookie := x })
  | _ => some ⟨o, none, none⟩

/-- The method `(*OAuth).UnmarshalJSON`: the receiver after the call and
the error.  The bytes are first unmarshalled into a string; on the type
error "object" they are unmarshalled as the object, otherwise the string
is.  `none` is a panic. -/
def OAuth.UnmarshalJSON (b : Bytes) (o : OAuth) : Option (OAuth × error) :=
  let oauthObject := OAuth.zero
  let jsonString := (json.UnmarshalString b []).1
  let err := (json.UnmarshalString b []).2
  let second :=
    if err = some (.UnmarshalTypeError (ascii "object")) then
      json.Unmarshal (json.storeStruct localOAuth.step) b oauthObject
    else json.Unmarshal (json.storeStruct localOAuth.step) jsonString oauthObject
  second.map fun r =>
    match r.2 with
    | none => (r.1, none)
    | some e => (o, some e.toError)

/-! ## userlogin.go -/

namespace url

/-- The type `url.Values`, a map from a key to its values. -/
abbrev Values := List (Bytes × List Bytes)

/-- The method `Values.Set`: the key is given the one value. -/
def Values.Set (v : Values) (key value : Bytes) : Values :=
  (v.filter fun p => p.1 ≠ key) ++ [(key, [value])]

end url

/-- An `http.Cookie`, reduced to its name and value. -/
structure Cookie where
  Name : Bytes
  Value : Bytes
deriving DecidableEq, Repr

/-- An `rsa.PublicKey`. -/
structure PublicKey where
  N : Nat
  E : Int
deriving DecidableEq, Repr

/-- The type `rsaResponse`; `PublicKey` is a pointer, `none` is nil. -/
structure rsaResponse where
  Success : Bool
  PublicKey : Option PublicKey
  Timestamp : timestamp
  TokenGID : Bytes
  SteamID : SteamID
deriving DecidableEq, Repr

/-- The type `LoginResponse`; `OAuth` is a pointer, `none` is nil. -/
structure LoginResponse where
  Success : Bool
  LoginComplete : Bool
  OAuth : Option OAuth
  CaptchaNeeded : Bool
  CaptchaGID : CaptchaGID
  SteamID : SteamID
  EmailAuthNeeded : Bool
  TwoFactorNeeded : Bool
  Message : Bytes
deriving DecidableEq, Repr

/-- The type `LoginResult` with its constants. -/
inductive LoginResult where
  | LoginOkay
  | LoginGeneralFailure
  | BadRSA
  | BadCredentials
  | NeedCaptcha
  | Need2FA
  | NeedEmail
deriving DecidableEq, Repr

/-- The type `UserLogin`; `cookieJar` holds the cookies the jar returns for
the community base URL. -/
structure UserLogin where
  Username : Bytes
  Password : Bytes
  SteamID : SteamID
  RequiresCaptcha : Bool
  CaptchaGID : CaptchaGID
  CaptchaText : Bytes
  RequiresEmail : Bool
  EmailDomain : Bytes
  EmailCode : Bytes
  Requires2FA : Bool
  TwoFactorCode : Bytes
  Session : Option SessionData
  LoggedIn : Bool
  cookieJar : List Cookie
deriving DecidableEq, Repr

/-- The function `NewUserLogin`. -/
def NewUserLogin (username password : Bytes) : UserLogin :=
  { Username := username, Password := password, SteamID := 0, RequiresCaptcha := false,
    CaptchaGID := [], CaptchaText := [], RequiresEmail := false, EmailDomain := [],
    EmailCode := [], Requires2FA := false, TwoFactorCode := [],
    Session := some SessionData.zero, LoggedIn := false, cookieJar := [] }

/-- What the world outside contributes to one `DoLogin` call: the clock,
the outcome of the two JSON requests as a function of the form posted
(the decoded response and the error of `MobileLoginRequest`), the outcome
of `rsa.EncryptPKCS1v15` (which draws random padding), and the cookies the
jar holds for the community base URL once the requests are done. -/
structure LoginExchange where
  now : Time
  getrsakey : url.Values → rsaResponse × error
  encrypt : PublicKey → Bytes → Bytes × error
  dologin : url.Values → LoginResponse × error
  cookies : List Cookie

/-- The form `DoLogin` posts to `/login/dologin` (lines 82 to 115). -/
def UserLogin.loginPostData (u : UserLogin) (rsa : rsaResponse) (encryptedPassword : Bytes)
    (now : Time) : url.Values :=
  let postData := url.Values.Set [] (ascii "username") u.Username
  let postData := postData.Set (ascii "password") (base64.EncodeToString encryptedPassword)
  let postData := postData.Set (ascii "twofactorcode") u.TwoFactorCode
  let postData := postData.Set (ascii "captchagid")
    (iif u.RequiresCaptcha (CaptchaGID.String u.CaptchaGID) (ascii "-1"))
  let postData := postData.Set (ascii "captcha_text") (iif u.RequiresCaptcha u.CaptchaText [])
  let postData := postData.Set (ascii "emailsteamid")
    (iif (u.Requires2FA || u.RequiresEmail) (SteamID.String u.SteamID) [])
  let postData := postData.Set (ascii "emailauth") (iif u.RequiresEmail u.EmailCode [])
  let postData := postData.Set (ascii "rsatimestamp") rsa.Timestamp.String
  let postData := postData.Set (ascii "remember_login") (ascii "false")
  let postData := postData.Set (ascii "oauth_client_id") (ascii "DE45CD61")
  let postData := postData.Set (ascii "oauth_scope")
    (ascii "read_profile write_profile read_client write_client")
  let postData := postData.Set (ascii "loginfriendlyname")
    (ascii "#login_emailauth_friendlyname_mobile")
  postData.Set (ascii "donotcache") (strconv.FormatInt now.Unix)

/-- Lines 131 to 188 of `DoLogin`: the interpretation of the login
response, `cookies` being `cookieJar.Cookies(APIEndpoints.CommunityBase)`. -/
def UserLogin.interpret (u : UserLogin) (loginResponse : LoginResponse) (cookies : List Cookie) :
    (LoginResult × error) × UserLogin :=
  if loginResponse.CaptchaNeeded then
    ((.NeedCaptcha, none),
      { u with RequiresCaptcha := true, CaptchaGID := loginResponse.CaptchaGID })
  else if loginResponse.EmailAuthNeeded then
    ((.NeedEmail, none), { u with RequiresEmail := true, SteamID := loginResponse.SteamID })
  else if loginResponse.TwoFactorNeeded && !loginResponse.Success then
    ((.Need2FA, none), { u with Requires2FA := true })
  else if !loginResponse.LoginComplete then
    if loginResponse.Message ≠ [] then ((.BadCredentials, errors.New loginResponse.Message), u)
    else ((.BadCredentials, none), u)
  else
    match loginResponse.OAuth with
    | none => ((.LoginGeneralFailure, some "missing oauth"), u)
    | some oauth =>
      if oauth.OAuthToken.length = 0 then ((.LoginGeneralFailure, some "missing oauth"), u)
      else
        match cookies.find? (fun cookie => cookie.Name = ascii "sessionid") with
        | none => ((.LoginGeneralFailure, some "missing session cookie"), u)
        | some sessionCookie =>
          ((.LoginOkay, none),
            { u with
              Session := some ({
                OAuthToken := oauth.OAuthToken,
                SteamID := oauth.SteamID,
                SteamLogin := SteamID.String oauth.SteamID ++ ascii "%7C%7C" ++ oauth.SteamLogin,
                SteamLoginSecure :=
                  SteamID.String oauth.SteamID ++ ascii "%7C%7C" ++ oauth.SteamLoginSecure,
                WebCookie := oauth.Webcookie,
                SessionID := sessionCookie.Value } : SessionData) })

/-- The method `DoLogin`: the result, the error and the instance after the
call.  `none` is a nil dereference: of `u.Session` when the empty jar is
primed, or of the public key inside `rsa.EncryptPKCS1v15` when the RSA
response carried none. -/
def UserLogin.DoLogin (u : UserLogin) (x : LoginExchange) :
    Option ((LoginResult × error) × UserLogin) :=
  if u.cookieJar.length = 0 ∧ u.Session = none then none
  else
    let after : UserLogin := { u with cookieJar := x.cookies }
    let postData := url.Values.Set [] (ascii "username") u.Username
    match x.getrsakey postData with
    | (_, some err) => some ((.LoginGeneralFailure, some err), after)
    | (rsaResponse, none) =>
      match rsaResponse.PublicKey with
      | none => none
      | some key =>
        match x.encrypt key u.Password with
        | (_, some err) => some ((.BadRSA, some err), after)
        | (encryptedPassword, none) =>
          match x.dologin (u.loginPostData rsaResponse encryptedPassword x.now) with
          | (_, some err) => some ((.LoginGeneralFailure, some err), after)
          | (loginResponse, none) => some (after.interpret loginResponse x.cookies)

/-! ## Inputs of the tests and of the examples -/

/-- The scanned form of the JSON object of an OAuth payload: the five
members in the order of the struct, the account id as its decimal digits
in quotes, every other member a string literal (`r1`..`r4`, whatever its
escaping) whose contents are the field. -/
def OAuth.objectValue (o : OAuth) (raw idVal r1 r2 r3 r4 : Bytes) : json.Value :=
  .object raw
    [(ascii "steamid", .string ([34] ++ strconv.FormatUint o.SteamID ++ [34]) idVal),
     (ascii "oauth_token", .string r1 o.OAuthToken),
     (ascii "wgtoken", .string r2 o.SteamLogin),
     (ascii "wgtoken_secure", .string r3 o.SteamLoginSecure),
     (ascii "webcookie", .string r4 o.Webcookie)]

/-- The JSON object of an OAuth payload as `json.Marshal(&o)` lays it out:
the five members in the order of the struct, the account id as
`SteamID.MarshalJSON` writes it, which is the decimal digits in quotes and,
for the id zero, the empty string `""`. -/
def OAuth.jsonObject (o : OAuth) : Bytes :=
  json.renderObject
    [("steamid", (SteamID.MarshalJSON o.SteamID).1),
     ("oauth_token", json.quote o.OAuthToken), ("wgtoken", json.quote o.SteamLogin),
     ("wgtoken_secure", json.quote o.SteamLoginSecure), ("webcookie", json.quote o.Webcookie)]

/-- An OAuth payload with the account id zero and the bearer token
"token". -/
def zeroIdOAuth : OAuth := { OAuth.zero with OAuthToken := ascii "token" }

/-- An OAuth payload with the account id 5 whose bearer token is the one
byte 0xFF, which is not well-formed UTF-8. -/
def malformedOAuth : OAuth := { OAuth.zero with SteamID := 5, OAuthToken := [0xFF] }

/-- The OAuth payload of `TestOAuthUnmarshal`. -/
def testOAuth : OAuth :=
  { SteamID := 76561198263585543, OAuthToken := ascii "TestOAuthToken",
    SteamLogin := ascii "TestSteamLogin", SteamLoginSecure := ascii "TestSteamLoginSecure",
    Webcookie := ascii "TestWebcookie" }

/-- The first input of `TestOAuthUnmarshal`: the object. -/
def testOAuthObject : Bytes :=
  ascii ("\x7b\"steamid\":\"76561198263585543\",\"oauth_token\":\"TestOAuthToken\"," ++
    "\"wgtoken\":\"TestSteamLogin\",\"wgtoken_secure\":\"TestSteamLoginSecure\"," ++
    "\"webcookie\":\"TestWebcookie\"\x7d")

/-- The second input of `TestOAuthUnmarshal`: the string holding the object. -/
def testOAuthString : Bytes :=
  ascii ("\"\x7b\\\"steamid\\\":\\\"76561198263585543\\\",\\\"oauth_token\\\":" ++
    "\\\"TestOAuthToken\\\",\\\"wgtoken\\\":\\\"TestSteamLogin\\\",\\\"wgtoken_secure\\\":" ++
    "\\\"TestSteamLoginSecure\\\",\\\"webcookie\\\":\\\"TestWebcookie\\\"\x7d\"")

/-- A login exchange in which both requests succeed with the given
responses, whatever is posted, and encryption succeeds. -/
def fixedExchange (rsa : rsaResponse) (r : LoginResponse) (cookies : List Cookie) :
    LoginExchange :=
  { now := ⟨1445567000, 0⟩, getrsakey := fun _ => (rsa, none),
    encrypt := fun _ _ => ([1, 2, 3], none), dologin := fun _ => (r, none), cookies := cookies }

/-- An RSA response carrying a public key. -/
def sampleRSA : rsaResponse :=
  { Success := true, PublicKey := some ⟨3233, 17⟩, Timestamp := ⟨⟨1445567000, 0⟩⟩,
    TokenGID := [], SteamID := 0 }

/-- A login response marked complete, with the given OAuth payload and no
further requirement. -/
def completeResponse (oauth : Option OAuth) : LoginResponse :=
  { Success := true, LoginComplete := true, OAuth := oauth, CaptchaNeeded := false,
    CaptchaGID := [], SteamID := 0, EmailAuthNeeded := false, TwoFactorNeeded := false,
    Message := [] }

/-- A fresh login instance. -/
def sampleLogin : UserLogin := NewUserLogin (ascii "user") (ascii "pw")

/-- A complete login response whose OAuth payload carries the bearer token
"token". -/
def tokenResponse : LoginResponse :=
  completeResponse (some { OAuth.zero with OAuthToken := ascii "token" })

/-- The instance `sampleLogin` after a `LoginOkay` on `tokenResponse` with
a session cookie of the given value. -/
def loggedInSample (sessionID : Bytes) : UserLogin :=
  { sampleLogin with
    Session := some { SessionData.zero with
      OAuthToken := ascii "token", SessionID := sessionID,
      SteamLogin := ascii "%7C%7C", SteamLoginSecure := ascii "%7C%7C" },
    cookieJar := [⟨ascii "sessionid", sessionID⟩] }

/-! ## API endpoints and the captcha URL -/

/-- The value of `APIEndpoints.CommunityBase.String()`: the URL with scheme
"https" and host "steamcommunity.com". -/
def APIEndpoints.CommunityBase : Bytes := ascii "https://steamcommunity.com"

/-- The value of `APIEndpoints.SteamAPIBase.String()`. -/
def APIEndpoints.SteamAPIBase : Bytes := ascii "https://api.steampowered.com"

/-- The value of `APIEndpoints.TwoFactorTimeQuery.String()`. -/
def APIEndpoints.TwoFactorTimeQuery : Bytes :=
  ascii "https://api.steampowered.com/ITwoFactorService/QueryTime/v0001"

/-- The method `CaptchaGID.URL`. -/
def CaptchaGID.URL (c : CaptchaGID) : Bytes :=
  if c = [] ∨ c = ascii "-1" then []
  else APIEndpoints.CommunityBase ++ ascii "/public/captcha.php?gid=" ++ CaptchaGID.String c

/-- The method `UserLogin.CaptchaURL`. -/
def UserLogin.CaptchaURL (u : UserLogin) : Bytes :=
  CaptchaGID.URL u.CaptchaGID

/-- A sequence of `DoLogin` calls on one instance, one exchange per call:
the result, the error and the instance after each call, in order.  The
sequence ends at a call that panics. -/
def UserLogin.DoLoginAll : UserLogin → List LoginExchange → List ((LoginResult × error) × UserLogin)
  | _, [] => []
  | u, x :: xs =>
    match u.DoLogin x with
    | none => []
    | some r => r :: UserLogin.DoLoginAll r.2 xs

/-- A login response that flags a captcha requirement with the given id. -/
def captchaResponse (gid : CaptchaGID) : LoginResponse :=
  { Success := false, LoginComplete := false, OAuth := none, CaptchaNeeded := true,
    CaptchaGID := gid, SteamID := 0, EmailAuthNeeded := false, TwoFactorNeeded := false,
    Message := [] }

/-- A login response that asks for the email code of the given account. -/
def emailResponse (id : SteamID) : LoginResponse :=
  { Success := false, LoginComplete := false, OAuth := none, CaptchaNeeded := false,
    CaptchaGID := [], SteamID := id, EmailAuthNeeded := true, TwoFactorNeeded := false,
    Message := [] }

/-- The survival of the accumulated fields over one `DoLogin` call, in the
words of the specification: `before` is the instance when the call starts,
`call` the result, the error and the instance when it returns.  The three
requirement flags do not go from true to false, the captcha id changes only
when the call returns `NeedCaptcha`, the account id only when it returns
`NeedEmail`. -/
def spec.fieldsSurvive (before : UserLogin) (call : (LoginResult × error) × UserLogin) : Prop :=
  (before.RequiresCaptcha = true → call.2.RequiresCaptcha = true) ∧
  (before.RequiresEmail = true → call.2.RequiresEmail = true) ∧
  (before.Requires2FA = true → call.2.Requires2FA = true) ∧
  (call.2.CaptchaGID ≠ before.CaptchaGID → call.1.1 = LoginResult.NeedCaptcha) ∧
  (call.2.SteamID ≠ before.SteamID → call.1.1 = LoginResult.NeedEmail)

/-! ## timealigner.go -/

/-- The least `time.Duration`, a count of nanoseconds in an `int64`. -/
def time.minDuration : Int := -9223372036854775808

/-- The greatest `time.Duration`. -/
def time.maxDuration : Int := 9223372036854775807

/-- `Time.Sub`: the duration `t - u` in nanoseconds, held at the least or
greatest duration when it does not fit. -/
def Time.Sub (t u : Time) : Int :=
  let d := (t.sec - u.sec) * 1000000000 + ((t.nsec : Int) - (u.nsec : Int))
  if d < time.minDuration then time.minDuration
  else if d > time.maxDuration then time.maxDuration
  else d

/-- `Time.Add`: the instant `t + d`, the seconds and the nanoseconds of
`d` added apart and the nanoseconds brought back into one second. -/
def Time.Add (t : Time) (d : Int) : Time :=
  let dsec := Int.tdiv d 1000000000
  let nsec : Int := (t.nsec : Int) + Int.tmod d 1000000000
  if nsec ≥ 1000000000 then ⟨t.sec + dsec + 1, (nsec - 1000000000).toNat⟩
  else if nsec < 0 then ⟨t.sec + dsec - 1, (nsec + 1000000000).toNat⟩
  else ⟨t.sec + dsec, nsec.toNat⟩

/-- The type `timeSyncResponse`, its `Response` member written out; a
`seconds` field is its duration in nanoseconds. -/
structure timeSyncResponse where
  ServerTime : timestamp
  SkewTolerence : Int
  LargeTimeJink : Int
  ProbeFrequency : Int
  AdjustedTimeProbeFrequency : Int
  HintProbeFrequency : Int
  SyncTimeout : Int
  RetryDelay : Int
  MaxAttempts : Int
deriving DecidableEq, Repr

/-- The type `timeAligner`. -/
structure timeAligner where
  aligned : Bool
  timeDifference : Int
deriving DecidableEq, Repr

/-- The variable `TimeAligner` as the package initialises it. -/
def TimeAligner : timeAligner := { aligned := false, timeDifference := 0 }

/-- What the outside contributes to one `GetSteamTime` call: the outcome of
the time-query request (the decoded response and the error of `Do`), read
only when `AlignTime` runs, the reading of `time.Now()` inside `AlignTime`
and the reading of `time.Now()` in `GetSteamTime` itself. -/
structure TimeQuery where
  response : timeSyncResponse × error
  nowAlign : Time
  now : Time

/-- The method `AlignTime`, which issues one time-query request: the
aligner after the call. -/
def timeAligner.AlignTime (t : timeAligner) (response : timeSyncResponse × error)
    (now : Time) : timeAligner :=
  match response with
  | (_, some _) => t
  | (tsr, none) => { timeDifference := tsr.ServerTime.Time.Sub now, aligned := true }

/-- The method `GetSteamTime`: the instant returned and the aligner after
the call, then the number of time-query requests the call issued. -/
def timeAligner.GetSteamTime (t : timeAligner) (q : TimeQuery) : (Time × timeAligner) × Nat :=
  if !t.aligned then
    let t := t.AlignTime q.response q.nowAlign
    ((q.now.Add t.timeDifference, t), 1)
  else
    ((q.now.Add t.timeDifference, t), 0)

/-- A sequence of `GetSteamTime` calls with no `AlignTime` call of the
caller in between, one `TimeQuery` per call: what each call returns, in
order. -/
def timeAligner.GetSteamTimeAll : timeAligner → List TimeQuery → List ((Time × timeAligner) × Nat)
  | _, [] => []
  | t, q :: qs => t.GetSteamTime q :: timeAligner.GetSteamTimeAll (t.GetSteamTime q).1.2 qs

/-- A time-query response whose server time is the given Unix second. -/
def serverTimeResponse (sec : Int) : timeSyncResponse :=
  { ServerTime := ⟨time.Unix sec⟩, SkewTolerence := 0, LargeTimeJink := 0, ProbeFrequency := 0,
    AdjustedTimeProbeFrequency := 0, HintProbeFrequency := 0, SyncTimeout := 0, RetryDelay := 0,
    MaxAttempts := 0 }

/-- A `GetSteamTime` call whose time query fails, with the local clock at
the given Unix second. -/
def failedQuery (sec : Int) : TimeQuery :=
  { response := (serverTimeResponse 0, some "dial tcp: i/o timeout"), nowAlign := ⟨sec, 0⟩,
    now := ⟨sec, 0⟩ }

/-- A `GetSteamTime` call whose time query is answered with the server
time `server`, with the local clock at the Unix second `sec`. -/
def answeredQuery (server sec : Int) : TimeQuery :=
  { response := (serverTimeResponse server, none), nowAlign := ⟨sec, 0⟩, now := ⟨sec, 0⟩ }

/-! ## steamweb.go: reading a JSON response -/

/-- An `http.Response`, reduced to what `handleJSON` reads of it: the
"Content-Type" header and the body. -/
structure http.Response where
  ContentType : Bytes
  Body : Bytes
deriving DecidableEq, Repr

/-- `json.NewDecoder(r).Decode(v)` on a fresh decoder: the first value of
the stream is read, what follows it is left unread, and the value is stored
into `v`.  `store` is the decoding for the type `v` points to; `none` is a
`v` that is not a pointer, which `Decode` answers with an
`InvalidUnmarshalError` once the value is read, storing nothing. -/
def json.Decoder.Decode {α : Type} (store : Option (json.Value → α → Option (json.Stored α)))
    (stream : Bytes) (target : α) : Option (α × Option json.Error) :=
  match json.scanValue (stream.length + 1) (json.skipWS stream) with
  | none => some (target, some .SyntaxError)
  | some (v, _) =>
    match store with
    | none => some (target, some (.custom "json: Unmarshal(non-pointer)"))
    | some st => (st v target).map fun r => (r.val, if r.abort.isSome then r.abort else r.saved)

/-- The method `steamWeb.handleJSON`, `oV` being what `HandleJSON` was
given: the target after the call and the error. -/
def steamWeb.handleJSON {α : Type} (oV : Option (json.Value → α → Option (json.Stored α)))
    (r : http.Response) (target : α) : Option (α × error) :=
  if r.ContentType.take 16 ≠ ascii "application/json" then
    some (target, some "incorrect content type, expecting application/json")
  else
    (json.Decoder.Decode oV r.Body target).map fun p => (p.1, p.2.map json.Error.toError)

/-! ## authenticatorlinker.go -/

/-- The type `LinkResult` with its constants. -/
inductive LinkResult where
  | MustProvidePhoneNumber
  | MustRemovePhoneNumber
  | AwaitingFinalization
  | LinkGeneralFailure
deriving DecidableEq, Repr

/-- The type `FinalizeResult` with its constants. -/
inductive FinalizeResult where
  | BadSMSCode
  | UnableToGenerateCorrectCodes
  | Success
  | FinalizeGeneralFailure
deriving DecidableEq, Repr

/-- The type `AddAuthenticatorResponse`. -/
structure AddAuthenticatorResponse where
  Response : SteamGuardAccount
deriving DecidableEq, Repr

/-- The type `FinalizeAuthenticatorResponse`, its `Response` member written
out. -/
structure FinalizeAuthenticatorResponse where
  Status : Int
  ServerTime : timestamp
  WantMore : Bool
  Success : Bool
deriving DecidableEq, Repr

/-- The type `HasPhoneResponse`. -/
structure HasPhoneResponse where
  HasPhone : Bool
deriving DecidableEq, Repr

/-- The type `AddPhoneResponse`. -/
structure AddPhoneResponse where
  Success : Bool
deriving DecidableEq, Repr

/-- The type `AuthenticatorLinker`.  The cookie jar, which only the
transport reads, is left out. -/
structure AuthenticatorLinker where
  PhoneNumber : Bytes
  DeviceID : Bytes
  LinkedAccount : SteamGuardAccount
  Finalized : Bool
  session : Option SessionData
deriving DecidableEq, Repr

/-- `hex.EncodeToString`: two lower-case hexadecimal digits a byte. -/
def hex.EncodeToString (src : Bytes) : Bytes :=
  src.flatMap fun b =>
    [(ascii "0123456789abcdef").getD (b / 16) 0, (ascii "0123456789abcdef").getD (b % 16) 0]

/-- The function `generateDeviceID`, `random` being the outcome of
`rand.Read` on the buffer of 8 bytes: the bytes read and the error. -/
def generateDeviceID (random : Bytes × error) : Bytes :=
  match random with
  | (_, some _) => []
  | (buf, none) => ascii "android:" ++ hex.EncodeToString (sha1.Sum buf)

/-- The function `NewAuthenticatorLinker`.  `none` is the nil dereference
of `session` inside `SetCookies`. -/
def NewAuthenticatorLinker (session : Option SessionData) (random : Bytes × error) :
    Option AuthenticatorLinker :=
  match session with
  | none => none
  | some sd =>
    some { PhoneNumber := [], DeviceID := generateDeviceID random,
           LinkedAccount := SteamGuardAccount.zero, Finalized := false, session := some sd }

/-- What the server contributes to one `AddAuthenticator` call: the
outcome of `Client.Do` for the phone probe (the response and the error),
and for the two requests whose target is passed by address the decoded
response and the error of `Do`, given the URL or the form that is sent. -/
structure LinkExchange where
  hasPhone : http.Response × error
  addPhone : Bytes → AddPhoneResponse × error
  addAuthenticator : url.Values → AddAuthenticatorResponse × error

/-- The URL of the phone probe. -/
def hasPhoneURL : Bytes :=
  APIEndpoints.CommunityBase ++ ascii "/steamguard/phoneajax?op=has_phone&arg="

/-- The URL of the request that attaches the phone number. -/
def addPhoneURL (al : AuthenticatorLinker) : Bytes :=
  APIEndpoints.CommunityBase ++ ascii "/steamguard/phoneajax?op=add_phone_number&arg="
    ++ url.QueryEscape al.PhoneNumber

/-- The URL of the enrollment request. -/
def addAuthenticatorURL : Bytes :=
  APIEndpoints.SteamAPIBase ++ ascii "/ITwoFactorService/AddAuthenticator/v0001"

/-- The method `hasPhoneAttached`.  `HandleJSON` is given the local
`hasPhoneResponse` itself, not its address, so `handleJSON` decodes into a
target that is not a pointer, and the local that is returned from is never
written.  `none` is a panic. -/
def AuthenticatorLinker.hasPhoneAttached (_al : AuthenticatorLinker)
    (probe : http.Response × error) : Option Bool :=
  let hasPhoneResponse : HasPhoneResponse := { HasPhone := false }
  match probe with
  | (_, some _) => some false
  | (resp, none) =>
    match steamWeb.handleJSON none resp hasPhoneResponse with
    | none => none
    | some (_, some _) => some false
    | some (_, none) => some hasPhoneResponse.HasPhone

/-- The method `addPhoneNumber`. -/
def AuthenticatorLinker.addPhoneNumber (al : AuthenticatorLinker)
    (addPhone : Bytes → AddPhoneResponse × error) : Bool :=
  match addPhone (addPhoneURL al) with
  | (_, some _) => false
  | (addPhoneResponse, none) => addPhoneResponse.Success

/-- The form `AddAuthenticator` posts. -/
def AuthenticatorLinker.addPostData (al : AuthenticatorLinker) (session : SessionData) :
    url.Values :=
  [(ascii "access_token", [session.OAuthToken]),
   (ascii "steamid", [SteamID.String session.SteamID]),
   (ascii "authenticator_type", [ascii "1"]),
   (ascii "device_identifier", [al.DeviceID]),
   (ascii "sms_phone_id", [ascii "1"])]

/-- The method `AddAuthenticator`: the result, the error and the linker
after the call, then the URLs of the requests the call issued, in order.
`none` is a panic: the nil dereference of `al.session`. -/
def AuthenticatorLinker.AddAuthenticator (al : AuthenticatorLinker) (x : LinkExchange) :
    Option (((LinkResult × error) × AuthenticatorLinker) × List Bytes) :=
  match al.hasPhoneAttached x.hasPhone with
  | none => none
  | some hasPhone =>
    if hasPhone ∧ al.PhoneNumber ≠ [] then
      some (((.MustRemovePhoneNumber, none), al), [hasPhoneURL])
    else if ¬ hasPhone ∧ al.PhoneNumber = [] then
      some (((.MustProvidePhoneNumber, none), al), [hasPhoneURL])
    else if ¬ hasPhone ∧ ¬ al.addPhoneNumber x.addPhone then
      some (((.LinkGeneralFailure, none), al), [hasPhoneURL, addPhoneURL al])
    else
      let requests :=
        (if hasPhone then [hasPhoneURL] else [hasPhoneURL, addPhoneURL al])
          ++ [addAuthenticatorURL]
      match al.session with
      | none => none
      | some session =>
        match x.addAuthenticator (al.addPostData session) with
        | (_, some err) => some (((.LinkGeneralFailure, some err), al), requests)
        | (addAuthenticatorResponse, none) =>
          if addAuthenticatorResponse.Response.Status ≠ 1 then
            some (((.LinkGeneralFailure, none), al), requests)
          else
            some (((.AwaitingFinalization, none),
              { al with
                LinkedAccount :=
                  { addAuthenticatorResponse.Response with
                    Session := al.session, DeviceID := al.DeviceID } }), requests)

/-- The method `GenerateSteamGuardCode`: the code (`none` is a panic) and
the aligner after the `GetSteamTime` call, then the number of time-query
requests issued. -/
def SteamGuardAccount.GenerateSteamGuardCode (s : SteamGuardAccount) (t : timeAligner)
    (q : TimeQuery) : (Option Bytes × timeAligner) × Nat :=
  let r := t.GetSteamTime q
  ((s.GenerateSteamGuardCodeForTime r.1.1, r.1.2), r.2)

/-- How a run of a loop ends: it returns, it panics, or the fuel of the
model runs out before it does either. -/
inductive Run (α : Type) where
  | done (a : α)
  | panic
  | outOfFuel
deriving DecidableEq, Repr

/-- What the outside contributes to one `FinalizeAddAuthenticator` call:
what the n-th `GetSteamTime` call of it meets, and the outcome of the n-th
finalize request (the decoded response and the error of `Do`) given the
form that is posted; both count from 0. -/
structure FinalizeExchange where
  steamTime : Nat → TimeQuery
  finalize : Nat → url.Values → FinalizeAuthenticatorResponse × error

/-- The variables of the loop of `FinalizeAddAuthenticator`, with the
aligner of the package, the number of `GetSteamTime` calls made and of
time-query requests issued so far, and the forms of the finalize requests
issued so far, in order. -/
structure finalizeState where
  tries : Nat
  smsCodeGood : Bool
  postData : url.Values
  aligner : timeAligner
  clockCalls : Nat
  timeQueries : Nat
  requests : List url.Values

/-- What a `FinalizeAddAuthenticator` call leaves: the result, the error,
the linker and the aligner after the call, the number of time-query
requests and the forms of the finalize requests it issued, in order. -/
structure FinalizeOutcome where
  result : FinalizeResult
  err : error
  linker : AuthenticatorLinker
  aligner : timeAligner
  timeQueries : Nat
  requests : List url.Values

/-- The head of a round of the loop of `FinalizeAddAuthenticator`: the
form the round posts, the aligner after the two `GetSteamTime` calls and
the number of time-query requests they issued.  Both arguments of `iif` are
evaluated, so the code is generated in the first round as well.  `none` is
a panic inside the code generation. -/
def AuthenticatorLinker.finalizeForm (al : AuthenticatorLinker) (x : FinalizeExchange)
    (st : finalizeState) : Option ((url.Values × timeAligner) × Nat) :=
  let g := al.LinkedAccount.GenerateSteamGuardCode st.aligner (x.steamTime st.clockCalls)
  match g.1.1 with
  | none => none
  | some code =>
    let postData := st.postData.Set (ascii "authenticator_code") (iif (st.tries = 0) [] code)
    let tm := g.1.2.GetSteamTime (x.steamTime (st.clockCalls + 1))
    let postData := postData.Set (ascii "authenticator_time") (strconv.FormatInt tm.1.1.Unix)
    let postData :=
      if st.smsCodeGood then postData.Set (ascii "activation_code") [] else postData
    some ((postData, tm.1.2), g.2 + tm.2)

/-- The loop `for tries := 0; tries <= 30;` of `FinalizeAddAuthenticator`
with the return that follows it, one round of the loop per unit of fuel. -/
def AuthenticatorLinker.finalizeLoop (al : AuthenticatorLinker) (x : FinalizeExchange) :
    Nat → finalizeState → Run FinalizeOutcome
  | 0, _ => .outOfFuel
  | fuel + 1, st =>
    if st.tries ≤ 30 then
      match al.finalizeForm x st with
      | none => .panic
      | some ((postData, aligner), queries) =>
        let requests := st.requests ++ [postData]
        let timeQueries := st.timeQueries + queries
        match x.finalize st.requests.length postData with
        | (_, some err) =>
          .done ⟨.FinalizeGeneralFailure, some err, al, aligner, timeQueries, requests⟩
        | (finalizeResponse, none) =>
          if finalizeResponse.Status = 89 then
            .done ⟨.BadSMSCode, none, al, aligner, timeQueries, requests⟩
          else if finalizeResponse.Status = 88 ∧ st.tries ≥ 30 then
            .done ⟨.UnableToGenerateCorrectCodes, none, al, aligner, timeQueries, requests⟩
          else if !finalizeResponse.Success then
            .done ⟨.FinalizeGeneralFailure, none, al, aligner, timeQueries, requests⟩
          else if finalizeResponse.WantMore then
            AuthenticatorLinker.finalizeLoop al x fuel
              { tries := st.tries + 1, smsCodeGood := true, postData := postData,
                aligner := aligner, clockCalls := st.clockCalls + 2,
                timeQueries := timeQueries, requests := requests }
          else
            .done ⟨.Success, none,
              { al with LinkedAccount := { al.LinkedAccount with FullyEnrolled := true } },
              aligner, timeQueries, requests⟩
    else
      .done ⟨.FinalizeGeneralFailure, none, al, st.aligner, st.timeQueries, st.requests⟩

/-- The variables of `FinalizeAddAuthenticator` when its loop starts, the
aligner of the package as the call finds it. -/
def finalizeStart (session : SessionData) (smsCode : Bytes) (t : timeAligner) : finalizeState :=
  { tries := 0, smsCodeGood := false,
    postData :=
      [(ascii "steamid", [SteamID.String session.SteamID]),
       (ascii "access_token", [session.OAuthToken]),
       (ascii "authenticator_code", [[]]),
       (ascii "activation_code", [smsCode])],
    aligner := t, clockCalls := 0, timeQueries := 0, requests := [] }

/-- The method `FinalizeAddAuthenticator`, run on the given fuel, with the
aligner of the package as the call finds it.  `Run.panic` is the nil
dereference of `al.session`. -/
def AuthenticatorLinker.FinalizeAddAuthenticator (al : AuthenticatorLinker) (smsCode : Bytes)
    (t : timeAligner) (x : FinalizeExchange) (fuel : Nat) : Run FinalizeOutcome :=
  match al.session with
  | none => .panic
  | some session => al.finalizeLoop x fuel (finalizeStart session smsCode t)

/-- A session of the account 76561197960265728 with the bearer token
"token". -/
def sampleSession : SessionData :=
  { SessionData.zero with OAuthToken := ascii "token", SteamID := 76561197960265728 }

/-- A linker on `sampleSession` with the given phone number and linked
account. -/
def sampleLinker (phone : Bytes) (account : SteamGuardAccount) : AuthenticatorLinker :=
  { PhoneNumber := phone, DeviceID := ascii "android:device", LinkedAccount := account,
    Finalized := false, session := some sampleSession }

/-- A finalize response: successful, with the given status and the given
"want more" flag. -/
def finalizeResponse (status : Int) (wantMore : Bool) : FinalizeAuthenticatorResponse :=
  { Status := status, ServerTime := ⟨time.Unix 1445567000⟩, WantMore := wantMore,
    Success := true }

/-- A server that answers the first `k` finalize requests with a
successful "want more" response of status 88 and every later one with a
successful response of status 2 that does not want more, the time query
answered with the local clock. -/
def wantMoreServer (k : Nat) : FinalizeExchange :=
  { steamTime := fun n => answeredQuery (1445567000 + n) (1445567000 + n),
    finalize := fun n _ =>
      if n < k then (finalizeResponse 88 true, none) else (finalizeResponse 2 false, none) }

/-- Store one member of a JSON object into a `HasPhoneResponse`. -/
def HasPhoneResponse.step (key : Bytes) (v : json.Value) (r : HasPhoneResponse) :
    Option (json.Stored HasPhoneResponse) :=
  match json.fieldIndex ["has_phone"] key with
  | some 0 => some ((json.storeBool v r.HasPhone).map fun x => { r with HasPhone := x })
  | _ => some ⟨r, none, none⟩

/-- Store one member of a JSON object into an `AddAuthenticatorResponse`. -/
def AddAuthenticatorResponse.step (key : Bytes) (v : json.Value)
    (r : AddAuthenticatorResponse) : Option (json.Stored AddAuthenticatorResponse) :=
  match json.fieldIndex ["response"] key with
  | some 0 =>
    (json.storeStruct SteamGuardAccount.step v r.Response).map
      fun s => s.map fun x => { r with Response := x }
  | _ => some ⟨r, none, none⟩

/-- One call of a caller on a linker, with what the server contributes to
it. -/
inductive LinkerCall where
  | AddAuthenticator (x : LinkExchange)
  | FinalizeAddAuthenticator (smsCode : Bytes) (x : FinalizeExchange)

/-- What a call on a linker returned. -/
inductive LinkerReturn where
  | link (r : LinkResult)
  | finalized (r : FinalizeResult)
deriving DecidableEq, Repr

/-- A sequence of calls on one linker: what each call returned and the
linker after it, in order.  The sequence ends at a call that panics; a
`FinalizeAddAuthenticator` call runs on 32 rounds of fuel. -/
def AuthenticatorLinker.calls :
    AuthenticatorLinker → timeAligner → List LinkerCall →
      List (LinkerReturn × AuthenticatorLinker)
  | _, _, [] => []
  | al, t, .AddAuthenticator x :: rest =>
    match al.AddAuthenticator x with
    | none => []
    | some r => (.link r.1.1.1, r.1.2) :: AuthenticatorLinker.calls r.1.2 t rest
  | al, t, .FinalizeAddAuthenticator smsCode x :: rest =>
    match al.FinalizeAddAuthenticator smsCode t x 32 with
    | .done o => (.finalized o.result, o.linker) :: AuthenticatorLinker.calls o.linker o.aligner rest
    | _ => []

/-- A phone probe answered with the JSON object that reports a phone. -/
def phoneReported : http.Response × error :=
  (⟨ascii "application/json; charset=utf-8", ascii "\x7b\"has_phone\":true\x7d"⟩, none)

/-- An enrollment response of status 1 that carries the given shared
secret and the given "fully enrolled" flag. -/
def enrollmentResponse (sharedSecret : Bytes) (fullyEnrolled : Bool) :
    AddAuthenticatorResponse :=
  ⟨{ SteamGuardAccount.zero with
      SharedSecret := sharedSecret, Status := 1, FullyEnrolled := fullyEnrolled }⟩

/-- A server that reports a phone to the probe, accepts the phone number
and answers the enrollment request with the given response. -/
def enrollingServer (r : AddAuthenticatorResponse) : LinkExchange :=
  { hasPhone := phoneReported, addPhone := fun _ => (⟨true⟩, none),
    addAuthenticator := fun _ => (r, none) }

/-! ## regexp: the three expressions of steamguardaccount.go

An expression is held as its match at the head of an input: the text
matched followed by the text each group captured, as one entry of
`FindAllSubmatch` lists them.  No match of the three expressions is
empty. -/

namespace regexp

/-- Strip a literal from the head of the input. -/
def literal (lit input : Bytes) : Option Bytes :=
  if input.take lit.length = lit then some (input.drop lit.length) else none

/-- Whether a byte is matched by `\d`. -/
def isDigit (c : Nat) : Bool := 48 ≤ c && c ≤ 57

/-- The match of `attr="(\d+)"` at the head of the input, for a literal
`attr`: the greedy run of digits must be followed by the quote. -/
def quotedDigits (attr : Bytes) (input : Bytes) : Option (List Bytes) :=
  match literal (attr ++ ascii "=\"") input with
  | none => none
  | some rest =>
    let digits := rest.takeWhile isDigit
    match rest.dropWhile isDigit with
    | 34 :: _ =>
      if digits = [] then none else some [attr ++ ascii "=\"" ++ digits ++ [34], digits]
    | _ => none

/-- The greatest `k` with `1 ≤ k ≤ from` at which `</div>` stands in the
line: where the greedy `.+` ends. -/
def lastClose (line : Bytes) : Nat → Option Nat
  | 0 => none
  | k + 1 =>
    if (line.drop (k + 1)).take 6 = ascii "</div>" then some (k + 1) else lastClose line k

/-- The match of `((alt) .+)</div>` after `<div>`, for one alternative:
`.` matches every character but the line feed, and `.+` takes as much as
leaves a `</div>` behind it. -/
def description (alt : Bytes) (input : Bytes) : Option (List Bytes) :=
  match literal (alt ++ [32]) input with
  | none => none
  | some rest =>
    let line := rest.takeWhile fun c => c ≠ 10
    match lastClose line line.length with
    | none => none
    | some k =>
      some [ascii "<div>" ++ alt ++ [32] ++ line.take k ++ ascii "</div>",
            alt ++ [32] ++ line.take k, alt]

/-- The match of `<div>((Confirm|Trade with|Sell -) .+)</div>` at the head
of the input, the alternatives tried in order. -/
def divDescription (input : Bytes) : Option (List Bytes) :=
  match literal (ascii "<div>") input with
  | none => none
  | some rest =>
    [ascii "Confirm", ascii "Trade with", ascii "Sell -"].findSome? fun alt =>
      description alt rest

/-- The scan of `FindAllSubmatch`: `skip` bytes of the last match are still
to be passed over; after them the leftmost match is taken, and the scan
goes on behind it. -/
def findAllFrom (re : Bytes → Option (List Bytes)) : Nat → Bytes → List (List Bytes)
  | _, [] => []
  | skip + 1, _ :: rest => findAllFrom re skip rest
  | 0, c :: rest =>
    match re (c :: rest) with
    | some m => m :: findAllFrom re ((m.headD []).length - 1) rest
    | none => findAllFrom re 0 rest

/-- `re.FindAllSubmatch(b, -1)`: the matches that do not overlap, from the
left. -/
def FindAllSubmatch (re : Bytes → Option (List Bytes)) (b : Bytes) : List (List Bytes) :=
  findAllFrom re 0 b

/-- `re.Match(b)`: whether the input holds a match. -/
def Match (re : Bytes → Option (List Bytes)) (b : Bytes) : Bool :=
  !(FindAllSubmatch re b).isEmpty

end regexp

/-- The expression `confIDRegex`. -/
def confIDRegex : Bytes → Option (List Bytes) := regexp.quotedDigits (ascii "data-confid")

/-- The expression `confKeyRegex`. -/
def confKeyRegex : Bytes → Option (List Bytes) := regexp.quotedDigits (ascii "data-key")

/-- The expression `confDescRegex`. -/
def confDescRegex : Bytes → Option (List Bytes) := regexp.divDescription

/-- The type `Confirmation`. -/
structure Confirmation where
  ConfirmationID : Bytes
  ConfirmationKey : Bytes
  ConfirmationDescription : Bytes
deriving DecidableEq, Repr

/-- The loop `for i := range confIDs` of `FetchConfirmations` from the
index `i` on, over the entries of `confIDs` still to visit: the records it
writes, in order.  `none` is an index out of range. -/
def confirmationsFrom (confIDs confKeys confDescs : List (List Bytes)) :
    Nat → List (List Bytes) → Option (List Confirmation)
  | _, [] => some []
  | i, _ :: rest =>
    match (confDescs[i]?).bind (fun m => m[1]?), (confIDs[i]?).bind (fun m => m[1]?),
      (confKeys[i]?).bind (fun m => m[1]?) with
    | some desc, some id, some key =>
      (confirmationsFrom confIDs confKeys confDescs (i + 1) rest).map fun tail =>
        { ConfirmationDescription := desc, ConfirmationID := id, ConfirmationKey := key } :: tail
    | _, _, _ => none

/-- The extraction in `FetchConfirmations`, from the response body read
(lines 151 to 170): the slice returned, nil being the empty list.  `none`
is a panic. -/
def extractConfirmations (response : Bytes) : Option (List Confirmation) :=
  if !(regexp.Match confIDRegex response && regexp.Match confKeyRegex response &&
      regexp.Match confDescRegex response) then some []
  else
    let confIDs := regexp.FindAllSubmatch confIDRegex response
    let confKeys := regexp.FindAllSubmatch confKeyRegex response
    let confDescs := regexp.FindAllSubmatch confDescRegex response
    confirmationsFrom confIDs confKeys confDescs 0 confIDs

/-- A response body with two confirmations, a line each. -/
def twoConfirmations : Bytes :=
  ascii ("<div id=\"conf1\" data-confid=\"123\" data-key=\"456\">\n<div>Confirm trade A</div>\n" ++
    "</div>\n<div id=\"conf2\" data-confid=\"9\" data-key=\"88\">\n<div>Sell - item B</div>\n</div>\n")

/-! ## The confirmation URL -/

/-- The order of Go strings: byte by byte, a proper prefix first. -/
def url.keyLE : Bytes → Bytes → Bool
  | [], _ => true
  | _ :: _, [] => false
  | a :: as, b :: bs => a < b || (a = b && url.keyLE as bs)

/-- Insert an entry into entries sorted by key. -/
def url.insertByKey (e : Bytes × List Bytes) : url.Values → url.Values
  | [] => [e]
  | f :: rest => if url.keyLE e.1 f.1 then e :: f :: rest else f :: url.insertByKey e rest

/-- The method `Values.Encode`: the entries sorted by key, every value
written as `key=value` with both escaped by `QueryEscape`, an `&` before
each pair but the first. -/
def url.Values.Encode (v : url.Values) : Bytes :=
  let sorted := v.foldr url.insertByKey []
  let pairs := sorted.flatMap fun e =>
    e.2.map fun value => url.QueryEscape e.1 ++ [61] ++ url.QueryEscape value
  pairs.foldl (fun buf pair => (if buf.length > 0 then buf ++ [38] else buf) ++ pair) []

/-- The method `generateConfirmationQueryParams`, with the aligner of the
package and what its `GetSteamTime` call meets: the parameters and the
aligner after the call.  `none` is the nil dereference of `s.Session`. -/
def SteamGuardAccount.generateConfirmationQueryParams (s : SteamGuardAccount) (tag : Bytes)
    (t : timeAligner) (q : TimeQuery) : Option (url.Values × timeAligner) :=
  let r := t.GetSteamTime q
  let atTime := r.1.1
  match s.Session with
  | none => none
  | some session =>
    some ([(ascii "p", [s.DeviceID]),
           (ascii "a", [SteamID.String session.SteamID]),
           (ascii "k", [s.generateConfirmationHashForTime atTime tag]),
           (ascii "t", [strconv.FormatInt atTime.Unix]),
           (ascii "m", [ascii "android"]),
           (ascii "tag", [tag])], r.1.2)

/-- The method `generateConfirmationURL`: the URL and the aligner after the
call. -/
def SteamGuardAccount.generateConfirmationURL (s : SteamGuardAccount) (tag : Bytes)
    (t : timeAligner) (q : TimeQuery) : Option (Bytes × timeAligner) :=
  let endpoint := APIEndpoints.CommunityBase ++ ascii "/mobileconf/conf?"
  (s.generateConfirmationQueryParams tag t q).map fun r => (endpoint ++ r.1.Encode, r.2)

/-! ## Decoding a query string once, in the words of the specification -/

namespace spec

/-- The value of a hexadecimal digit. -/
def unhex (c : Nat) : Option Nat :=
  if 48 ≤ c ∧ c ≤ 57 then some (c - 48)
  else if 97 ≤ c ∧ c ≤ 102 then some (c - 87)
  else if 65 ≤ c ∧ c ≤ 70 then some (c - 55)
  else none

/-- One pass of percent-decoding over a query component: `%XX` is the byte
`XX`, `+` is a space, every other byte is itself; `none` when a `%` is not
followed by two hexadecimal digits. -/
def queryUnescape : Bytes → Option Bytes
  | [] => some []
  | 37 :: a :: b :: rest =>
    match unhex a, unhex b, queryUnescape rest with
    | some x, some y, some r => some ((x * 16 + y) :: r)
    | _, _, _ => none
  | 37 :: _ => none
  | 43 :: rest => (queryUnescape rest).map fun r => 32 :: r
  | c :: rest => (queryUnescape rest).map fun r => c :: r

/-- The pieces of a text between the occurrences of a separator. -/
def split (sep : Nat) : Bytes → List Bytes
  | [] => [[]]
  | c :: rest =>
    if c = sep then [] :: split sep rest
    else
      match split sep rest with
      | [] => [[c]]
      | p :: ps => (c :: p) :: ps

/-- One `key=value` piece of a query string, both sides decoded once; a
piece without `=` has the empty value. -/
def decodePair (piece : Bytes) : Option (Bytes × Bytes) :=
  match split 61 piece with
  | [] => none
  | key :: values =>
    match queryUnescape key, queryUnescape (List.intercalate [61] values) with
    | some k, some v => some (k, v)
    | _, _ => none

/-- The pieces of a query string, each decoded once. -/
def decodePairs : List Bytes → Option (List (Bytes × Bytes))
  | [] => some []
  | p :: ps =>
    match decodePair p, decodePairs ps with
    | some a, some b => some (a :: b)
    | _, _ => none

/-- The query string of a URL decoded once: what follows the first `?`,
cut at every `&`, each piece cut at its first `=` and both sides
percent-decoded once; the parameters in the order of the URL. -/
def decodeQuery (urlStr : Bytes) : Option (List (Bytes × Bytes)) :=
  decodePairs (split 38 (List.intercalate [63] ((split 63 urlStr).drop 1)))

end spec

/-- An account with the given identity secret and device identifier, on
`sampleSession`. -/
def confirmingAccount (identitySecret deviceID : Bytes) : SteamGuardAccount :=
  { accountWithSecrets [] identitySecret with
    DeviceID := deviceID, Session := some sampleSession }

/-! ## steamweb.go: preparing a request -/

/-- An `http.Request` as `http.NewRequest` leaves it, reduced to what
`newRequest` decides: the method, the URL text that was parsed into
`req.URL`, the body (`none` is a nil body) and the header, a map from a
name to its values. -/
structure http.Request where
  Method : Bytes
  URL : Bytes
  Body : Option Bytes
  Header : List (Bytes × List Bytes)
deriving DecidableEq, Repr

/-- The function `http.NewRequest`.  `check` is the verdict of the library
on a method and a URL text: the error for an invalid method or for a text
that `url.Parse` rejects, nil otherwise. -/
def http.NewRequest (check : Bytes → Bytes → error) (method urlStr : Bytes) (body : Option Bytes) :
    Option http.Request × error :=
  match check method urlStr with
  | some err => (none, some err)
  | none => (some { Method := method, URL := urlStr, Body := body, Header := [] }, none)

/-- The type `steamWeb`, reduced to the fields `newRequest` reads: the
client and the response handler are left out. -/
structure steamWeb where
  headers : List (Bytes × List Bytes)
  params : url.Values
  urlStr : Bytes
  method : Bytes
deriving DecidableEq, Repr

/-- The function `SteamWeb`. -/
def SteamWeb : steamWeb :=
  { headers :=
      [(ascii "User-Agent",
        [ascii ("Mozilla/5.0 (Linux; U; Android 4.1.1; en-us; Google Nexus 4 - 4.1.1 - API 16 " ++
          "- 768x1280 Build/JRO03S) AppleWebKit/534.30 (KHTML, like Gecko) Version/4.0 " ++
          "Mobile Safari/534.30")]),
       (ascii "Accept", [ascii "text/javascript, text/html, application/xml, text/xml, */*"])],
    params := [], urlStr := [], method := ascii "GET" }

/-- The method `steamWeb.SetParams`. -/
def steamWeb.SetParams (s : steamWeb) (data : url.Values) : steamWeb :=
  { s with params := data }

/-- The method `steamWeb.Post`. -/
def steamWeb.Post (s : steamWeb) (urlStr : Bytes) : steamWeb :=
  { s with urlStr := urlStr, method := ascii "POST" }

/-- The method `steamWeb.Get`. -/
def steamWeb.Get (s : steamWeb) (urlStr : Bytes) : steamWeb :=
  { s with urlStr := urlStr, method := ascii "GET" }

/-- The method `steamWeb.newRequest`: the request and the error.  The
header of a POST with parameters is given its "Content-Type" in `s.headers`
itself, which the request then carries. -/
def steamWeb.newRequest (s : steamWeb) (check : Bytes → Bytes → error) :
    Option http.Request × error :=
  let prepared : (Bytes × Option Bytes) × List (Bytes × List Bytes) :=
    if s.params.length > 0 then
      if s.method = ascii "GET" then
        let query := s.params.Encode
        if 63 ∈ s.urlStr then (([38] ++ query, none), s.headers)
        else (([63] ++ query, none), s.headers)
      else if s.method = ascii "POST" then
        ((s.urlStr, some s.params.Encode),
          url.Values.Set s.headers (ascii "Content-Type")
            (ascii "application/x-www-form-urlencoded; charset=UTF-8"))
      else ((s.urlStr, none), s.headers)
    else ((s.urlStr, none), s.headers)
  match http.NewRequest check s.method prepared.1.1 prepared.1.2 with
  | (some req, none) => (some { req with Header := prepared.2 }, none)
  | (_, err) => (none, err)

/-- The request `AlignTime` prepares (lines 37 to 39 of timealigner.go). -/
def timeAligner.alignRequest : steamWeb :=
  (SteamWeb.Get APIEndpoints.TwoFactorTimeQuery).SetParams [(ascii "steamid", [ascii "0"])]

/-- The request `sendConfirmationAjax` prepares for a confirmation and an
operation (lines 182 to 196 of steamguardaccount.go), with the aligner of
the package and what its `GetSteamTime` call meets.  `none` is the nil
dereference of `s.Session`. -/
def SteamGuardAccount.confirmationAjaxRequest (s : SteamGuardAccount) (conf : Confirmation)
    (op : Bytes) (t : timeAligner) (q : TimeQuery) : Option steamWeb :=
  let urlStr := APIEndpoints.CommunityBase ++ ascii "/mobileconf/ajaxop"
  (s.generateConfirmationQueryParams op t q).map fun r =>
    let query := r.1
    let query := query.Set (ascii "op") op
    let query := query.Set (ascii "cid") conf.ConfirmationID
    let query := query.Set (ascii "ck") conf.ConfirmationKey
    (SteamWeb.SetParams query).Get urlStr

/-- The URL of a GET request with parameters in the words of the
specification: the URL that was prepared, then `?`, or `&` when the URL
already contains a `?`, then the encoded parameters. -/
def spec.requestURL (u : Bytes) (p : url.Values) : Bytes :=
  u ++ (if 63 ∈ u then [38] else [63]) ++ p.Encode

/-- A library verdict that accepts every method and every URL text. -/
def acceptAll : Bytes → Bytes → error := fun _ _ => none

/-- A response body in which the id marker occurs twice, the key marker
and the description marker once. -/
def unevenConfirmations : Bytes :=
  ascii ("<div data-confid=\"123\" data-key=\"456\">\n<div>Confirm trade A</div>\n" ++
    "</div>\n<div data-confid=\"9\">\n</div>\n")

/-! ## Digest, bit and byte-order lemmas -/

theorem sha1_bytesOfWord_lt (w x : Nat) (h : x ∈ sha1.bytesOfWord w) : x < 256 := by
  simp only [sha1.bytesOfWord, List.mem_cons, List.mem_singleton, List.not_mem_nil, or_false] at h
  omega

theorem sha1_Sum_length (m : Bytes) : (sha1.Sum m).length = 20 := by
  simp [sha1.Sum, sha1.bytesOfWord]

theorem sha1_Sum_lt (m : Bytes) (x : Nat) (h : x ∈ sha1.Sum m) : x < 256 := by
  simp only [sha1.Sum, List.mem_append] at h
  rcases h with (((h | h) | h) | h) | h <;> exact sha1_bytesOfWord_lt _ _ h

theorem hmac_length (key msg : Bytes) : (hmac.SumSHA1 key msg).length = 20 := by
  simp [hmac.SumSHA1, sha1_Sum_length]

theorem hmac_lt (key msg : Bytes) (x : Nat) (h : x ∈ hmac.SumSHA1 key msg) : x < 256 := by
  simp only [hmac.SumSHA1] at h
  exact sha1_Sum_lt _ _ h

theorem lor_bytes (a b c d : Nat) (hb : b < 256) (hc : c < 256) (hd : d < 256) :
    a <<< 24 ||| b <<< 16 ||| c <<< 8 ||| d = a * 16777216 + b * 65536 + c * 256 + d := by
  have h1 := Nat.mul_add_lt_is_or (i := 24) (b := b * 65536) (by omega) a
  have h2 := Nat.mul_add_lt_is_or (i := 16) (b := c * 256) (by omega) (a * 256 + b)
  have h3 := Nat.mul_add_lt_is_or (i := 8) (b := d) (by omega) (a * 65536 + b * 256 + c)
  simp only [Nat.shiftLeft_eq]
  norm_num at h1 h2 h3 ⊢
  have e1 : a * 16777216 ||| b * 65536 = a * 16777216 + b * 65536 := by
    rw [show a * 16777216 = 16777216 * a by ring, ← h1]
  have e2 : (a * 16777216 + b * 65536) ||| c * 256 = a * 16777216 + b * 65536 + c * 256 := by
    rw [show a * 16777216 + b * 65536 = 65536 * (a * 256 + b) by ring, ← h2]
  have e3 : (a * 16777216 + b * 65536 + c * 256) ||| d
      = a * 16777216 + b * 65536 + c * 256 + d := by
    rw [show a * 16777216 + b * 65536 + c * 256 = 256 * (a * 65536 + b * 256 + c) by ring, ← h3]
  rw [e1, e2, e3]

theorem and_7F (h : Nat) : h &&& 0x7F = h % 128 := Nat.and_pow_two_sub_one_eq_mod h 7
theorem and_FF (h : Nat) : h &&& 0xFF = h % 256 := Nat.and_pow_two_sub_one_eq_mod h 8
theorem and_F (h : Nat) : h &&& 0xF = h % 16 := Nat.and_pow_two_sub_one_eq_mod h 4

theorem codeLoop_eq (n cp : Nat) : codeLoop n cp = some (spec.symbols n cp) := by
  induction n generalizing cp with
  | zero => rfl
  | succ n ih =>
    have hlen : steamGuardCodeTranslations.length = 26 := rfl
    have hlt : cp % 26 < steamGuardCodeTranslations.length := by rw [hlen]; omega
    have halpha : spec.alphabet = steamGuardCodeTranslations := by decide
    simp only [codeLoop, spec.symbols, hlen, ih, halpha]
    rw [List.getElem?_eq_getElem hlt]
    simp [List.getD_eq_getElem?_getD, List.getElem?_eq_getElem hlt]


theorem getElem?_of_lt20 (hd : Bytes) (hlen : hd.length = 20) (i : Nat) (hi : i < 20) :
    hd[i]? = some (hd.getD i 0) := by
  have : i < hd.length := by omega
  simp [List.getD_eq_getElem?_getD, List.getElem?_eq_getElem this]

theorem getD_lt (hd : Bytes) (hlt : ∀ x ∈ hd, x < 256) (i : Nat) : hd.getD i 0 < 256 := by
  rw [List.getD_eq_getElem?_getD]
  cases h : hd[i]? with
  | none => simp
  | some v =>
    obtain ⟨hi, rfl⟩ := List.getElem?_eq_some_iff.mp h
    simpa using hlt _ (List.getElem_mem hi)

theorem codeOfDigest_eq (hd : Bytes) (hlen : hd.length = 20) (hlt : ∀ x ∈ hd, x < 256) :
    codeOfDigest hd = some (spec.symbols 5 (spec.codePoint hd)) := by
  have hb : (hd.getD 19 0 &&& 0xF) % 256 = hd.getD 19 0 &&& 0xF := by
    rw [and_F]; omega
  have hb15 : hd.getD 19 0 &&& 0xF < 16 := by rw [and_F]; omega
  have b1 := getD_lt hd hlt ((hd.getD 19 0 &&& 0xF) + 1)
  have b2 := getD_lt hd hlt ((hd.getD 19 0 &&& 0xF) + 2)
  have b3 := getD_lt hd hlt ((hd.getD 19 0 &&& 0xF) + 3)
  simp only [codeOfDigest, getElem?_of_lt20 hd hlen 19 (by omega), Option.bind_eq_bind,
    Option.some_bind, hb]
  rw [getElem?_of_lt20 hd hlen _ (by omega : hd.getD 19 0 &&& 0xF < 20)]
  rw [show ((hd.getD 19 0 &&& 0xF) + 1) % 256 = (hd.getD 19 0 &&& 0xF) + 1 by omega,
    show ((hd.getD 19 0 &&& 0xF) + 2) % 256 = (hd.getD 19 0 &&& 0xF) + 2 by omega,
    show ((hd.getD 19 0 &&& 0xF) + 3) % 256 = (hd.getD 19 0 &&& 0xF) + 3 by omega]
  rw [getElem?_of_lt20 hd hlen _ (by omega : (hd.getD 19 0 &&& 0xF) + 1 < 20),
    getElem?_of_lt20 hd hlen _ (by omega : (hd.getD 19 0 &&& 0xF) + 2 < 20),
    getElem?_of_lt20 hd hlen _ (by omega : (hd.getD 19 0 &&& 0xF) + 3 < 20)]
  simp only [Option.some_bind, codeLoop_eq, spec.codePoint]
  rw [and_FF, and_FF, and_FF, and_7F, Nat.mod_eq_of_lt b1, Nat.mod_eq_of_lt b2,
    Nat.mod_eq_of_lt b3, lor_bytes _ _ _ _ b1 b2 b3]

theorem bigEndian_int64 (v : Int) :
    binary.bigEndianUint64 (v % 18446744073709551616).toNat = spec.bigEndian8 v := by
  simp only [binary.bigEndianUint64, spec.bigEndian8]
  have e : ∀ a b : Nat, a = b → ∀ l m : Bytes, l = m → a :: l = b :: m := by
    intro a b h l m h2; rw [h, h2]
  repeat (first | apply e | rfl | omega)

/-! ## Code generation (C1, C2) and confirmation signing (C3, C4) -/

theorem generate_eq_codeOfDigest (s : SteamGuardAccount) (atTime : Time) (key : Bytes)
    (hne : s.SharedSecret ≠ []) (hdec : base64.DecodeString s.SharedSecret = (key, none)) :
    s.GenerateSteamGuardCodeForTime atTime
      = codeOfDigest (hmac.SumSHA1 key (spec.bigEndian8 (Int.tdiv atTime.Unix 30))) := by
  simp only [SteamGuardAccount.GenerateSteamGuardCodeForTime, hne, if_false, hdec,
    binary.Write, List.nil_append, bigEndian_int64]

/-- C1 (amended): for every non-empty shared secret that is valid standard
base64 and every instant, `GenerateSteamGuardCodeForTime` equals the
derivation of the specification with the counter `unixSeconds / 30`
rounded toward zero; for every instant at or after the Unix epoch that is
the reference derivation with `counter = floor(unixSeconds / 30)`. -/
theorem C1_code_matches_reference_from_epoch (s : SteamGuardAccount) (atTime : Time)
    (key : Bytes) (hne : s.SharedSecret ≠ [])
    (hdec : base64.DecodeString s.SharedSecret = (key, none)) :
    s.GenerateSteamGuardCodeForTime atTime
      = some (spec.codeOfCounter key (Int.tdiv atTime.Unix 30)) ∧
    (0 ≤ atTime.Unix →
      s.GenerateSteamGuardCodeForTime atTime = some (spec.referenceCode key atTime.Unix)) := by
  have hcode : s.GenerateSteamGuardCodeForTime atTime
      = some (spec.codeOfCounter key (Int.tdiv atTime.Unix 30)) := by
    rw [generate_eq_codeOfDigest s atTime key hne hdec,
      codeOfDigest_eq _ (hmac_length _ _) (hmac_lt _ _)]
    rfl
  refine ⟨hcode, fun hepoch => ?_⟩
  have hdiv : Int.tdiv atTime.Unix 30 = Int.fdiv atTime.Unix 30 := by
    rw [Int.tdiv_eq_ediv hepoch (by decide), Int.fdiv_eq_ediv _ (by decide)]
  rw [hcode, spec.referenceCode, hdiv]

set_option maxRecDepth 100000 in
/-- C1 witness: the secret "AAAA" at 1445567000 seconds after the epoch. -/
theorem C1_code_matches_reference_from_epoch_witness :
    (accountWithSecrets (ascii "AAAA") []).SharedSecret ≠ [] ∧
    base64.DecodeString (accountWithSecrets (ascii "AAAA") []).SharedSecret = ([0, 0, 0], none) ∧
    (0 : Int) ≤ (Time.mk 1445567000 0).Unix ∧
    (accountWithSecrets (ascii "AAAA") []).GenerateSteamGuardCodeForTime ⟨1445567000, 0⟩
      = some (spec.referenceCode [0, 0, 0] 1445567000) :=
  ⟨by decide, by decide, by decide,
   (C1_code_matches_reference_from_epoch (accountWithSecrets (ascii "AAAA") []) ⟨1445567000, 0⟩
     [0, 0, 0] (by decide) (by decide)).2 (by decide)⟩

set_option maxRecDepth 100000 in
/-- C1 counterexample: one second before the epoch the source divides
toward zero (counter 0, code "RYH4D") while the reference derivation takes
the floor (counter -1), and the two codes differ. -/
theorem C1_floor_counter_fails_before_epoch :
    (accountWithSecrets (ascii "AAAA") []).SharedSecret ≠ [] ∧
    base64.DecodeString (accountWithSecrets (ascii "AAAA") []).SharedSecret = ([0, 0, 0], none) ∧
    (accountWithSecrets (ascii "AAAA") []).GenerateSteamGuardCodeForTime ⟨-1, 0⟩
      = some (ascii "RYH4D") ∧
    (accountWithSecrets (ascii "AAAA") []).GenerateSteamGuardCodeForTime ⟨-1, 0⟩
      ≠ some (spec.referenceCode [0, 0, 0] (-1)) := by
  decide

theorem symbols_length (n cp : Nat) : (spec.symbols n cp).length = n := by
  induction n generalizing cp with
  | zero => rfl
  | succ n ih => simp [spec.symbols, ih]

theorem symbols_mem (n cp : Nat) : ∀ c ∈ spec.symbols n cp, c ∈ spec.alphabet := by
  induction n generalizing cp with
  | zero => intro c h; simp [spec.symbols] at h
  | succ n ih =>
    intro c h
    simp only [spec.symbols, List.mem_cons] at h
    rcases h with h | h
    · have hl : cp % 26 < spec.alphabet.length := by
        have : spec.alphabet.length = 26 := by decide
        omega
      rw [h, List.getD_eq_getElem?_getD, List.getElem?_eq_getElem hl]
      exact List.getElem_mem hl
    · exact ih _ c h

/-- C2: for every non-empty shared secret that is valid standard base64
and every instant, `GenerateSteamGuardCodeForTime` returns (no index out
of range) a string of exactly 5 characters, each in the alphabet
"23456789BCDFGHJKMNPQRTVWXY"; the digest has 20 bytes, the offset
`digest[19] & 0x0F` satisfies `offset + 3 < 20`, and the table has the
26 entries the code indexes modulo 26. -/
theorem C2_code_is_five_alphabet_symbols (s : SteamGuardAccount) (atTime : Time) (key : Bytes)
    (hne : s.SharedSecret ≠ []) (hdec : base64.DecodeString s.SharedSecret = (key, none)) :
    (∃ code, s.GenerateSteamGuardCodeForTime atTime = some code ∧ code.length = 5 ∧
      ∀ c ∈ code, c ∈ ascii "23456789BCDFGHJKMNPQRTVWXY") ∧
    (∀ msg, (hmac.SumSHA1 key msg).length = 20 ∧
      ((hmac.SumSHA1 key msg).getD 19 0 &&& 0xF) + 3 < 20) ∧
    steamGuardCodeTranslations.length = 26 := by
  refine ⟨?_, ?_, rfl⟩
  · rw [generate_eq_codeOfDigest s atTime key hne hdec,
      codeOfDigest_eq _ (hmac_length _ _) (hmac_lt _ _)]
    exact ⟨_, rfl, symbols_length 5 _, symbols_mem 5 _⟩
  · intro msg
    refine ⟨hmac_length _ _, ?_⟩
    rw [and_F]; omega

set_option maxRecDepth 100000 in
/-- C2 witness: the secret "AAAA" at the epoch. -/
theorem C2_code_is_five_alphabet_symbols_witness :
    (accountWithSecrets (ascii "AAAA") []).SharedSecret ≠ [] ∧
    base64.DecodeString (accountWithSecrets (ascii "AAAA") []).SharedSecret = ([0, 0, 0], none) ∧
    ((∃ code, (accountWithSecrets (ascii "AAAA") []).GenerateSteamGuardCodeForTime ⟨0, 0⟩
        = some code ∧ code.length = 5 ∧ ∀ c ∈ code, c ∈ ascii "23456789BCDFGHJKMNPQRTVWXY") ∧
    (∀ msg, (hmac.SumSHA1 [0, 0, 0] msg).length = 20 ∧
      ((hmac.SumSHA1 [0, 0, 0] msg).getD 19 0 &&& 0xF) + 3 < 20) ∧
    steamGuardCodeTranslations.length = 26) :=
  ⟨by decide, by decide,
   C2_code_is_five_alphabet_symbols (accountWithSecrets (ascii "AAAA") []) ⟨0, 0⟩ [0, 0, 0]
     (by decide) (by decide)⟩

set_option maxRecDepth 100000 in
/-- C3 (code defect): `binary.Write` rejects the string it is handed, so
for every instant and every tag the signed buffer is the 8 timestamp bytes
alone (not the 8 + min(len(tag), 32) bytes of the specification), the
signature does not depend on the tag, and it is the signature of the
specification for the empty tag; for the tag "conf" it differs from the
signature of the specification. -/
theorem C3_signed_buffer_omits_tag (s : SteamGuardAccount) (atTime : Time) (tag tag2 : Bytes) :
    confirmationBuffer atTime tag = spec.bigEndian8 atTime.Unix ∧
    (confirmationBuffer atTime tag).length = 8 ∧
    s.generateConfirmationHashForTime atTime tag
      = s.generateConfirmationHashForTime atTime tag2 ∧
    s.generateConfirmationHashForTime atTime tag
      = spec.confirmationSignature (base64.DecodeString s.IdentitySecret).1 atTime.Unix [] ∧
    (spec.confirmationMessage 0 (ascii "conf")).length = 12 ∧
    (accountWithSecrets [] (ascii "AAAA")).generateConfirmationHashForTime ⟨0, 0⟩ (ascii "conf")
      ≠ spec.confirmationSignature [0, 0, 0] 0 (ascii "conf") := by
  have h : ∀ t : Bytes, confirmationBuffer atTime t = spec.bigEndian8 atTime.Unix := by
    intro t
    simp only [confirmationBuffer, binary.Write, List.nil_append, bigEndian_int64]
  refine ⟨h tag, ?_, ?_, ?_, by decide, by decide⟩
  · rw [h tag]; rfl
  · simp only [SteamGuardAccount.generateConfirmationHashForTime, h]
  · simp only [SteamGuardAccount.generateConfirmationHashForTime, h,
      spec.confirmationSignature, spec.confirmationMessage, List.take_nil, List.append_nil]

theorem queryEscape_ne_nil (c : Nat) (r : Bytes) : url.QueryEscape (c :: r) ≠ [] := by
  unfold url.QueryEscape
  split_ifs <;> simp

theorem encode_ne_nil (h : Bytes) (hlen : h.length = 20) : base64.EncodeToString h ≠ [] := by
  match h, hlen with
  | b0 :: b1 :: b2 :: rest, _ => simp [base64.EncodeToString]

theorem confirmationHash_ne_nil (s : SteamGuardAccount) (atTime : Time) (tag : Bytes) :
    s.generateConfirmationHashForTime atTime tag ≠ [] := by
  unfold SteamGuardAccount.generateConfirmationHashForTime
  have h := encode_ne_nil _ (hmac_length (base64.DecodeString s.IdentitySecret).1
    (confirmationBuffer atTime tag))
  cases he : base64.EncodeToString (hmac.SumSHA1 (base64.DecodeString s.IdentitySecret).1
    (confirmationBuffer atTime tag)) with
  | nil => exact absurd he h
  | cons c r => simpa [he] using queryEscape_ne_nil c r

set_option maxRecDepth 100000 in
/-- C4 (code defect): the identity secret "!!!!" is not valid base64, and
`generateConfirmationHashForTime` still returns a signature, the one of
the empty key; for no account, instant and tag does it return the empty
string, so nothing it returns can stand for a failure. -/
theorem C4_malformed_identity_secret_still_signs :
    (base64.DecodeString (ascii "!!!!")).2 ≠ none ∧
    (accountWithSecrets [] (ascii "!!!!")).generateConfirmationHashForTime ⟨0, 0⟩ (ascii "conf")
      = ascii "2raa2Y4odk%2BXfuJIfk8%2FaHOyopc%3D" ∧
    (accountWithSecrets [] (ascii "!!!!")).generateConfirmationHashForTime ⟨0, 0⟩ (ascii "conf")
      = (accountWithSecrets [] []).generateConfirmationHashForTime ⟨0, 0⟩ (ascii "conf") ∧
    ∀ (s : SteamGuardAccount) (atTime : Time) (tag : Bytes),
      s.generateConfirmationHashForTime atTime tag ≠ [] :=
  ⟨by decide, by decide, by decide, confirmationHash_ne_nil⟩

/-! ## The identifier adapters of misctypes.go (C6, C8) -/

theorem parse_formatDigits (fuel v : Nat) (acc : Bytes) (hv : v < 10 ^ fuel)
    (hmax : v ≤ strconv.maxUint64) :
    strconv.parseUintLoop 0 (strconv.formatDigits fuel v acc) = strconv.parseUintLoop v acc := by
  induction fuel generalizing v acc with
  | zero =>
    have : v = 0 := by simpa using hv
    subst this
    rfl
  | succ fuel ih =>
    simp only [strconv.maxUint64] at hmax
    by_cases h10 : v < 10
    · simp only [strconv.formatDigits, h10, if_true, strconv.parseUintLoop, strconv.maxUint64]
      rw [if_pos (by omega), if_neg (by omega), if_neg (by omega)]
      congr 1
      omega
    · have hlt : v / 10 < 10 ^ fuel := by
        rw [Nat.div_lt_iff_lt_mul (by decide)]
        rw [pow_succ] at hv
        exact hv
      simp only [strconv.formatDigits, h10, if_false]
      rw [ih (v / 10) _ hlt (by simp only [strconv.maxUint64]; omega)]
      simp only [strconv.parseUintLoop, strconv.maxUint64]
      rw [if_pos (by omega), if_neg (by omega), if_neg (by omega)]
      congr 1
      omega

theorem formatDigits_head (fuel v : Nat) (acc : Bytes)
    (hacc : fuel = 0 → ∃ d r, acc = d :: r ∧ 48 ≤ d ∧ d ≤ 57) :
    ∃ d r, strconv.formatDigits fuel v acc = d :: r ∧ 48 ≤ d ∧ d ≤ 57 := by
  induction fuel generalizing v acc with
  | zero => simpa [strconv.formatDigits] using hacc rfl
  | succ fuel ih =>
    by_cases h10 : v < 10
    · exact ⟨48 + v, acc, by simp [strconv.formatDigits, h10], by omega, by omega⟩
    · simp only [strconv.formatDigits, h10, if_false]
      exact ih _ _ (fun _ => ⟨_, _, rfl, by omega, by omega⟩)

theorem parse_format (N : Nat) (hN : N < 2 ^ 64) :
    strconv.ParseUint (strconv.FormatUint N) = (N, none) := by
  obtain ⟨d, r, hd, _, _⟩ := formatDigits_head 20 N [] (by simp)
  have hne : strconv.FormatUint N ≠ [] := by simp [strconv.FormatUint, hd]
  simp only [strconv.ParseUint, hne, if_false]
  rw [strconv.FormatUint, parse_formatDigits 20 N [] (by omega) (by simp only [strconv.maxUint64]; omega)]
  rfl

theorem steamid_unmarshal_quoted (s : Bytes) :
    SteamID.UnmarshalJSON ([34] ++ s ++ [34]) = some (strconv.ParseUint s) := by
  have hlen : ¬ (s.length + 1 + 1 < 2) := by omega
  simp [SteamID.UnmarshalJSON, hlen]

theorem steamid_unmarshal_bare (c : Nat) (r : Bytes) (hc : c ≠ 34) :
    SteamID.UnmarshalJSON (c :: r) = some (strconv.ParseUint (c :: r)) := by
  simp [SteamID.UnmarshalJSON, hc]

theorem captcha_unmarshal_quoted (s : Bytes) :
    CaptchaGID.UnmarshalJSON ([34] ++ s ++ [34]) = some (s, none) := by
  have hlen : ¬ (s.length + 1 + 1 < 2) := by omega
  simp [CaptchaGID.UnmarshalJSON, hlen]

/-- C6: for every unsigned 64-bit value N, `SteamID.UnmarshalJSON` applied
to the decimal digits of N in double quotes, and to the same digits
without quotes, returns no error and sets the SteamID to exactly N. -/
theorem C6_steamid_unmarshal_exact (N : Nat) (hN : N < 2 ^ 64) :
    SteamID.UnmarshalJSON ([34] ++ strconv.FormatUint N ++ [34]) = some (N, none) ∧
    SteamID.UnmarshalJSON (strconv.FormatUint N) = some (N, none) := by
  obtain ⟨d, r, hd, h48, h57⟩ := formatDigits_head 20 N [] (by simp)
  constructor
  · rw [steamid_unmarshal_quoted, parse_format N hN]
  · have hd2 : strconv.FormatUint N = d :: r := hd
    have hne : d ≠ 34 := by omega
    rw [hd2, steamid_unmarshal_bare d r hne, ← hd2, parse_format N hN]

/-- C6 witness: the value of `TestSteamID`, "76561198263585543". -/
theorem C6_steamid_unmarshal_exact_witness :
    (76561198263585543 : Nat) < 2 ^ 64 ∧
    strconv.FormatUint 76561198263585543 = ascii "76561198263585543" ∧
    SteamID.UnmarshalJSON ([34] ++ strconv.FormatUint 76561198263585543 ++ [34])
      = some (76561198263585543, none) ∧
    SteamID.UnmarshalJSON (strconv.FormatUint 76561198263585543)
      = some (76561198263585543, none) :=
  ⟨by decide, by decide, C6_steamid_unmarshal_exact 76561198263585543 (by decide)⟩

/-- C8 (amended): for every captcha id text s, `CaptchaGID.UnmarshalJSON`
applied to s wrapped in double quotes returns no error and yields the
CaptchaGID whose `String()` is exactly s; applied to the bare text s it
does so whenever s is not empty and contains no quote. -/
theorem C8_captcha_gid_unmarshal (s : Bytes) :
    (∃ c, CaptchaGID.UnmarshalJSON ([34] ++ s ++ [34]) = some (c, none) ∧
      CaptchaGID.String c = s) ∧
    (s ≠ [] → 34 ∉ s →
      ∃ c, CaptchaGID.UnmarshalJSON s = some (c, none) ∧ CaptchaGID.String c = s) := by
  constructor
  · exact ⟨s, captcha_unmarshal_quoted s, rfl⟩
  · intro hne hq
    cases s with
    | nil => exact absurd rfl hne
    | cons c r =>
      have hc : c ≠ 34 := by
        intro h; apply hq; simp [h]
      exact ⟨c :: r, by simp [CaptchaGID.UnmarshalJSON, hc], rfl⟩

/-- C8 witness: the two inputs of `TestCaptchaGID`. -/
theorem C8_captcha_gid_unmarshal_witness :
    ascii "-1" ≠ [] ∧ 34 ∉ ascii "-1" ∧
    (∃ c, CaptchaGID.UnmarshalJSON (ascii "-1") = some (c, none) ∧
      CaptchaGID.String c = ascii "-1") ∧
    (∃ c, CaptchaGID.UnmarshalJSON ([34] ++ ascii "756965923036385917" ++ [34]) = some (c, none) ∧
      CaptchaGID.String c = ascii "756965923036385917") :=
  ⟨by decide, by decide,
   (C8_captcha_gid_unmarshal (ascii "-1")).2 (by decide) (by decide),
   (C8_captcha_gid_unmarshal (ascii "756965923036385917")).1⟩

/-- C8 counterexample: the empty text contains no quote and no escape
character, and on the bare empty input `b[0]` is out of range: the call
panics instead of returning. -/
theorem C8_bare_empty_text_panics :
    34 ∉ ([] : Bytes) ∧ 92 ∉ ([] : Bytes) ∧ CaptchaGID.UnmarshalJSON [] = none := by
  decide

/-! ## Persisted record (C5), OAuth payload (C7), login (C9, C10) -/

set_option maxRecDepth 1000000 in
/-- C5 (code defect): a record whose session has account id 0 is exported
with `"SteamID":""`, and importing that text into an empty record returns
the error of `strconv.ParseUint("")`; the same record with account id 7
is exported and imported back unchanged. -/
theorem C5_import_rejects_exported_zero_id :
    ({ SteamGuardAccount.zero with Session := some SessionData.zero }).Export
      = (ascii ("\x7b\"shared_secret\":\"\",\"serial_number\":\"\",\"revocation_code\":\"\"," ++
          "\"uri\":\"\",\"server_time\":\"0001-01-01T00:00:00Z\",\"account_name\":\"\"," ++
          "\"token_gid\":\"\",\"identity_secret\":\"\",\"secret_1\":\"\",\"status\":0," ++
          "\"device_id\":\"\",\"fully_enrolled\":false,\"session\":\x7b\"SessionID\":\"\"," ++
          "\"SteamLogin\":\"\",\"SteamLoginSecure\":\"\",\"WebCookie\":\"\"," ++
          "\"OAuthToken\":\"\",\"SteamID\":\"\"\x7d\x7d"), none) ∧
    SteamGuardAccount.zero.Import
        ({ SteamGuardAccount.zero with Session := some SessionData.zero }).Export.1
      = some ({ SteamGuardAccount.zero with Session := some SessionData.zero },
          some "invalid syntax") ∧
    SteamID.UnmarshalJSON (SteamID.MarshalJSON 0).1 = some (0, some "invalid syntax") ∧
    SteamGuardAccount.zero.Import
        ({ SteamGuardAccount.zero with
            Session := some { SessionData.zero with SteamID := 7 } }).Export.1
      = some ({ SteamGuardAccount.zero with
            Session := some { SessionData.zero with SteamID := 7 } }, none) := by
  decide

/-! ### Scanning what `json.quote` writes -/

theorem runeLen_pos (s : Bytes) (n : Nat) (h : utf8.runeLen s = some n) :
    1 ≤ n ∧ n ≤ s.length ∧ ∃ c rest, s = c :: rest ∧ n = utf8.width c := by
  unfold utf8.runeLen at h
  split at h
  · simp at h
  · rename_i c rest
    split_ifs at h with h1 h2 h3 h4
    · simp at h; subst h; simp [h2]
    · simp at h; subst h
      exact ⟨by omega, by simp; omega, c, rest, rfl, rfl⟩

theorem hexVal_lowerhex (n : Nat) (h : n < 16) : json.hexVal (json.lowerhex n) = some n := by
  interval_cases n <;> rfl

theorem width_ascii (c : Nat) (h : c < 128) : utf8.width c = 1 := by
  simp [utf8.width, h]

theorem runeLen_ascii (c : Nat) (rest : Bytes) (h : c < 128) :
    utf8.runeLen (c :: rest) = some 1 := by
  simp [utf8.runeLen, width_ascii c h]

theorem runeLen_take_append (s t : Bytes) (n : Nat) (h : utf8.runeLen s = some n) :
    utf8.runeLen (s.take n ++ t) = some n := by
  obtain ⟨h1, h2, c, rest, rfl, hw⟩ := runeLen_pos s n h
  obtain ⟨m, rfl⟩ : ∃ m, n = m + 1 := ⟨n - 1, by omega⟩
  simp only [List.take_succ_cons, List.cons_append]
  simp only [utf8.runeLen] at h ⊢
  simp only [List.length_cons] at h2
  have hm : m ≤ rest.length := by omega
  split_ifs at h with a1 a2 a3 a4
  · rw [if_neg a1, if_pos a2]; exact h
  · rw [if_neg a1, if_neg a2]
    have hlen : ¬ ((List.take m rest ++ t).length + 1 < utf8.width c) := by
      simp only [List.length_append, List.length_take, Nat.min_eq_left hm]
      omega
    rw [if_neg hlen]
    have hwm : utf8.width c - 1 = m := by omega
    have hm1 : 1 ≤ m := by omega
    have hget : (List.take m rest ++ t).getD 0 0 = rest.getD 0 0 := by
      cases rest with
      | nil => simp at hm; omega
      | cons b r =>
        obtain ⟨k, rfl⟩ : ∃ k, m = k + 1 := ⟨m - 1, by omega⟩
        simp
    have htake : List.take (utf8.width c - 1) (List.take m rest ++ t) = List.take m rest := by
      rw [hwm, List.take_append_of_le_length (by simp [Nat.min_eq_left hm])]
      simp
    rw [hget, htake]
    rw [hwm] at a4
    rw [if_pos a4]
    exact h

theorem scan_close (f : Nat) (rest : Bytes) :
    json.scanStringBody (f + 1) (34 :: rest) = some ([], rest) := by
  simp [json.scanStringBody]

theorem scan_backslash (f e v : Nat) (rest : Bytes)
    (h : (e = 34 ∧ v = 34) ∨ (e = 92 ∧ v = 92) ∨ (e = 110 ∧ v = 10) ∨ (e = 114 ∧ v = 13) ∨
      (e = 116 ∧ v = 9)) :
    json.scanStringBody (f + 1) (92 :: e :: rest)
      = (json.scanStringBody f rest).map fun p => (v :: p.1, p.2) := by
  rcases h with ⟨rfl, rfl⟩ | ⟨rfl, rfl⟩ | ⟨rfl, rfl⟩ | ⟨rfl, rfl⟩ | ⟨rfl, rfl⟩ <;>
    simp [json.scanStringBody]

theorem scan_u00 (f c : Nat) (rest : Bytes) (h : c < 128) :
    json.scanStringBody (f + 1)
        (92 :: 117 :: 48 :: 48 :: json.lowerhex (c / 16) :: json.lowerhex (c % 16) :: rest)
      = (json.scanStringBody f rest).map fun p => (c :: p.1, p.2) := by
  have hx : json.hex4 (48 :: 48 :: json.lowerhex (c / 16) :: json.lowerhex (c % 16) :: rest)
      = some c := by
    simp only [json.hex4, hexVal_lowerhex (c / 16) (by omega), hexVal_lowerhex (c % 16) (by omega)]
    have : json.hexVal 48 = some 0 := rfl
    simp only [this, Option.bind_eq_bind, Option.some_bind, Option.pure_def]
    congr 1
    omega
  have he : utf8.EncodeRune c = [c] := by simp [utf8.EncodeRune, h]
  have hs : ¬ (55296 ≤ c ∧ c ≤ 56319) := by omega
  simp [json.scanStringBody, hx, he, hs]

theorem scan_u202x (f d : Nat) (rest : Bytes) (h : d = 8 ∨ d = 9) :
    json.scanStringBody (f + 1) (92 :: 117 :: 50 :: 48 :: 50 :: (48 + d) :: rest)
      = (json.scanStringBody f rest).map fun p => ([0xE2, 0x80, 0xA0 + d] ++ p.1, p.2) := by
  rcases h with rfl | rfl <;>
    simp [json.scanStringBody, json.hex4, json.hexVal, utf8.EncodeRune]

theorem scan_rune (f c k : Nat) (rest : Bytes) (hk : utf8.runeLen (c :: rest) = some k)
    (h34 : c ≠ 34) (h92 : c ≠ 92) (h32 : 32 ≤ c) :
    json.scanStringBody (f + 1) (c :: rest)
      = (json.scanStringBody f ((c :: rest).drop k)).map
          fun p => ((c :: rest).take k ++ p.1, p.2) := by
  have : ¬ c < 32 := by omega
  simp [json.scanStringBody, h34, h92, this, hk]

theorem escape_nil (e : Nat) : json.escape e [] = [] := by
  cases e <;> rfl

/-- One rune of a string is written by `json.escape` as a piece of ASCII
text or as the rune itself, and the scanner reads that piece back as the
rune. -/
theorem escape_step (e c k : Nat) (t : Bytes) (hk : utf8.runeLen (c :: t) = some k) :
    ∃ pre : Bytes, 1 ≤ pre.length ∧
      ((∀ b ∈ pre, b < 128) ∨ pre = (c :: t).take k) ∧
      json.escape (e + 1) (c :: t) = pre ++ json.escape e ((c :: t).drop k) ∧
      ∀ (f : Nat) (rest : Bytes), json.scanStringBody (f + 1) (pre ++ rest)
        = (json.scanStringBody f rest).map fun p => ((c :: t).take k ++ p.1, p.2) := by
  obtain ⟨hk1, hk2, -⟩ := runeLen_pos _ _ hk
  by_cases hc : c < 128
  · have hk' : k = 1 := by
      rw [runeLen_ascii c t hc] at hk; simpa using hk.symm
    subst hk'
    simp only [List.drop_succ_cons, List.drop_zero, List.take_succ_cons, List.take_zero,
      json.escape, hc, if_true]
    split_ifs with a1 a2 a3 a4 a5
    · refine ⟨[92, c], by simp, Or.inl (by simp; omega), rfl, fun f rest => ?_⟩
      exact scan_backslash f c c _ (by omega)
    · subst a2
      exact ⟨[92, 110], by simp, Or.inl (by simp), rfl,
        fun f rest => scan_backslash f 110 10 _ (by omega)⟩
    · subst a3
      exact ⟨[92, 114], by simp, Or.inl (by simp), rfl,
        fun f rest => scan_backslash f 114 13 _ (by omega)⟩
    · subst a4
      exact ⟨[92, 116], by simp, Or.inl (by simp), rfl,
        fun f rest => scan_backslash f 116 9 _ (by omega)⟩
    · refine ⟨[92, 117, 48, 48, json.lowerhex (c / 16), json.lowerhex (c % 16)], by simp,
        Or.inl ?_, rfl, fun f rest => scan_u00 f c _ hc⟩
      intro b hb
      have h1 : json.lowerhex (c / 16) < 128 := by unfold json.lowerhex; split_ifs <;> omega
      have h2 : json.lowerhex (c % 16) < 128 := by unfold json.lowerhex; split_ifs <;> omega
      simp only [List.mem_cons, List.mem_singleton, List.not_mem_nil, or_false] at hb
      rcases hb with rfl | rfl | rfl | rfl | rfl | rfl <;> omega
    · refine ⟨[c], by simp, Or.inr rfl, rfl, fun f rest => ?_⟩
      rw [List.singleton_append,
        scan_rune f c 1 _ (runeLen_ascii c _ hc) (by omega) (by omega) (by omega)]
      rfl
  · simp only [json.escape, hc, if_false, hk]
    split_ifs with a1 a2
    · refine ⟨[92, 117, 50, 48, 50, 48 + 8], by simp, Or.inl (by simp), ?_, fun f rest => ?_⟩
      · rw [show ascii "\\u2028" = [92, 117, 50, 48, 50, 48 + 8] by decide]
      · rw [a1]; exact scan_u202x f 8 _ (Or.inl rfl)
    · refine ⟨[92, 117, 50, 48, 50, 48 + 9], by simp, Or.inl (by simp), ?_, fun f rest => ?_⟩
      · rw [show ascii "\\u2029" = [92, 117, 50, 48, 50, 48 + 9] by decide]
      · rw [a2]; exact scan_u202x f 9 _ (Or.inr rfl)
    · refine ⟨(c :: t).take k, by simp [List.length_take, Nat.min_eq_left hk2]; omega,
        Or.inr rfl, rfl, fun f rest => ?_⟩
      have hrl := runeLen_take_append (c :: t) rest k hk
      obtain ⟨k', rfl⟩ : ∃ k', k = k' + 1 := ⟨k - 1, by omega⟩
      have hk'len : k' ≤ t.length := by simp only [List.length_cons] at hk2; omega
      simp only [List.take_succ_cons, List.cons_append] at hrl ⊢
      rw [scan_rune f c (k' + 1) _ hrl (by omega) (by omega) (by omega)]
      simp only [List.drop_succ_cons, List.take_succ_cons]
      rw [List.drop_append_of_le_length (by simp [Nat.min_eq_left hk'len]),
        List.take_append_of_le_length (by simp [Nat.min_eq_left hk'len])]
      have hd : List.drop k' (List.take k' t) = [] := by
        simp [List.drop_eq_nil_iff, Nat.min_eq_left hk'len]
      have ht : List.take k' (List.take k' t) = List.take k' t := by
        rw [List.take_take, Nat.min_self]
      simp [hd, ht]

theorem scan_escape (n : Nat) : ∀ (s : Bytes) (e f : Nat) (rest : Bytes),
    utf8.validFuel n s = true → s.length < e → (json.escape e s).length < f →
    json.scanStringBody f (json.escape e s ++ 34 :: rest) = some (s, rest) := by
  induction n with
  | zero =>
    intro s e f rest hv he hf
    have : s = [] := by simpa [utf8.validFuel] using hv
    subst this
    obtain ⟨f, rfl⟩ : ∃ f', f = f' + 1 := ⟨f - 1, by omega⟩
    rw [escape_nil]
    exact scan_close f rest
  | succ n ih =>
    intro s e f rest hv he hf
    obtain ⟨f, rfl⟩ : ∃ f', f = f' + 1 := ⟨f - 1, by omega⟩
    obtain ⟨e, rfl⟩ : ∃ e', e = e' + 1 := ⟨e - 1, by omega⟩
    cases s with
    | nil => rw [escape_nil]; exact scan_close f rest
    | cons c t =>
      simp only [utf8.validFuel] at hv
      split at hv
      · simp at hv
      · rename_i k hk
        obtain ⟨hk1, hk2, -⟩ := runeLen_pos _ _ hk
        obtain ⟨pre, hpre, -, hesc, hscan⟩ := escape_step e c k t hk
        have hdl : ((c :: t).drop k).length < (c :: t).length := by
          simp only [List.length_drop]; simp only [List.length_cons] at hk2 ⊢; omega
        simp only [List.length_cons] at he hdl
        rw [hesc, List.length_append] at hf
        rw [hesc, List.append_assoc, hscan,
          ih ((c :: t).drop k) e f rest hv (by omega) (by omega)]
        simp

theorem valid_succ (n : Nat) : ∀ s : Bytes, utf8.validFuel n s = true →
    utf8.validFuel (n + 1) s = true := by
  induction n with
  | zero =>
    intro s h
    have : s = [] := by simpa [utf8.validFuel] using h
    subst this; rfl
  | succ n ih =>
    intro s h
    cases s with
    | nil => rfl
    | cons c t =>
      simp only [utf8.validFuel] at h
      split at h
      · simp at h
      · rename_i k hk
        simp only [utf8.validFuel, hk]
        exact ih _ h

theorem valid_le (n m : Nat) (s : Bytes) (h : utf8.validFuel n s = true) (hnm : n ≤ m) :
    utf8.validFuel m s = true := by
  induction m with
  | zero =>
    have : n = 0 := by omega
    subst this; exact h
  | succ m ih =>
    by_cases hn : n = m + 1
    · subst hn; exact h
    · exact valid_succ m s (ih (by omega))

theorem valid_append (n m : Nat) (b : Bytes) (hb : utf8.validFuel m b = true) :
    ∀ a : Bytes, utf8.validFuel n a = true → utf8.validFuel (n + m) (a ++ b) = true := by
  induction n with
  | zero =>
    intro a ha
    have : a = [] := by simpa [utf8.validFuel] using ha
    subst this
    simpa using hb
  | succ n ih =>
    intro a ha
    cases a with
    | nil => exact valid_le m _ _ hb (by omega)
    | cons c t =>
      simp only [utf8.validFuel] at ha
      split at ha
      · simp at ha
      · rename_i k hk
        obtain ⟨hk1, hk2, -⟩ := runeLen_pos _ _ hk
        have hrl := runeLen_take_append (c :: t) ((c :: t).drop k ++ b) k hk
        rw [← List.append_assoc, List.take_append_drop] at hrl
        have hd : ((c :: t) ++ b).drop k = (c :: t).drop k ++ b :=
          List.drop_append_of_le_length hk2
        have : n + 1 + m = (n + m) + 1 := by omega
        rw [this]
        simp only [List.cons_append] at hrl hd ⊢
        simp only [utf8.validFuel, hrl, hd]
        exact ih _ ha

theorem valid_ascii (s : Bytes) (h : ∀ b ∈ s, b < 128) : utf8.validFuel s.length s = true := by
  induction s with
  | nil => rfl
  | cons c t ih =>
    have hc : c < 128 := h c (by simp)
    simp only [List.length_cons, utf8.validFuel, runeLen_ascii c t hc, List.drop_succ_cons,
      List.drop_zero]
    exact ih (fun b hb => h b (by simp [hb]))

theorem valid_rune (s : Bytes) (k : Nat) (hk : utf8.runeLen s = some k) :
    utf8.validFuel 1 (s.take k) = true := by
  obtain ⟨hk1, hk2, c, t, rfl, -⟩ := runeLen_pos _ _ hk
  have hrl := runeLen_take_append (c :: t) [] k hk
  rw [List.append_nil] at hrl
  obtain ⟨k', rfl⟩ : ∃ k', k = k' + 1 := ⟨k - 1, by omega⟩
  simp only [List.take_succ_cons] at hrl ⊢
  simp only [utf8.validFuel, hrl]
  have : List.drop (k' + 1) (c :: List.take k' t) = [] := by
    simp [List.drop_eq_nil_iff]
  rw [this]; rfl

theorem valid_escape (n : Nat) : ∀ (s : Bytes) (e : Nat), utf8.validFuel n s = true →
    s.length < e → ∃ m, utf8.validFuel m (json.escape e s) = true := by
  induction n with
  | zero =>
    intro s e hv he
    have : s = [] := by simpa [utf8.validFuel] using hv
    subst this
    exact ⟨0, by rw [escape_nil]; rfl⟩
  | succ n ih =>
    intro s e hv he
    obtain ⟨e, rfl⟩ : ∃ e', e = e' + 1 := ⟨e - 1, by omega⟩
    cases s with
    | nil => exact ⟨0, by rw [escape_nil]; rfl⟩
    | cons c t =>
      simp only [utf8.validFuel] at hv
      split at hv
      · simp at hv
      · rename_i k hk
        obtain ⟨hk1, hk2, -⟩ := runeLen_pos _ _ hk
        obtain ⟨pre, -, hpre, hesc, -⟩ := escape_step e c k t hk
        have hdl : ((c :: t).drop k).length < (c :: t).length := by
          simp only [List.length_drop]; simp only [List.length_cons] at hk2 ⊢; omega
        simp only [List.length_cons] at he hdl
        obtain ⟨m, hm⟩ := ih ((c :: t).drop k) e hv (by omega)
        rw [hesc]
        rcases hpre with hp | hp
        · exact ⟨_, valid_append _ m _ hm pre (valid_ascii pre hp)⟩
        · rw [hp]
          exact ⟨_, valid_append 1 m _ hm _ (valid_rune _ k hk)⟩

theorem valid_length (n : Nat) : ∀ s : Bytes, utf8.validFuel n s = true →
    utf8.validFuel s.length s = true := by
  induction n with
  | zero =>
    intro s h
    have : s = [] := by simpa [utf8.validFuel] using h
    subst this; rfl
  | succ n ih =>
    intro s h
    cases s with
    | nil => rfl
    | cons c t =>
      simp only [utf8.validFuel] at h
      split at h
      · simp at h
      · rename_i k hk
        obtain ⟨hk1, hk2, -⟩ := runeLen_pos _ _ hk
        simp only [List.length_cons, utf8.validFuel, hk]
        refine valid_le _ _ _ (ih _ h) ?_
        simp only [List.length_drop, List.length_cons]
        omega

theorem consumed_append (a b : Bytes) : json.consumed (a ++ b) b = a := by
  simp [json.consumed]

theorem quote_append (s rest : Bytes) :
    json.quote s ++ rest = 34 :: (json.escape (s.length + 1) s ++ 34 :: rest) := by
  simp [json.quote]

theorem scanString_quote (F : Nat) (s rest : Bytes) (hs : utf8.Valid s = true)
    (hF : (json.escape (s.length + 1) s).length < F) :
    json.scanStringBody F (json.escape (s.length + 1) s ++ 34 :: rest) = some (s, rest) :=
  scan_escape s.length s _ _ rest hs (by omega) hF

theorem scanValue_string (f : Nat) (s rest : Bytes) (hs : utf8.Valid s = true) :
    json.scanValue (f + 1) (json.quote s ++ rest) = some (.string (json.quote s) s, rest) := by
  rw [quote_append]
  have hc : json.consumed (34 :: (json.escape (s.length + 1) s ++ 34 :: rest)) rest
      = json.quote s := by
    rw [← quote_append, consumed_append]
  have hscan := scanString_quote ((json.escape (s.length + 1) s ++ 34 :: rest).length + 1) s rest
    hs (by simp; omega)
  rw [json.scanValue]
  simp only [show (34 : Nat) ≠ 123 by decide, show (34 : Nat) ≠ 91 by decide, if_false, if_true,
    hscan, Option.map_some', hc]

theorem scanMembers_more (f : Nat) (k v more : Bytes) (hk : utf8.Valid k = true)
    (hv : utf8.Valid v = true) :
    json.scanMembers (f + 2) (json.quote k ++ 58 :: (json.quote v ++ 44 :: 34 :: more))
      = (json.scanMembers (f + 1) (34 :: more)).map
          fun p => ((k, .string (json.quote v) v) :: p.1, p.2) := by
  rw [quote_append]
  have hscan := scanString_quote
    ((json.escape (k.length + 1) k ++ 34 :: 58 :: (json.quote v ++ 44 :: 34 :: more)).length + 1)
    k (58 :: (json.quote v ++ 44 :: 34 :: more)) hk (by simp; omega)
  have hws1 : json.skipWS (58 :: (json.quote v ++ 44 :: 34 :: more))
      = 58 :: (json.quote v ++ 44 :: 34 :: more) := by simp [json.skipWS]
  have hws2 : json.skipWS (json.quote v ++ 44 :: 34 :: more)
      = json.quote v ++ 44 :: 34 :: more := by rw [quote_append]; simp [json.skipWS]
  have hws3 : json.skipWS (44 :: 34 :: more) = 44 :: 34 :: more := by simp [json.skipWS]
  have hws4 : json.skipWS (34 :: more) = 34 :: more := by simp [json.skipWS]
  rw [json.scanMembers]
  simp only [hscan, hws1, hws2, scanValue_string f v _ hv, hws3, hws4]

theorem scanMembers_last (f : Nat) (k v rest : Bytes) (hk : utf8.Valid k = true)
    (hv : utf8.Valid v = true) :
    json.scanMembers (f + 2) (json.quote k ++ 58 :: (json.quote v ++ 125 :: rest))
      = some ([(k, .string (json.quote v) v)], rest) := by
  rw [quote_append]
  have hscan := scanString_quote
    ((json.escape (k.length + 1) k ++ 34 :: 58 :: (json.quote v ++ 125 :: rest)).length + 1)
    k (58 :: (json.quote v ++ 125 :: rest)) hk (by simp; omega)
  have hws1 : json.skipWS (58 :: (json.quote v ++ 125 :: rest))
      = 58 :: (json.quote v ++ 125 :: rest) := by simp [json.skipWS]
  have hws2 : json.skipWS (json.quote v ++ 125 :: rest)
      = json.quote v ++ 125 :: rest := by rw [quote_append]; simp [json.skipWS]
  have hws3 : json.skipWS (125 :: rest) = 125 :: rest := by simp [json.skipWS]
  rw [json.scanMembers]
  simp only [hscan, hws1, hws2, scanValue_string f v _ hv, hws3]

theorem escape_plain (s : Bytes) : ∀ e : Nat, s.length < e →
    (∀ b ∈ s, 48 ≤ b ∧ b ≤ 57) → json.escape e s = s := by
  induction s with
  | nil => intro e _ _; exact escape_nil e
  | cons c t ih =>
    intro e he h
    obtain ⟨e, rfl⟩ : ∃ e', e = e' + 1 := ⟨e - 1, by omega⟩
    have hc := h c (by simp)
    simp only [List.length_cons] at he
    have ht := ih e (by omega) (fun b hb => h b (by simp [hb]))
    simp only [json.escape, ht]
    rw [if_pos (by omega), if_neg (by omega), if_neg (by omega), if_neg (by omega),
      if_neg (by omega), if_neg (by omega)]

theorem formatDigits_all (fuel : Nat) : ∀ (v : Nat) (acc : Bytes),
    (∀ b ∈ acc, 48 ≤ b ∧ b ≤ 57) → ∀ b ∈ strconv.formatDigits fuel v acc, 48 ≤ b ∧ b ≤ 57 := by
  induction fuel with
  | zero => intro v acc h; simpa [strconv.formatDigits] using h
  | succ fuel ih =>
    intro v acc h
    by_cases h10 : v < 10
    · simp only [strconv.formatDigits, h10, if_true]
      intro b hb
      simp only [List.mem_cons] at hb
      rcases hb with rfl | hb
      · omega
      · exact h b hb
    · simp only [strconv.formatDigits, h10, if_false]
      apply ih
      intro b hb
      simp only [List.mem_cons] at hb
      rcases hb with rfl | hb
      · omega
      · exact h b hb

theorem formatDigits_length (fuel : Nat) : ∀ (v : Nat) (acc : Bytes),
    (strconv.formatDigits fuel v acc).length ≤ fuel + acc.length := by
  induction fuel with
  | zero => intro v acc; simp [strconv.formatDigits]
  | succ fuel ih =>
    intro v acc
    by_cases h10 : v < 10
    · simp only [strconv.formatDigits, h10, if_true, List.length_cons]; omega
    · simp only [strconv.formatDigits, h10, if_false]
      have := ih (v / 10) ((48 + v % 10) :: acc)
      simp only [List.length_cons] at this
      omega

theorem quote_digits (N : Nat) :
    [34] ++ strconv.FormatUint N ++ [34] = json.quote (strconv.FormatUint N) := by
  have h : ∀ b ∈ strconv.FormatUint N, 48 ≤ b ∧ b ≤ 57 := formatDigits_all 20 N [] (by simp)
  simp only [json.quote]
  rw [escape_plain (strconv.FormatUint N) _ (by omega) h]

theorem valid_digits (N : Nat) : utf8.Valid (strconv.FormatUint N) = true :=
  valid_ascii _ (fun b hb => by have := formatDigits_all 20 N [] (by simp) b hb; omega)

theorem valid_quote (s : Bytes) (hs : utf8.Valid s = true) :
    ∃ m, utf8.validFuel m (json.quote s) = true := by
  obtain ⟨m, hm⟩ := valid_escape s.length s (s.length + 1) hs (by omega)
  have h1 : utf8.validFuel 1 [34] = true := by decide
  refine ⟨1 + (m + 1), ?_⟩
  rw [json.quote, List.append_assoc]
  exact valid_append 1 _ _ (valid_append m 1 _ h1 _ hm) _ h1

theorem valid_cons_ascii (c : Nat) (s : Bytes) (hc : c < 128)
    (hs : ∃ m, utf8.validFuel m s = true) : ∃ m, utf8.validFuel m (c :: s) = true := by
  obtain ⟨m, hm⟩ := hs
  exact ⟨1 + m, valid_append 1 m s hm [c] (by simp [utf8.validFuel, runeLen_ascii c [] hc])⟩

theorem valid_append_ex (a b : Bytes) (ha : ∃ m, utf8.validFuel m a = true)
    (hb : ∃ m, utf8.validFuel m b = true) : ∃ m, utf8.validFuel m (a ++ b) = true := by
  obtain ⟨n, hn⟩ := ha
  obtain ⟨m, hm⟩ := hb
  exact ⟨n + m, valid_append n m b hm a hn⟩

theorem skipWS_quote_append (s rest : Bytes) :
    json.skipWS (json.quote s ++ rest) = json.quote s ++ rest := by
  rw [quote_append]; simp [json.skipWS]

theorem scanMembers_next (f : Nat) (k v more : Bytes) (hk : utf8.Valid k = true)
    (hv : utf8.Valid v = true) :
    json.scanMembers (f + 2) (json.quote k ++ 58 :: (json.quote v ++ 44 :: more))
      = (json.scanMembers (f + 1) (json.skipWS more)).map
          fun p => ((k, .string (json.quote v) v) :: p.1, p.2) := by
  rw [quote_append]
  have hscan := scanString_quote
    ((json.escape (k.length + 1) k ++ 34 :: 58 :: (json.quote v ++ 44 :: more)).length + 1)
    k (58 :: (json.quote v ++ 44 :: more)) hk (by simp; omega)
  have hws1 : json.skipWS (58 :: (json.quote v ++ 44 :: more))
      = 58 :: (json.quote v ++ 44 :: more) := by simp [json.skipWS]
  have hws3 : json.skipWS (44 :: more) = 44 :: more := by simp [json.skipWS]
  rw [json.scanMembers]
  simp only [hscan, hws1, skipWS_quote_append, scanValue_string f v _ hv, hws3]

theorem jsonObject_eq (o : OAuth) (hpos : 0 < o.SteamID) :
    OAuth.jsonObject o = 123 :: (json.quote (ascii "steamid") ++ 58 ::
      (json.quote (strconv.FormatUint o.SteamID) ++ 44 ::
      (json.quote (ascii "oauth_token") ++ 58 :: (json.quote o.OAuthToken ++ 44 ::
      (json.quote (ascii "wgtoken") ++ 58 :: (json.quote o.SteamLogin ++ 44 ::
      (json.quote (ascii "wgtoken_secure") ++ 58 :: (json.quote o.SteamLoginSecure ++ 44 ::
      (json.quote (ascii "webcookie") ++ 58 :: (json.quote o.Webcookie ++ [125])))))))))) := by
  have hq : ∀ rest : Bytes, json.quote (strconv.FormatUint o.SteamID) ++ rest
      = 34 :: (strconv.FormatUint o.SteamID ++ 34 :: rest) := by
    intro rest
    rw [← quote_digits]
    simp
  have hm : (SteamID.MarshalJSON o.SteamID).1 = [34] ++ strconv.FormatUint o.SteamID ++ [34] := by
    simp [SteamID.MarshalJSON, SteamID.String, hpos]
  simp only [OAuth.jsonObject, hm, json.renderObject, List.flatMap_cons,
    List.flatMap_nil, List.append_assoc, List.singleton_append, List.cons_append,
    List.nil_append, List.append_nil, hq]

theorem valid_jsonObject (o : OAuth) (hpos : 0 < o.SteamID)
    (h1 : utf8.Valid o.OAuthToken = true)
    (h2 : utf8.Valid o.SteamLogin = true) (h3 : utf8.Valid o.SteamLoginSecure = true)
    (h4 : utf8.Valid o.Webcookie = true) : utf8.Valid (OAuth.jsonObject o) = true := by
  have hk : ∀ k : String, utf8.Valid (ascii k) = true →
      ∃ m, utf8.validFuel m (json.quote (ascii k)) = true := fun k hk => valid_quote _ hk
  have hend : ∃ m, utf8.validFuel m [125] = true := ⟨1, by decide⟩
  have hall : ∃ m, utf8.validFuel m (OAuth.jsonObject o) = true := by
    rw [jsonObject_eq o hpos]
    refine valid_cons_ascii _ _ (by decide) ?_
    refine valid_append_ex _ _ (hk _ (by decide)) (valid_cons_ascii _ _ (by decide) ?_)
    refine valid_append_ex _ _ (valid_quote _ (valid_digits _)) (valid_cons_ascii _ _ (by decide) ?_)
    refine valid_append_ex _ _ (hk _ (by decide)) (valid_cons_ascii _ _ (by decide) ?_)
    refine valid_append_ex _ _ (valid_quote _ h1) (valid_cons_ascii _ _ (by decide) ?_)
    refine valid_append_ex _ _ (hk _ (by decide)) (valid_cons_ascii _ _ (by decide) ?_)
    refine valid_append_ex _ _ (valid_quote _ h2) (valid_cons_ascii _ _ (by decide) ?_)
    refine valid_append_ex _ _ (hk _ (by decide)) (valid_cons_ascii _ _ (by decide) ?_)
    refine valid_append_ex _ _ (valid_quote _ h3) (valid_cons_ascii _ _ (by decide) ?_)
    refine valid_append_ex _ _ (hk _ (by decide)) (valid_cons_ascii _ _ (by decide) ?_)
    exact valid_append_ex _ _ (valid_quote _ h4) hend
  obtain ⟨m, hm⟩ := hall
  exact valid_length m _ hm

theorem scan_jsonObject (o : OAuth) (hpos : 0 < o.SteamID)
    (h1 : utf8.Valid o.OAuthToken = true)
    (h2 : utf8.Valid o.SteamLogin = true) (h3 : utf8.Valid o.SteamLoginSecure = true)
    (h4 : utf8.Valid o.Webcookie = true) :
    json.scan (OAuth.jsonObject o) = some (OAuth.objectValue o (OAuth.jsonObject o)
      (strconv.FormatUint o.SteamID) (json.quote o.OAuthToken) (json.quote o.SteamLogin)
      (json.quote o.SteamLoginSecure) (json.quote o.Webcookie)) := by
  have hlen : 6 ≤ (OAuth.jsonObject o).length := by
    rw [jsonObject_eq o hpos]
    simp only [List.length_cons, List.length_append, json.quote]
    omega
  obtain ⟨f, hf⟩ : ∃ f, (OAuth.jsonObject o).length + 1 = f + 7 :=
    ⟨(OAuth.jsonObject o).length - 6, by omega⟩
  have hraw : ∀ r : Bytes, json.consumed (123 :: r) [] = 123 :: r := by
    intro r; simp [json.consumed]
  have hk : ∀ k : String, utf8.Valid (ascii k) = true → utf8.Valid (ascii k) = true :=
    fun _ h => h
  rw [json.scan, hf]
  conv_lhs => rw [jsonObject_eq o hpos]
  have hws : ∀ r : Bytes, json.skipWS (123 :: r) = 123 :: r := by
    intro r; simp [json.skipWS]
  rw [hws, json.scanValue]
  simp only [if_true, skipWS_quote_append]
  rw [quote_append]
  simp only
  rw [← quote_append]
  rw [scanMembers_next (f + 4) _ _ _ (by decide) (valid_digits _), skipWS_quote_append,
    scanMembers_next (f + 3) _ _ _ (by decide) h1, skipWS_quote_append,
    scanMembers_next (f + 2) _ _ _ (by decide) h2, skipWS_quote_append,
    scanMembers_next (f + 1) _ _ _ (by decide) h3, skipWS_quote_append,
    scanMembers_last f _ _ _ (by decide) h4]
  simp only [Option.map_some', hraw, json.skipWS, if_true, OAuth.objectValue, quote_digits]
  rw [← jsonObject_eq o hpos]

theorem oauth_store_object (o : OAuth) (raw idVal r1 r2 r3 r4 : Bytes)
    (hid : o.SteamID < 2 ^ 64) :
    json.storeStruct localOAuth.step (OAuth.objectValue o raw idVal r1 r2 r3 r4) OAuth.zero
      = some ⟨o, none, none⟩ := by
  have h0 : json.fieldIndex ["steamid", "oauth_token", "wgtoken", "wgtoken_secure", "webcookie"]
      (ascii "steamid") = some 0 := by decide
  have h1 : json.fieldIndex ["steamid", "oauth_token", "wgtoken", "wgtoken_secure", "webcookie"]
      (ascii "oauth_token") = some 1 := by decide
  have h2 : json.fieldIndex ["steamid", "oauth_token", "wgtoken", "wgtoken_secure", "webcookie"]
      (ascii "wgtoken") = some 2 := by decide
  have h3 : json.fieldIndex ["steamid", "oauth_token", "wgtoken", "wgtoken_secure", "webcookie"]
      (ascii "wgtoken_secure") = some 3 := by decide
  have h4 : json.fieldIndex ["steamid", "oauth_token", "wgtoken", "wgtoken_secure", "webcookie"]
      (ascii "webcookie") = some 4 := by decide
  simp only [OAuth.objectValue, json.storeStruct, json.decodeMembers, localOAuth.step, h0, h1,
    h2, h3, h4, json.storeCustom, json.Value.raw, steamid_unmarshal_quoted, parse_format _ hid,
    json.storeString, json.Stored.map, Option.map_some', Option.isSome_none, OAuth.zero]
  rfl

theorem oauth_accepts_scanned_forms (o prev : OAuth)
    (obj str raw idVal r1 r2 r3 r4 rawStr : Bytes) (hid : o.SteamID < 2 ^ 64)
    (hobj : json.scan obj = some (OAuth.objectValue o raw idVal r1 r2 r3 r4))
    (hstr : json.scan str = some (.string rawStr obj)) :
    OAuth.UnmarshalJSON obj prev = some (o, none) ∧
    OAuth.UnmarshalJSON str prev = some (o, none) := by
  have hstore := oauth_store_object o raw idVal r1 r2 r3 r4 hid
  constructor
  · have hkind : (json.UnmarshalString obj []).2
        = some (.UnmarshalTypeError (ascii "object")) := by
      simp [json.UnmarshalString, hobj, OAuth.objectValue, json.storeString, json.Value.kind]
    simp [OAuth.UnmarshalJSON, hkind, json.Unmarshal, hobj, hstore]
  · have hs : json.UnmarshalString str [] = (obj, none) := by
      simp [json.UnmarshalString, hstr, json.storeString]
    simp [OAuth.UnmarshalJSON, hs, json.Unmarshal, hobj, hstore]

theorem scan_quoted_text (s : Bytes) (hs : utf8.Valid s = true) :
    json.scan (json.quote s) = some (.string (json.quote s) s) := by
  have h := scanValue_string (json.quote s).length s [] hs
  rw [List.append_nil] at h
  have hws := skipWS_quote_append s []
  rw [List.append_nil] at hws
  rw [json.scan, hws, h]
  simp [json.skipWS]

/-- C7 (amended): for every OAuth payload value o whose account id is not
zero and whose four strings are well-formed UTF-8, `OAuth.UnmarshalJSON`
applied to the JSON object of o as the package marshals it (the five
members, the account id written by `SteamID.MarshalJSON`) and applied to
the JSON string whose content is that same object text both succeed and
both yield exactly o, whatever the receiver held before; and the same
holds, for every account id, for every text of the object that carries the
id as its decimal digits in quotes and scans to the five members. -/
theorem C7_oauth_accepts_both_forms (o prev : OAuth) (hpos : 0 < o.SteamID)
    (hid : o.SteamID < 2 ^ 64)
    (h1 : utf8.Valid o.OAuthToken = true) (h2 : utf8.Valid o.SteamLogin = true)
    (h3 : utf8.Valid o.SteamLoginSecure = true) (h4 : utf8.Valid o.Webcookie = true) :
    (OAuth.UnmarshalJSON (OAuth.jsonObject o) prev = some (o, none) ∧
      OAuth.UnmarshalJSON (json.quote (OAuth.jsonObject o)) prev = some (o, none)) ∧
    ∀ obj str raw idVal r1 r2 r3 r4 rawStr : Bytes,
      json.scan obj = some (OAuth.objectValue o raw idVal r1 r2 r3 r4) →
      json.scan str = some (.string rawStr obj) →
      OAuth.UnmarshalJSON obj prev = some (o, none) ∧
        OAuth.UnmarshalJSON str prev = some (o, none) :=
  ⟨oauth_accepts_scanned_forms o prev _ _ _ _ _ _ _ _ _ hid (scan_jsonObject o hpos h1 h2 h3 h4)
      (scan_quoted_text _ (valid_jsonObject o hpos h1 h2 h3 h4)),
    fun obj str raw idVal r1 r2 r3 r4 rawStr hobj hstr =>
      oauth_accepts_scanned_forms o prev obj str raw idVal r1 r2 r3 r4 rawStr hid hobj hstr⟩

set_option maxRecDepth 1000000 in
/-- C7 witness: the payload and the two inputs of `TestOAuthUnmarshal`. -/
theorem C7_oauth_accepts_both_forms_witness :
    0 < testOAuth.SteamID ∧ testOAuth.SteamID < 2 ^ 64 ∧
    utf8.Valid testOAuth.OAuthToken = true ∧
    utf8.Valid testOAuth.SteamLogin = true ∧ utf8.Valid testOAuth.SteamLoginSecure = true ∧
    utf8.Valid testOAuth.Webcookie = true ∧
    OAuth.jsonObject testOAuth = testOAuthObject ∧
    json.quote (OAuth.jsonObject testOAuth) = testOAuthString ∧
    OAuth.UnmarshalJSON (OAuth.jsonObject testOAuth) OAuth.zero = some (testOAuth, none) ∧
    OAuth.UnmarshalJSON (json.quote (OAuth.jsonObject testOAuth)) OAuth.zero
      = some (testOAuth, none) :=
  ⟨by decide, by decide, by decide, by decide, by decide, by decide, by decide, by decide,
   (C7_oauth_accepts_both_forms testOAuth OAuth.zero (by decide) (by decide) (by decide)
     (by decide) (by decide) (by decide)).1⟩

set_option maxRecDepth 1000000 in
/-- C7 counterexample: the payload with the account id zero and the token
"token" is marshalled with an empty `steamid` string, and
`OAuth.UnmarshalJSON` returns the error "invalid syntax" on the object and
on the string holding it, the receiver left as it was; and the payload
whose token is the byte 0xFF is marshalled with the replacement character
in its place, so both forms decode without error to a payload that is not
the one marshalled. -/
theorem C7_zero_id_and_malformed_text_fail :
    OAuth.jsonObject zeroIdOAuth
      = ascii ("\x7b\"steamid\":\"\",\"oauth_token\":\"token\",\"wgtoken\":\"\"," ++
          "\"wgtoken_secure\":\"\",\"webcookie\":\"\"\x7d") ∧
    OAuth.UnmarshalJSON (OAuth.jsonObject zeroIdOAuth) OAuth.zero
      = some (OAuth.zero, some "invalid syntax") ∧
    OAuth.UnmarshalJSON (json.quote (OAuth.jsonObject zeroIdOAuth)) OAuth.zero
      = some (OAuth.zero, some "invalid syntax") ∧
    OAuth.UnmarshalJSON (OAuth.jsonObject malformedOAuth) OAuth.zero
      = some ({ malformedOAuth with OAuthToken := [0xEF, 0xBF, 0xBD] }, none) ∧
    OAuth.UnmarshalJSON (json.quote (OAuth.jsonObject malformedOAuth)) OAuth.zero
      = some ({ malformedOAuth with OAuthToken := [0xEF, 0xBF, 0xBD] }, none) ∧
    ({ malformedOAuth with OAuthToken := [0xEF, 0xBF, 0xBD] } : OAuth) ≠ malformedOAuth := by
  refine ⟨?_, ?_, ?_, ?_, ?_, ?_⟩ <;> decide

theorem interpret_not_okay (u : UserLogin) (r : LoginResponse) (cookies : List Cookie)
    (hoauth : r.OAuth = none ∨ ∃ o, r.OAuth = some o ∧ o.OAuthToken = []) :
    (u.interpret r cookies).1.1 ≠ LoginResult.LoginOkay := by
  unfold UserLogin.interpret
  by_cases h1 : r.CaptchaNeeded = true
  · simp [h1]
  by_cases h2 : r.EmailAuthNeeded = true
  · simp [h1, h2]
  by_cases h3 : (r.TwoFactorNeeded && !r.Success) = true
  · simp [h1, h2, h3]
  by_cases h4 : (!r.LoginComplete) = true
  · by_cases h5 : r.Message ≠ []
    · simp [h1, h2, h3, h4, h5]
    · simp [h1, h2, h3, h4, h5]
  rcases hoauth with h | ⟨o, h, ht⟩
  · simp [h1, h2, h3, h4, h]
  · simp [h1, h2, h3, h4, h, ht]

theorem interpret_general_failure (u : UserLogin) (r : LoginResponse) (cookies : List Cookie)
    (hoauth : r.OAuth = none ∨ ∃ o, r.OAuth = some o ∧ o.OAuthToken = [])
    (hc : r.LoginComplete = true) (hcap : r.CaptchaNeeded = false)
    (hemail : r.EmailAuthNeeded = false)
    (h2fa : ¬ (r.TwoFactorNeeded = true ∧ r.Success = false)) :
    u.interpret r cookies = ((LoginResult.LoginGeneralFailure, some "missing oauth"), u) := by
  have h2 : (r.TwoFactorNeeded && !r.Success) = false := by
    cases h : r.TwoFactorNeeded <;> cases h' : r.Success <;> simp_all
  rcases hoauth with h | ⟨o, h, ht⟩
  · simp [UserLogin.interpret, hc, hcap, hemail, h2, h]
  · simp [UserLogin.interpret, hc, hcap, hemail, h2, h, ht]

/-- C9: for every login response whose OAuth payload is absent or whose
bearer token is empty, `DoLogin` does not return `LoginOkay`; and when
that response is marked login-complete with no captcha, email or unmet
second-factor requirement, `DoLogin` returns `LoginGeneralFailure` with a
non-nil error and leaves `Session` unchanged. -/
theorem C9_missing_oauth_is_general_failure (u : UserLogin) (x : LoginExchange)
    (rsa : rsaResponse) (key : PublicKey) (encryptedPassword : Bytes) (r : LoginResponse)
    (hjar : ¬ (u.cookieJar.length = 0 ∧ u.Session = none))
    (hrsa : x.getrsakey (url.Values.Set [] (ascii "username") u.Username) = (rsa, none))
    (hkey : rsa.PublicKey = some key)
    (henc : x.encrypt key u.Password = (encryptedPassword, none))
    (hlogin : x.dologin (u.loginPostData rsa encryptedPassword x.now) = (r, none))
    (hoauth : r.OAuth = none ∨ ∃ o, r.OAuth = some o ∧ o.OAuthToken = []) :
    (∃ res err u', u.DoLogin x = some ((res, err), u') ∧ res ≠ LoginResult.LoginOkay) ∧
    (r.LoginComplete = true → r.CaptchaNeeded = false → r.EmailAuthNeeded = false →
      ¬ (r.TwoFactorNeeded = true ∧ r.Success = false) →
      ∃ err u', u.DoLogin x = some ((LoginResult.LoginGeneralFailure, some err), u') ∧
        u'.Session = u.Session) := by
  have hrun : u.DoLogin x
      = some (({ u with cookieJar := x.cookies } : UserLogin).interpret r x.cookies) := by
    simp only [UserLogin.DoLogin, hjar, if_false, hrsa, hkey, henc, hlogin]
  constructor
  · exact ⟨_, _, _, hrun, interpret_not_okay _ r x.cookies hoauth⟩
  · intro hc hcap hemail h2fa
    rw [hrun, interpret_general_failure _ r x.cookies hoauth hc hcap hemail h2fa]
    exact ⟨_, _, rfl, rfl⟩

/-- C9 witness: a login-complete response without OAuth payload. -/
theorem C9_missing_oauth_is_general_failure_witness :
    (∃ res err u', sampleLogin.DoLogin
        (fixedExchange sampleRSA (completeResponse none) []) = some ((res, err), u') ∧
      res ≠ LoginResult.LoginOkay) ∧
    ∃ err u', sampleLogin.DoLogin
        (fixedExchange sampleRSA (completeResponse none) [])
          = some ((LoginResult.LoginGeneralFailure, some err), u') ∧
      u'.Session = sampleLogin.Session :=
  have h := C9_missing_oauth_is_general_failure sampleLogin
    (fixedExchange sampleRSA (completeResponse none) []) sampleRSA ⟨3233, 17⟩ [1, 2, 3]
    (completeResponse none) (by decide) rfl rfl rfl rfl (Or.inl rfl)
  ⟨h.1, h.2 rfl rfl rfl (by decide)⟩

theorem interpret_okay (u u' : UserLogin) (r : LoginResponse) (cookies : List Cookie)
    (e : error) (h : u.interpret r cookies = ((LoginResult.LoginOkay, e), u')) :
    ∃ s c, u'.Session = some s ∧ s.OAuthToken ≠ [] ∧
      cookies.find? (fun cookie => cookie.Name = ascii "sessionid") = some c ∧
      s.SessionID = c.Value := by
  unfold UserLogin.interpret at h
  split_ifs at h with h1 h2 h3 h4 h5
  all_goals try (simp at h; done)
  split at h
  · simp at h
  · rename_i oauth hoauth
    split_ifs at h with h6
    · simp at h
    · split at h
      · simp at h
      · rename_i c hc
        simp only [Prod.mk.injEq, true_and] at h
        obtain ⟨_, hu⟩ := h
        subst hu
        refine ⟨_, c, rfl, ?_, hc, rfl⟩
        intro hnil
        apply h6
        have : oauth.OAuthToken = [] := hnil
        simp [this]

/-- C10 (amended): whenever `DoLogin` returns `LoginOkay`, for every login
response and every cookie-jar content, the `SessionData` left in `Session`
has a non-empty bearer token, and its `SessionID` is the value of the
first cookie named "sessionid" in the jar (which exists), so it is
non-empty whenever that cookie has a non-empty value. -/
theorem C10_login_okay_session (u u' : UserLogin) (x : LoginExchange) (e : error)
    (h : u.DoLogin x = some ((LoginResult.LoginOkay, e), u')) :
    ∃ s c, u'.Session = some s ∧ s.OAuthToken ≠ [] ∧
      x.cookies.find? (fun cookie => cookie.Name = ascii "sessionid") = some c ∧
      s.SessionID = c.Value ∧ (c.Value ≠ [] → s.SessionID ≠ []) := by
  unfold UserLogin.DoLogin at h
  split_ifs at h with hjar
  simp only at h
  split at h
  · simp at h
  · split at h
    · simp at h
    · split at h
      · simp at h
      · split at h
        · simp at h
        · simp only [Option.some.injEq] at h
          obtain ⟨s, c, hs, ht, hc, hid⟩ := interpret_okay _ _ _ _ _ h
          exact ⟨s, c, hs, ht, hc, hid, fun hv => hid ▸ hv⟩

/-- C10 witness: a complete response with a bearer token and a jar holding
a session cookie with the value "abc". -/
theorem C10_login_okay_session_witness :
    sampleLogin.DoLogin (fixedExchange sampleRSA tokenResponse [⟨ascii "sessionid", ascii "abc"⟩])
      = some ((LoginResult.LoginOkay, none), loggedInSample (ascii "abc")) ∧
    ∃ s c, (loggedInSample (ascii "abc")).Session = some s ∧ s.OAuthToken ≠ [] ∧
      ([⟨ascii "sessionid", ascii "abc"⟩] : List Cookie).find?
        (fun cookie => cookie.Name = ascii "sessionid") = some c ∧
      s.SessionID = c.Value ∧ (c.Value ≠ [] → s.SessionID ≠ []) :=
  ⟨by decide,
   C10_login_okay_session sampleLogin (loggedInSample (ascii "abc"))
     (fixedExchange sampleRSA tokenResponse [⟨ascii "sessionid", ascii "abc"⟩]) none
     (by decide)⟩

/-- C10 counterexample: the jar holds a "sessionid" cookie with an empty
value; `DoLogin` returns `LoginOkay` and leaves an empty `SessionID`. -/
theorem C10_empty_session_cookie_passes :
    sampleLogin.DoLogin (fixedExchange sampleRSA tokenResponse [⟨ascii "sessionid", []⟩])
      = some ((LoginResult.LoginOkay, none), loggedInSample []) ∧
    (loggedInSample []).Session.map (fun s => s.SessionID) = some [] := by
  decide

/-! ## The captcha requirement and the accumulated login fields -/

theorem doLogin_reaches_interpret (u : UserLogin) (x : LoginExchange)
    (rsa : rsaResponse) (key : PublicKey) (encryptedPassword : Bytes) (r : LoginResponse)
    (hjar : ¬ (u.cookieJar.length = 0 ∧ u.Session = none))
    (hrsa : x.getrsakey (url.Values.Set [] (ascii "username") u.Username) = (rsa, none))
    (hkey : rsa.PublicKey = some key)
    (henc : x.encrypt key u.Password = (encryptedPassword, none))
    (hlogin : x.dologin (u.loginPostData rsa encryptedPassword x.now) = (r, none)) :
    u.DoLogin x
      = some (({ u with cookieJar := x.cookies } : UserLogin).interpret r x.cookies) := by
  simp only [UserLogin.DoLogin, hjar, if_false, hrsa, hkey, henc, hlogin]

theorem interpret_captcha (u : UserLogin) (r : LoginResponse) (cookies : List Cookie)
    (hcap : r.CaptchaNeeded = true) :
    u.interpret r cookies
      = ((LoginResult.NeedCaptcha, none),
          { u with RequiresCaptcha := true, CaptchaGID := r.CaptchaGID }) := by
  simp only [UserLogin.interpret, hcap, if_true]

theorem captchaURL_of_id (u : UserLogin) (c : CaptchaGID) (hu : u.CaptchaGID = c)
    (h1 : c ≠ []) (h2 : c ≠ ascii "-1") :
    u.CaptchaURL
      = ascii "https://steamcommunity.com" ++ ascii "/public/captcha.php?gid=" ++ c := by
  simp [UserLogin.CaptchaURL, CaptchaGID.URL, hu, h1, h2, APIEndpoints.CommunityBase,
    CaptchaGID.String]

/-- C11: for every login response that flags a captcha requirement,
`DoLogin` returns `NeedCaptcha` with a nil error, sets `RequiresCaptcha`
and stores the captcha id of the response; `CaptchaURL()` afterwards
returns the community base followed by "/public/captcha.php?gid=" and that
id, a non-empty text, when the id is neither empty nor "-1", and the empty
text when it is one of the two. -/
theorem C11_captcha_needed_sets_url (u : UserLogin) (x : LoginExchange)
    (rsa : rsaResponse) (key : PublicKey) (encryptedPassword : Bytes) (r : LoginResponse)
    (hjar : ¬ (u.cookieJar.length = 0 ∧ u.Session = none))
    (hrsa : x.getrsakey (url.Values.Set [] (ascii "username") u.Username) = (rsa, none))
    (hkey : rsa.PublicKey = some key)
    (henc : x.encrypt key u.Password = (encryptedPassword, none))
    (hlogin : x.dologin (u.loginPostData rsa encryptedPassword x.now) = (r, none))
    (hcap : r.CaptchaNeeded = true) :
    ∃ u', u.DoLogin x = some ((LoginResult.NeedCaptcha, none), u') ∧
      u'.RequiresCaptcha = true ∧ u'.CaptchaGID = r.CaptchaGID ∧
      (r.CaptchaGID ≠ [] → r.CaptchaGID ≠ ascii "-1" →
        u'.CaptchaURL = ascii "https://steamcommunity.com" ++ ascii "/public/captcha.php?gid="
            ++ r.CaptchaGID ∧
        u'.CaptchaURL ≠ []) ∧
      (r.CaptchaGID = [] ∨ r.CaptchaGID = ascii "-1" → u'.CaptchaURL = []) := by
  rw [doLogin_reaches_interpret u x rsa key encryptedPassword r hjar hrsa hkey henc hlogin,
    interpret_captcha _ r x.cookies hcap]
  refine ⟨_, rfl, rfl, rfl, ?_, ?_⟩
  · intro h1 h2
    exact ⟨captchaURL_of_id _ _ rfl h1 h2, by rw [captchaURL_of_id _ _ rfl h1 h2]; simp [ascii]⟩
  · intro h
    simp [UserLogin.CaptchaURL, CaptchaGID.URL, h]

/-- C11 witness: a captcha requirement with the id "1234". -/
theorem C11_captcha_needed_sets_url_witness :
    ∃ u', sampleLogin.DoLogin (fixedExchange sampleRSA (captchaResponse (ascii "1234")) [])
        = some ((LoginResult.NeedCaptcha, none), u') ∧
      u'.RequiresCaptcha = true ∧ u'.CaptchaGID = ascii "1234" ∧
      u'.CaptchaURL = ascii "https://steamcommunity.com/public/captcha.php?gid=1234" := by
  obtain ⟨u', h1, h2, h3, h4, _⟩ := C11_captcha_needed_sets_url sampleLogin
    (fixedExchange sampleRSA (captchaResponse (ascii "1234")) []) sampleRSA ⟨3233, 17⟩ [1, 2, 3]
    (captchaResponse (ascii "1234")) (by decide) rfl rfl rfl rfl rfl
  refine ⟨u', h1, h2, h3, ?_⟩
  rw [(h4 (by decide) (by decide)).1]
  decide

/-- C11 counterexample: the response flags a captcha requirement with the
id "-1"; `DoLogin` returns `NeedCaptcha` and stores the id, and
`CaptchaURL()` afterwards returns the empty text. -/
theorem C11_captcha_url_empty_for_minus_one :
    ∃ u', sampleLogin.DoLogin (fixedExchange sampleRSA (captchaResponse (ascii "-1")) [])
        = some ((LoginResult.NeedCaptcha, none), u') ∧
      u'.RequiresCaptcha = true ∧ u'.CaptchaGID = ascii "-1" ∧ u'.CaptchaURL = [] :=
  ⟨_, rfl, rfl, rfl, by decide⟩

theorem interpret_fieldsSurvive (u : UserLogin) (r : LoginResponse) (cookies : List Cookie) :
    spec.fieldsSurvive u (u.interpret r cookies) := by
  unfold UserLogin.interpret spec.fieldsSurvive
  split_ifs
  all_goals try (simp; done)
  split
  · simp
  · split_ifs
    · simp
    · split <;> simp

theorem doLogin_fieldsSurvive (u : UserLogin) (x : LoginExchange)
    (call : (LoginResult × error) × UserLogin) (h : u.DoLogin x = some call) :
    spec.fieldsSurvive u call := by
  unfold UserLogin.DoLogin at h
  split_ifs at h with hjar
  simp only at h
  split at h
  · simp only [Option.some.injEq] at h
    subst h
    simp [spec.fieldsSurvive]
  · split at h
    · simp at h
    · split at h
      · simp only [Option.some.injEq] at h
        subst h
        simp [spec.fieldsSurvive]
      · split at h
        · simp only [Option.some.injEq] at h
          subst h
          simp [spec.fieldsSurvive]
        · simp only [Option.some.injEq] at h
          subst h
          exact interpret_fieldsSurvive { u with cookieJar := x.cookies } _ _

theorem doLoginAll_chain (xs : List LoginExchange) :
    ∀ (u : UserLogin) (res : LoginResult × error),
      List.Chain (fun a b => spec.fieldsSurvive a.2 b) (res, u) (u.DoLoginAll xs) := by
  induction xs with
  | nil => intro u res; simp [UserLogin.DoLoginAll]
  | cons x xs ih =>
    intro u res
    unfold UserLogin.DoLoginAll
    cases h : u.DoLogin x with
    | none => simp
    | some call =>
      simp only [List.chain_cons]
      exact ⟨doLogin_fieldsSurvive u x call h, ih call.2 call.1⟩

theorem doLoginAll_flags (xs : List LoginExchange) :
    ∀ (u : UserLogin), ∀ call ∈ u.DoLoginAll xs,
      (u.RequiresCaptcha = true → call.2.RequiresCaptcha = true) ∧
      (u.RequiresEmail = true → call.2.RequiresEmail = true) ∧
      (u.Requires2FA = true → call.2.Requires2FA = true) := by
  induction xs with
  | nil => intro u call hc; simp [UserLogin.DoLoginAll] at hc
  | cons x xs ih =>
    intro u call hc
    unfold UserLogin.DoLoginAll at hc
    cases h : u.DoLogin x with
    | none => simp [h] at hc
    | some first =>
      simp only [h, List.mem_cons] at hc
      have hs := doLogin_fieldsSurvive u x first h
      rcases hc with rfl | hc
      · exact ⟨hs.1, hs.2.1, hs.2.2.1⟩
      · have := ih first.2 call hc
        exact ⟨fun a => this.1 (hs.1 a), fun a => this.2.1 (hs.2.1 a),
          fun a => this.2.2 (hs.2.2.1 a)⟩

/-- C12: across every sequence of `DoLogin` calls on one instance and every
sequence of server responses, each call lets the accumulated fields survive
(the three requirement flags do not go from true to false, the captcha id
changes only in a call that returns `NeedCaptcha`, the account id only in a
call that returns `NeedEmail`), and a requirement flag that is true before
the sequence is true after every call of it. -/
theorem C12_accumulated_fields_survive (u : UserLogin) (xs : List LoginExchange) :
    List.Chain (fun a b => spec.fieldsSurvive a.2 b) ((LoginResult.LoginOkay, none), u)
      (u.DoLoginAll xs) ∧
    ∀ call ∈ u.DoLoginAll xs,
      (u.RequiresCaptcha = true → call.2.RequiresCaptcha = true) ∧
      (u.RequiresEmail = true → call.2.RequiresEmail = true) ∧
      (u.Requires2FA = true → call.2.Requires2FA = true) :=
  ⟨doLoginAll_chain xs u _, doLoginAll_flags xs u⟩

/-- C12 witness: three calls answered by a captcha requirement, an email
requirement and a completed login; the three calls return `NeedCaptcha`,
`NeedEmail` and `LoginOkay`, and the instance still requires the captcha
and the email code after the last one. -/
theorem C12_accumulated_fields_survive_witness :
    (sampleLogin.DoLoginAll
        [fixedExchange sampleRSA (captchaResponse (ascii "77")) [],
         fixedExchange sampleRSA (emailResponse 5) [],
         fixedExchange sampleRSA tokenResponse [⟨ascii "sessionid", ascii "abc"⟩]]).map
      (fun call => (call.1.1, call.2.RequiresCaptcha, call.2.RequiresEmail, call.2.CaptchaGID,
        call.2.SteamID))
      = [(LoginResult.NeedCaptcha, true, false, ascii "77", 0),
         (LoginResult.NeedEmail, true, true, ascii "77", 5),
         (LoginResult.LoginOkay, true, true, ascii "77", 5)] ∧
    List.Chain (fun a b => spec.fieldsSurvive a.2 b) ((LoginResult.LoginOkay, none), sampleLogin)
      (sampleLogin.DoLoginAll
        [fixedExchange sampleRSA (captchaResponse (ascii "77")) [],
         fixedExchange sampleRSA (emailResponse 5) [],
         fixedExchange sampleRSA tokenResponse [⟨ascii "sessionid", ascii "abc"⟩]]) :=
  ⟨by decide, (C12_accumulated_fields_survive sampleLogin _).1⟩

/-! ## The time source -/

theorem getSteamTimeAll_aligned (qs : List TimeQuery) (t : timeAligner)
    (h : t.aligned = true) :
    t.GetSteamTimeAll qs = qs.map fun q => ((q.now.Add t.timeDifference, t), 0) := by
  induction qs with
  | nil => rfl
  | cons q qs ih =>
    have e : t.GetSteamTime q = ((q.now.Add t.timeDifference, t), 0) := by
      simp [timeAligner.GetSteamTime, h]
    simp only [timeAligner.GetSteamTimeAll, e, List.map_cons, ih]

theorem getSteamTimeAll_failing (qs : List TimeQuery) (t : timeAligner)
    (h : t.aligned = false) (hq : ∀ q ∈ qs, q.response.2 ≠ none) :
    t.GetSteamTimeAll qs = qs.map fun q => ((q.now.Add t.timeDifference, t), 1) := by
  induction qs with
  | nil => rfl
  | cons q qs ih =>
    have e : t.GetSteamTime q = ((q.now.Add t.timeDifference, t), 1) := by
      have := hq q (List.mem_cons_self _ _)
      rcases hr : q.response with ⟨tsr, _ | err⟩
      · rw [hr] at this; exact absurd rfl this
      · simp [timeAligner.GetSteamTime, h, timeAligner.AlignTime, hr]
    simp only [timeAligner.GetSteamTimeAll, e, List.map_cons]
    rw [ih (fun q' hq' => hq q' (List.mem_cons_of_mem _ hq'))]

/-- C19: in every sequence of `GetSteamTime` calls with no explicit
`AlignTime` in between, a call issues an alignment request exactly when no
alignment has succeeded before it.  Once the aligner is aligned, each call
returns the local clock plus the stored offset without a network call and
leaves the aligner as it is.  While it is not aligned and the time queries
fail, each call issues one request, returns the local clock plus the
stored offset and leaves the offset at its previous value.  A call whose
time query succeeds on an aligner not yet aligned issues one request and
stores the server time minus the local clock, and no later call issues a
request. -/
theorem C19_alignment_requests (t : timeAligner) (q : TimeQuery) (qs : List TimeQuery) :
    (t.aligned = true →
      t.GetSteamTimeAll qs = qs.map fun q => ((q.now.Add t.timeDifference, t), 0)) ∧
    (t.aligned = false → (∀ q ∈ qs, q.response.2 ≠ none) →
      t.GetSteamTimeAll qs = qs.map fun q => ((q.now.Add t.timeDifference, t), 1)) ∧
    (t.aligned = false → q.response.2 = none →
      t.GetSteamTimeAll (q :: qs)
        = ((q.now.Add (q.response.1.ServerTime.Time.Sub q.nowAlign),
              ⟨true, q.response.1.ServerTime.Time.Sub q.nowAlign⟩), 1)
          :: qs.map fun p =>
              ((p.now.Add (q.response.1.ServerTime.Time.Sub q.nowAlign),
                ⟨true, q.response.1.ServerTime.Time.Sub q.nowAlign⟩), 0)) := by
  refine ⟨getSteamTimeAll_aligned qs t, getSteamTimeAll_failing qs t, ?_⟩
  intro h hq
  have e : t.GetSteamTime q
      = ((q.now.Add (q.response.1.ServerTime.Time.Sub q.nowAlign),
            ⟨true, q.response.1.ServerTime.Time.Sub q.nowAlign⟩), 1) := by
    rcases hr : q.response with ⟨tsr, _ | err⟩
    · simp [timeAligner.GetSteamTime, h, timeAligner.AlignTime, hr]
    · rw [hr] at hq; simp at hq
  simp only [timeAligner.GetSteamTimeAll, e]
  rw [getSteamTimeAll_aligned qs _ rfl]

/-- C19 witness: on the aligner of the package, a failed time query, then
one answered with a server time 100 seconds ahead, then a third call; the
first two calls issue a request, the third does not. -/
theorem C19_alignment_requests_witness :
    TimeAligner.GetSteamTimeAll [failedQuery 1000, answeredQuery 1105 1005, failedQuery 1010]
      = [((⟨1000, 0⟩, ⟨false, 0⟩), 1), ((⟨1105, 0⟩, ⟨true, 100000000000⟩), 1),
         ((⟨1110, 0⟩, ⟨true, 100000000000⟩), 0)] ∧
    TimeAligner.GetSteamTimeAll [failedQuery 1000]
      = [failedQuery 1000].map fun q =>
          ((q.now.Add TimeAligner.timeDifference, TimeAligner), 1) :=
  ⟨by decide,
   (C19_alignment_requests TimeAligner (failedQuery 1000) [failedQuery 1000]).2.1 rfl
     (by decide)⟩

/-- C19 counterexample: two `GetSteamTime` calls on the aligner of the
package, the time query failing both times; the second call issues an
alignment request as well. -/
theorem C19_failed_alignment_is_retried :
    (TimeAligner.GetSteamTimeAll [failedQuery 1000, failedQuery 1001]).map (fun r => r.2)
      = [1, 1] := by
  decide

/-! ## The finalize loop -/

theorem generateForTime_isSome (s : SteamGuardAccount) (atTime : Time) :
    ∃ code, s.GenerateSteamGuardCodeForTime atTime = some code := by
  unfold SteamGuardAccount.GenerateSteamGuardCodeForTime
  split_ifs
  · exact ⟨_, rfl⟩
  · split
    · exact ⟨_, rfl⟩
    · exact ⟨_, codeOfDigest_eq _ (hmac_length _ _) (hmac_lt _ _)⟩

theorem finalizeForm_isSome (al : AuthenticatorLinker) (x : FinalizeExchange)
    (st : finalizeState) : ∃ postData aligner queries,
      al.finalizeForm x st = some ((postData, aligner), queries) := by
  obtain ⟨code, hcode⟩ := generateForTime_isSome al.LinkedAccount
    (st.aligner.GetSteamTime (x.steamTime st.clockCalls)).1.1
  simp only [AuthenticatorLinker.finalizeForm, SteamGuardAccount.GenerateSteamGuardCode, hcode]
  exact ⟨_, _, _, rfl⟩

theorem finalizeLoop_bound (al : AuthenticatorLinker) (x : FinalizeExchange) (fuel : Nat) :
    ∀ st : finalizeState, st.requests.length = st.tries → st.tries ≤ 31 →
      32 ≤ fuel + st.tries →
      ∃ o, al.finalizeLoop x fuel st = .done o ∧ o.requests.length ≤ 31 ∧
        (o.result ≠ FinalizeResult.Success → o.linker = al) ∧
        (o.result = FinalizeResult.Success →
          o.linker.LinkedAccount.FullyEnrolled = true) := by
  induction fuel with
  | zero => intro st _ h1 h2; omega
  | succ fuel ih =>
    intro st hlen h1 h2
    unfold AuthenticatorLinker.finalizeLoop
    split_ifs with ht
    · obtain ⟨postData, aligner, queries, hform⟩ := finalizeForm_isSome al x st
      have hl : (st.requests ++ [postData]).length ≤ 31 := by
        simp only [List.length_append, List.length_singleton]; omega
      simp only [hform]
      split
      · exact ⟨_, rfl, hl, fun _ => rfl, fun a => by simp at a⟩
      · split_ifs with h89 h88 hs hw
        · exact ⟨_, rfl, hl, fun _ => rfl, fun a => by simp at a⟩
        · exact ⟨_, rfl, hl, fun _ => rfl, fun a => by simp at a⟩
        · exact ⟨_, rfl, hl, fun _ => rfl, fun a => by simp at a⟩
        · exact ih _ (by simp only [List.length_append, List.length_singleton]; omega)
            (by simp only; omega) (by simp only; omega)
        · exact ⟨_, rfl, hl, fun a => absurd rfl a, fun _ => rfl⟩
    · exact ⟨_, rfl, by simp only; omega, fun _ => rfl, fun a => by simp at a⟩

theorem finalize_done (al : AuthenticatorLinker) (smsCode : Bytes) (t : timeAligner)
    (x : FinalizeExchange) (fuel : Nat) (hf : 32 ≤ fuel) (o : FinalizeOutcome)
    (h : al.FinalizeAddAuthenticator smsCode t x fuel = .done o) :
    (o.result ≠ FinalizeResult.Success → o.linker = al) ∧
    (o.result = FinalizeResult.Success → o.linker.LinkedAccount.FullyEnrolled = true) := by
  unfold AuthenticatorLinker.FinalizeAddAuthenticator at h
  split at h
  · simp at h
  · rename_i session _
    obtain ⟨o', h1, _, h3, h4⟩ := finalizeLoop_bound al x fuel (finalizeStart session smsCode t)
      rfl (by simp only [finalizeStart]; omega) (by simp only [finalizeStart]; omega)
    rw [h1] at h
    simp only [Run.done.injEq] at h
    subst h
    exact ⟨h3, h4⟩

theorem finalizeLoop_wantMore (al : AuthenticatorLinker) (x : FinalizeExchange) (k : Nat)
    (hk : k ≤ 29)
    (hmore : ∀ i, i < k → ∀ pd, (x.finalize i pd).2 = none ∧
      (x.finalize i pd).1.Success = true ∧ (x.finalize i pd).1.WantMore = true ∧
      (x.finalize i pd).1.Status ≠ 89)
    (hlast : ∀ pd, (x.finalize k pd).2 = none ∧ (x.finalize k pd).1.Success = true ∧
      (x.finalize k pd).1.WantMore = false ∧ (x.finalize k pd).1.Status ≠ 89) (n : Nat) :
    ∀ (fuel : Nat) (st : finalizeState), st.tries + n = k → st.requests.length = st.tries →
      n < fuel →
      ∃ o, al.finalizeLoop x fuel st = .done o ∧ o.requests.length = k + 1 ∧
        o.result = FinalizeResult.Success ∧ o.err = none ∧
        o.linker.LinkedAccount.FullyEnrolled = true := by
  induction n with
  | zero =>
    intro fuel st htk hlen hf
    obtain ⟨fuel, rfl⟩ : ∃ m, fuel = m + 1 := ⟨fuel - 1, by omega⟩
    obtain ⟨postData, aligner, queries, hform⟩ := finalizeForm_isSome al x st
    have hl := hlast postData
    have ht : st.tries = k := by omega
    rw [← ht, ← hlen] at hl
    rcases hr : x.finalize st.requests.length postData with ⟨resp, err⟩
    rw [hr] at hl
    obtain ⟨e1, e2, e3, e4⟩ := hl
    simp only at e1 e2 e3 e4
    subst e1
    unfold AuthenticatorLinker.finalizeLoop
    rw [if_pos (by omega)]
    simp only [hform, hr, e4, if_false, e2, e3, Bool.not_true, Bool.false_eq_true]
    rw [if_neg (by omega)]
    refine ⟨_, rfl, ?_, rfl, rfl, rfl⟩
    simp only [List.length_append, List.length_singleton]; omega
  | succ n ih =>
    intro fuel st htk hlen hf
    obtain ⟨fuel, rfl⟩ : ∃ m, fuel = m + 1 := ⟨fuel - 1, by omega⟩
    obtain ⟨postData, aligner, queries, hform⟩ := finalizeForm_isSome al x st
    have hl := hmore st.tries (by omega) postData
    rw [← hlen] at hl
    rcases hr : x.finalize st.requests.length postData with ⟨resp, err⟩
    rw [hr] at hl
    obtain ⟨e1, e2, e3, e4⟩ := hl
    simp only at e1 e2 e3 e4
    subst e1
    unfold AuthenticatorLinker.finalizeLoop
    rw [if_pos (by omega)]
    simp only [hform, hr, e4, if_false, e2, e3, Bool.not_true, Bool.false_eq_true, if_true]
    rw [if_neg (by omega)]
    exact ih fuel _ (by simp only; omega)
      (by simp only [List.length_append, List.length_singleton]; omega) (by omega)

/-- C13: for every sequence of server responses `FinalizeAddAuthenticator`
terminates (32 rounds of fuel are enough for it to return) and issues at
most 31 finalize requests before it returns; and against a server that
answers every finalize request with a successful "want more" response of
status 88 it issues 31 requests, one more than the cap of 30, before it
returns `UnableToGenerateCorrectCodes`. -/
theorem C13_finalize_issues_up_to_31_requests (al : AuthenticatorLinker) (session : SessionData)
    (smsCode : Bytes) (t : timeAligner) (x : FinalizeExchange) (fuel : Nat)
    (hs : al.session = some session) (hf : 32 ≤ fuel) :
    (∃ o, al.FinalizeAddAuthenticator smsCode t x fuel = .done o ∧ o.requests.length ≤ 31) ∧
    ∃ o, (sampleLinker [] SteamGuardAccount.zero).FinalizeAddAuthenticator (ascii "12345")
        TimeAligner (wantMoreServer 31) 32 = .done o ∧
      o.requests.length = 31 ∧ o.result = FinalizeResult.UnableToGenerateCorrectCodes := by
  constructor
  · simp only [AuthenticatorLinker.FinalizeAddAuthenticator, hs]
    obtain ⟨o, h1, h2, _⟩ := finalizeLoop_bound al x fuel (finalizeStart session smsCode t)
      rfl (by simp only [finalizeStart]; omega) (by simp only [finalizeStart]; omega)
    exact ⟨o, h1, h2⟩
  · exact ⟨_, rfl, by decide, by decide⟩

/-- C13 witness: the server that wants more 31 times, on 32 rounds of
fuel. -/
theorem C13_finalize_issues_up_to_31_requests_witness :
    (∃ o, (sampleLinker [] SteamGuardAccount.zero).FinalizeAddAuthenticator (ascii "12345")
        TimeAligner (wantMoreServer 31) 32 = .done o ∧ o.requests.length ≤ 31) ∧
    ∃ o, (sampleLinker [] SteamGuardAccount.zero).FinalizeAddAuthenticator (ascii "12345")
        TimeAligner (wantMoreServer 31) 32 = .done o ∧
      o.requests.length = 31 ∧ o.result = FinalizeResult.UnableToGenerateCorrectCodes :=
  C13_finalize_issues_up_to_31_requests (sampleLinker [] SteamGuardAccount.zero) sampleSession
    (ascii "12345") TimeAligner (wantMoreServer 31) 32 rfl (by decide)

/-- C14: for every k from 0 to 29, if the server answers the first k
finalize requests with a successful "want more" response (status not 89)
and the next request with a successful response that does not want more
(status not 89), then `FinalizeAddAuthenticator`, given more than k rounds
of fuel, issues exactly k+1 requests, returns `Success` with a nil error
and leaves `LinkedAccount.FullyEnrolled` true. -/
theorem C14_want_more_then_success (al : AuthenticatorLinker) (session : SessionData)
    (smsCode : Bytes) (t : timeAligner) (x : FinalizeExchange) (k fuel : Nat)
    (hs : al.session = some session) (hk : k ≤ 29) (hf : k < fuel)
    (hmore : ∀ i, i < k → ∀ pd, (x.finalize i pd).2 = none ∧
      (x.finalize i pd).1.Success = true ∧ (x.finalize i pd).1.WantMore = true ∧
      (x.finalize i pd).1.Status ≠ 89)
    (hlast : ∀ pd, (x.finalize k pd).2 = none ∧ (x.finalize k pd).1.Success = true ∧
      (x.finalize k pd).1.WantMore = false ∧ (x.finalize k pd).1.Status ≠ 89) :
    ∃ o, al.FinalizeAddAuthenticator smsCode t x fuel = .done o ∧ o.requests.length = k + 1 ∧
      o.result = FinalizeResult.Success ∧ o.err = none ∧
      o.linker.LinkedAccount.FullyEnrolled = true := by
  simp only [AuthenticatorLinker.FinalizeAddAuthenticator, hs]
  exact finalizeLoop_wantMore al x k hk hmore hlast k fuel _
    (by simp only [finalizeStart]; omega) rfl hf

/-- C14 witness: k = 2, the server wants more twice and then accepts; the
call consumes exactly 3 attempts. -/
theorem C14_want_more_then_success_witness :
    ∃ o, (sampleLinker [] SteamGuardAccount.zero).FinalizeAddAuthenticator (ascii "12345")
        TimeAligner (wantMoreServer 2) 3 = .done o ∧ o.requests.length = 2 + 1 ∧
      o.result = FinalizeResult.Success ∧ o.err = none ∧
      o.linker.LinkedAccount.FullyEnrolled = true :=
  C14_want_more_then_success (sampleLinker [] SteamGuardAccount.zero) sampleSession
    (ascii "12345") TimeAligner (wantMoreServer 2) 2 3 rfl (by decide) (by decide)
    (fun i hi pd => by
      have e : (wantMoreServer 2).finalize i pd = (finalizeResponse 88 true, none) := by
        simp [wantMoreServer, hi]
      rw [e]; decide)
    (fun pd => by
      have e : (wantMoreServer 2).finalize 2 pd = (finalizeResponse 2 false, none) := by
        simp [wantMoreServer]
      rw [e]; decide)

/-! ## Linking an authenticator -/

theorem hasPhoneAttached_false (al : AuthenticatorLinker) (probe : http.Response × error) :
    al.hasPhoneAttached probe = some false := by
  rcases probe with ⟨resp, _ | err⟩
  · simp only [AuthenticatorLinker.hasPhoneAttached, steamWeb.handleJSON,
      json.Decoder.Decode]
    split_ifs
    · rfl
    · cases json.scanValue (resp.Body.length + 1) (json.skipWS resp.Body) <;> rfl
  · rfl

/-- What `AddAuthenticator` comes to, the phone probe answering no phone
whatever the server sent. -/
theorem addAuthenticator_eq (al : AuthenticatorLinker) (x : LinkExchange) :
    al.AddAuthenticator x =
      if al.PhoneNumber = [] then
        some (((.MustProvidePhoneNumber, none), al), [hasPhoneURL])
      else if ¬ al.addPhoneNumber x.addPhone then
        some (((.LinkGeneralFailure, none), al), [hasPhoneURL, addPhoneURL al])
      else
        match al.session with
        | none => none
        | some session =>
          match x.addAuthenticator (al.addPostData session) with
          | (_, some err) =>
            some (((.LinkGeneralFailure, some err), al),
              [hasPhoneURL, addPhoneURL al, addAuthenticatorURL])
          | (addAuthenticatorResponse, none) =>
            if addAuthenticatorResponse.Response.Status ≠ 1 then
              some (((.LinkGeneralFailure, none), al),
                [hasPhoneURL, addPhoneURL al, addAuthenticatorURL])
            else
              some (((.AwaitingFinalization, none),
                { al with
                  LinkedAccount :=
                    { addAuthenticatorResponse.Response with
                      Session := al.session, DeviceID := al.DeviceID } }),
                [hasPhoneURL, addPhoneURL al, addAuthenticatorURL]) := by
  simp only [AuthenticatorLinker.AddAuthenticator, hasPhoneAttached_false]
  by_cases h1 : al.PhoneNumber = []
  · simp [h1]
  · by_cases h2 : al.addPhoneNumber x.addPhone = true
    · simp [h1, h2]
    · simp [h1, h2]

theorem addAuthenticator_cases (al : AuthenticatorLinker) (x : LinkExchange)
    (r : ((LinkResult × error) × AuthenticatorLinker) × List Bytes)
    (h : al.AddAuthenticator x = some r) :
    (r.1.1.1 ≠ LinkResult.AwaitingFinalization ∧ r.1.2 = al) ∨
    (r.1.1.1 = LinkResult.AwaitingFinalization ∧
      ∃ session resp, al.session = some session ∧
        x.addAuthenticator (al.addPostData session) = (resp, none) ∧
        resp.Response.Status = 1 ∧
        r.1.2 = { al with
          LinkedAccount :=
            { resp.Response with Session := al.session, DeviceID := al.DeviceID } }) := by
  rw [addAuthenticator_eq] at h
  split_ifs at h with h1 h2
  · simp only [Option.some.injEq] at h; subst h; left; simp
  · split at h
    · simp at h
    · rename_i session hs
      split at h
      · simp only [Option.some.injEq] at h; subst h; left; simp
      · rename_i resp hresp
        split_ifs at h with h3
        · simp only [Option.some.injEq] at h; subst h; left; simp
        · simp only [Option.some.injEq] at h; subst h; right
          exact ⟨rfl, session, resp, hs, hresp, by simpa using h3, rfl⟩
  · simp only [Option.some.injEq] at h; subst h; left; simp

/-- C16: the phone probe answers "no phone" whatever the server sent, a
well-formed JSON response that reports `has_phone` true included; so with
a non-empty `PhoneNumber`, `AddAuthenticator` does not return
`MustRemovePhoneNumber`: it goes on to the request that attaches the
number. -/
theorem C16_phone_probe_never_reports_a_phone (al : AuthenticatorLinker) (x : LinkExchange)
    (session : SessionData) (hs : al.session = some session) (hphone : al.PhoneNumber ≠ []) :
    al.hasPhoneAttached x.hasPhone = some false ∧
    ∃ r, al.AddAuthenticator x = some r ∧ r.1.1.1 ≠ LinkResult.MustRemovePhoneNumber ∧
      r.2.take 2 = [hasPhoneURL, addPhoneURL al] := by
  refine ⟨hasPhoneAttached_false al x.hasPhone, ?_⟩
  rw [addAuthenticator_eq, if_neg hphone]
  split_ifs with h2
  · simp only [hs]
    split
    · exact ⟨_, rfl, by simp, rfl⟩
    · split_ifs
      · exact ⟨_, rfl, by simp, rfl⟩
      · exact ⟨_, rfl, by simp, rfl⟩
  · exact ⟨_, rfl, by simp, rfl⟩

/-- C16 witness: the probe is answered with the JSON object
`has_phone: true`, which `handleJSON` stores as such when it is given the
address of the response; the linker carries a phone number, and
`AddAuthenticator` attaches the number, submits the enrollment request and
returns `AwaitingFinalization`. -/
theorem C16_phone_probe_never_reports_a_phone_witness :
    steamWeb.handleJSON (some (json.storeStruct HasPhoneResponse.step)) phoneReported.1 ⟨false⟩
      = some (⟨true⟩, none) ∧
    ((sampleLinker (ascii "+15551234") SteamGuardAccount.zero).AddAuthenticator
        (enrollingServer (enrollmentResponse (ascii "AAAA") false))).map
      (fun r => (r.1.1.1, r.2))
      = some (LinkResult.AwaitingFinalization,
          [ascii "https://steamcommunity.com/steamguard/phoneajax?op=has_phone&arg=",
           ascii "https://steamcommunity.com/steamguard/phoneajax?op=add_phone_number&arg=%2B15551234",
           ascii "https://api.steampowered.com/ITwoFactorService/AddAuthenticator/v0001"]) ∧
    ((sampleLinker (ascii "+15551234") SteamGuardAccount.zero).hasPhoneAttached
        (enrollingServer (enrollmentResponse (ascii "AAAA") false)).hasPhone = some false ∧
      ∃ r, (sampleLinker (ascii "+15551234") SteamGuardAccount.zero).AddAuthenticator
          (enrollingServer (enrollmentResponse (ascii "AAAA") false)) = some r ∧
        r.1.1.1 ≠ LinkResult.MustRemovePhoneNumber ∧
        r.2.take 2
          = [hasPhoneURL, addPhoneURL (sampleLinker (ascii "+15551234") SteamGuardAccount.zero)]) :=
  ⟨by decide, by decide,
   C16_phone_probe_never_reports_a_phone (sampleLinker (ascii "+15551234") SteamGuardAccount.zero)
     (enrollingServer (enrollmentResponse (ascii "AAAA") false)) sampleSession rfl (by decide)⟩

/-- C17: whenever `AddAuthenticator` returns `AwaitingFinalization`, the
enrollment response had status 1 and `LinkedAccount` holds the shared
secret of that response (non-empty when the service returned a non-empty
one), its `DeviceID` equals the `DeviceID` of the linker and its `Session`
is the session of the linker; whenever it returns any other result, the
linker, and with it `LinkedAccount`, is unchanged. -/
theorem C17_linked_account_after_add (al : AuthenticatorLinker) (x : LinkExchange)
    (r : ((LinkResult × error) × AuthenticatorLinker) × List Bytes)
    (h : al.AddAuthenticator x = some r) :
    (r.1.1.1 = LinkResult.AwaitingFinalization →
      ∃ session resp, al.session = some session ∧
        x.addAuthenticator (al.addPostData session) = (resp, none) ∧
        resp.Response.Status = 1 ∧
        r.1.2.LinkedAccount.SharedSecret = resp.Response.SharedSecret ∧
        (resp.Response.SharedSecret ≠ [] → r.1.2.LinkedAccount.SharedSecret ≠ []) ∧
        r.1.2.LinkedAccount.DeviceID = al.DeviceID ∧
        r.1.2.DeviceID = al.DeviceID ∧
        r.1.2.LinkedAccount.Session = al.session ∧ r.1.2.session = al.session) ∧
    (r.1.1.1 ≠ LinkResult.AwaitingFinalization → r.1.2.LinkedAccount = al.LinkedAccount) := by
  rcases addAuthenticator_cases al x r h with ⟨h1, h2⟩ | ⟨h1, session, resp, hs, hr, hst, h2⟩
  · exact ⟨fun a => absurd a h1, fun _ => by rw [h2]⟩
  · refine ⟨fun _ => ⟨session, resp, hs, hr, hst, ?_⟩, fun a => absurd h1 a⟩
    rw [h2]
    exact ⟨rfl, fun a => a, rfl, rfl, rfl, rfl⟩

/-- C17 witness: the enrollment response carries the shared secret
"AAAA". -/
theorem C17_linked_account_after_add_witness :
    ((sampleLinker (ascii "+15551234") SteamGuardAccount.zero).AddAuthenticator
        (enrollingServer (enrollmentResponse (ascii "AAAA") false))).map
      (fun r => (r.1.1.1, r.1.2.LinkedAccount.SharedSecret))
      = some (LinkResult.AwaitingFinalization, ascii "AAAA") ∧
    ∀ r, (sampleLinker (ascii "+15551234") SteamGuardAccount.zero).AddAuthenticator
        (enrollingServer (enrollmentResponse (ascii "AAAA") false)) = some r →
      r.1.1.1 ≠ LinkResult.AwaitingFinalization → r.1.2.LinkedAccount = SteamGuardAccount.zero :=
  ⟨by decide, fun r h =>
    (C17_linked_account_after_add (sampleLinker (ascii "+15551234") SteamGuardAccount.zero)
      (enrollingServer (enrollmentResponse (ascii "AAAA") false)) r h).2⟩

/-- C17 counterexample: the enrollment response has status 1 and an empty
shared secret; `AddAuthenticator` returns `AwaitingFinalization` and
`LinkedAccount` holds an empty shared secret. -/
theorem C17_empty_shared_secret_is_accepted :
    ((sampleLinker (ascii "+15551234") SteamGuardAccount.zero).AddAuthenticator
        (enrollingServer (enrollmentResponse [] false))).map
      (fun r => (r.1.1, r.1.2.LinkedAccount.SharedSecret))
      = some ((LinkResult.AwaitingFinalization, none), []) := by
  decide

theorem calls_not_enrolled (cs : List LinkerCall) :
    ∀ (al : AuthenticatorLinker) (t : timeAligner), al.LinkedAccount.FullyEnrolled = false →
      (∀ e ∈ al.calls t cs, e.1 ≠ LinkerReturn.finalized FinalizeResult.Success ∧
        e.1 ≠ LinkerReturn.link LinkResult.AwaitingFinalization) →
      ∀ e ∈ al.calls t cs, e.2.LinkedAccount.FullyEnrolled = false := by
  induction cs with
  | nil => intro al t _ _ e he; simp [AuthenticatorLinker.calls] at he
  | cons c cs ih =>
    intro al t hal hno e he
    cases c with
    | AddAuthenticator x =>
      unfold AuthenticatorLinker.calls at he hno
      cases hr : al.AddAuthenticator x with
      | none => simp [hr] at he
      | some r =>
        simp only [hr, List.mem_cons] at he hno
        have hne : r.1.1.1 ≠ LinkResult.AwaitingFinalization := fun a =>
          (hno _ (Or.inl rfl)).2 (by rw [a])
        have hsame : r.1.2 = al := by
          rcases addAuthenticator_cases al x r hr with ⟨_, h2⟩ | ⟨h1, _⟩
          · exact h2
          · exact absurd h1 hne
        rcases he with rfl | he
        · simp only [hsame, hal]
        · exact ih r.1.2 t (by rw [hsame]; exact hal) (fun e' he' => hno e' (Or.inr he')) e he
    | FinalizeAddAuthenticator smsCode x =>
      unfold AuthenticatorLinker.calls at he hno
      cases hr : al.FinalizeAddAuthenticator smsCode t x 32 with
      | done o =>
        simp only [hr, List.mem_cons] at he hno
        have hne : o.result ≠ FinalizeResult.Success := fun a =>
          (hno _ (Or.inl rfl)).1 (by rw [a])
        have hsame : o.linker = al :=
          (finalize_done al smsCode t x 32 (le_refl _) o hr).1 hne
        rcases he with rfl | he
        · simp only [hsame, hal]
        · exact ih o.linker o.aligner (by rw [hsame]; exact hal)
            (fun e' he' => hno e' (Or.inr he')) e he
      | panic => simp [hr] at he
      | outOfFuel => simp [hr] at he

/-- C15: a newly created linker has `LinkedAccount.FullyEnrolled` false.
`AddAuthenticator` leaves the flag unchanged when it returns any result
but `AwaitingFinalization`, and with `AwaitingFinalization` it stores the
flag of the enrollment response.  A `FinalizeAddAuthenticator` call that
returns any result but `Success` leaves the flag unchanged, one that
returns `Success` leaves it true.  So in every sequence of the two calls
on a linker whose flag is false, with every server response, the flag is
false after every call as long as no `FinalizeAddAuthenticator` call has
returned `Success` and no `AddAuthenticator` call has returned
`AwaitingFinalization`. -/
theorem C15_fully_enrolled_sources (al : AuthenticatorLinker) (t : timeAligner) :
    (∀ session random new, NewAuthenticatorLinker session random = some new →
      new.LinkedAccount.FullyEnrolled = false) ∧
    (∀ x r, al.AddAuthenticator x = some r →
      (r.1.1.1 ≠ LinkResult.AwaitingFinalization →
        r.1.2.LinkedAccount.FullyEnrolled = al.LinkedAccount.FullyEnrolled) ∧
      (r.1.1.1 = LinkResult.AwaitingFinalization →
        ∃ session resp, al.session = some session ∧
          x.addAuthenticator (al.addPostData session) = (resp, none) ∧
          r.1.2.LinkedAccount.FullyEnrolled = resp.Response.FullyEnrolled)) ∧
    (∀ smsCode x fuel o, 32 ≤ fuel → al.FinalizeAddAuthenticator smsCode t x fuel = .done o →
      (o.result ≠ FinalizeResult.Success →
        o.linker.LinkedAccount.FullyEnrolled = al.LinkedAccount.FullyEnrolled) ∧
      (o.result = FinalizeResult.Success → o.linker.LinkedAccount.FullyEnrolled = true)) ∧
    (∀ cs, al.LinkedAccount.FullyEnrolled = false →
      (∀ e ∈ al.calls t cs, e.1 ≠ LinkerReturn.finalized FinalizeResult.Success ∧
        e.1 ≠ LinkerReturn.link LinkResult.AwaitingFinalization) →
      ∀ e ∈ al.calls t cs, e.2.LinkedAccount.FullyEnrolled = false) := by
  refine ⟨?_, ?_, ?_, fun cs => calls_not_enrolled cs al t⟩
  · intro session random new h
    unfold NewAuthenticatorLinker at h
    split at h
    · simp at h
    · simp only [Option.some.injEq] at h
      subst h
      rfl
  · intro x r h
    rcases addAuthenticator_cases al x r h with ⟨h1, h2⟩ | ⟨h1, session, resp, hs, hr, _, h2⟩
    · exact ⟨fun _ => by rw [h2], fun a => absurd a h1⟩
    · exact ⟨fun a => absurd h1 a, fun _ => ⟨session, resp, hs, hr, by rw [h2]⟩⟩
  · intro smsCode x fuel o hf h
    have := finalize_done al smsCode t x fuel hf o h
    exact ⟨fun a => by rw [this.1 a], this.2⟩

/-- C15 witness: on a linker with a phone number, an `AddAuthenticator`
call whose enrollment response has status 0, then a
`FinalizeAddAuthenticator` call answered with status 89; neither enrolls
the account. -/
theorem C15_fully_enrolled_sources_witness :
    ((sampleLinker (ascii "+15551234") SteamGuardAccount.zero).calls TimeAligner
        [.AddAuthenticator (enrollingServer ⟨SteamGuardAccount.zero⟩),
         .FinalizeAddAuthenticator (ascii "12345")
           { wantMoreServer 0 with finalize := fun _ _ => (finalizeResponse 89 false, none) }]).map
      (fun e => e.1)
      = [.link .LinkGeneralFailure, .finalized .BadSMSCode] ∧
    ∀ e ∈ (sampleLinker (ascii "+15551234") SteamGuardAccount.zero).calls TimeAligner
        [.AddAuthenticator (enrollingServer ⟨SteamGuardAccount.zero⟩),
         .FinalizeAddAuthenticator (ascii "12345")
           { wantMoreServer 0 with finalize := fun _ _ => (finalizeResponse 89 false, none) }],
      e.2.LinkedAccount.FullyEnrolled = false :=
  ⟨by decide,
   (C15_fully_enrolled_sources (sampleLinker (ascii "+15551234") SteamGuardAccount.zero)
      TimeAligner).2.2.2 _ rfl (by decide)⟩

/-- C15 counterexample: the enrollment response has status 1 and carries
`fully_enrolled` true, as `handleJSON` decodes it from such a JSON body;
one `AddAuthenticator` call on a linker whose flag is false returns
`AwaitingFinalization` and leaves `LinkedAccount.FullyEnrolled` true, no
`FinalizeAddAuthenticator` call made. -/
theorem C15_add_authenticator_copies_the_flag :
    steamWeb.handleJSON (some (json.storeStruct AddAuthenticatorResponse.step))
        ⟨ascii "application/json",
         ascii "\x7b\"response\":\x7b\"shared_secret\":\"AAAA\",\"status\":1,\"fully_enrolled\":true\x7d\x7d"⟩
        ⟨SteamGuardAccount.zero⟩
      = some (enrollmentResponse (ascii "AAAA") true, none) ∧
    (sampleLinker (ascii "+15551234") SteamGuardAccount.zero).LinkedAccount.FullyEnrolled
      = false ∧
    ((sampleLinker (ascii "+15551234") SteamGuardAccount.zero).calls TimeAligner
        [.AddAuthenticator (enrollingServer (enrollmentResponse (ascii "AAAA") true))]).map
      (fun e => (e.1, e.2.LinkedAccount.FullyEnrolled))
      = [(.link .AwaitingFinalization, true)] := by
  refine ⟨?_, rfl, ?_⟩ <;> decide

/-! ## The extraction of confirmations -/

theorem quotedDigits_length (attr s : Bytes) (m : List Bytes)
    (h : regexp.quotedDigits attr s = some m) : m.length = 2 := by
  unfold regexp.quotedDigits at h
  split at h
  · simp at h
  · simp only at h
    split at h
    · split_ifs at h
      simp only [Option.some.injEq] at h
      subst h
      rfl
    · simp at h

theorem description_length (alt s : Bytes) (m : List Bytes)
    (h : regexp.description alt s = some m) : m.length = 3 := by
  unfold regexp.description at h
  split at h
  · simp at h
  · simp only at h
    split at h
    · simp at h
    · simp only [Option.some.injEq] at h
      subst h
      rfl

theorem divDescription_length (s : Bytes) (m : List Bytes)
    (h : regexp.divDescription s = some m) : m.length = 3 := by
  unfold regexp.divDescription at h
  split at h
  · simp at h
  · obtain ⟨alt, _, ha⟩ := List.exists_of_findSome?_eq_some h
    exact description_length alt _ m ha

theorem findAllFrom_mem (re : Bytes → Option (List Bytes)) (m : List Bytes) (b : Bytes) :
    ∀ skip, m ∈ regexp.findAllFrom re skip b → ∃ s, re s = some m := by
  induction b with
  | nil => intro skip h; simp [regexp.findAllFrom] at h
  | cons c rest ih =>
    intro skip h
    cases skip with
    | succ k => exact ih k (by simpa [regexp.findAllFrom] using h)
    | zero =>
      unfold regexp.findAllFrom at h
      split at h
      · rename_i m' hm
        rcases List.mem_cons.mp h with rfl | h
        · exact ⟨_, hm⟩
        · exact ih _ h
      · exact ih _ h

theorem getElem?_some_mem {α : Type} (l : List α) (i : Nat) (h : i < l.length) :
    ∃ m, l[i]? = some m ∧ m ∈ l :=
  ⟨l[i], List.getElem?_eq_getElem h, List.getElem_mem h⟩

theorem second_some {α : Type} (m : List α) (h : 2 ≤ m.length) : ∃ g, m[1]? = some g :=
  ⟨m[1], List.getElem?_eq_getElem (by omega)⟩

theorem confirmationsFrom_spec (ids keys descs : List (List Bytes))
    (h1 : ∀ m ∈ ids, 2 ≤ m.length) (h2 : ∀ m ∈ keys, 2 ≤ m.length)
    (h3 : ∀ m ∈ descs, 2 ≤ m.length) (hk : keys.length = ids.length)
    (hd : descs.length = ids.length) (rest : List (List Bytes)) :
    ∀ i, i + rest.length = ids.length →
      ∃ ret, confirmationsFrom ids keys descs i rest = some ret ∧ ret.length = rest.length ∧
        ∀ j, j < rest.length →
          ∃ idm keym descm id key desc, ids[i + j]? = some idm ∧ keys[i + j]? = some keym ∧
            descs[i + j]? = some descm ∧ idm[1]? = some id ∧ keym[1]? = some key ∧
            descm[1]? = some desc ∧ ret[j]? = some ⟨id, key, desc⟩ := by
  induction rest with
  | nil => intro i _; exact ⟨[], rfl, rfl, fun j hj => by simp at hj⟩
  | cons r rest ih =>
    intro i hi
    simp only [List.length_cons] at hi
    obtain ⟨idm, e1, m1⟩ := getElem?_some_mem ids i (by omega)
    obtain ⟨keym, e2, m2⟩ := getElem?_some_mem keys i (by omega)
    obtain ⟨descm, e3, m3⟩ := getElem?_some_mem descs i (by omega)
    obtain ⟨id, g1⟩ := second_some idm (h1 _ m1)
    obtain ⟨key, g2⟩ := second_some keym (h2 _ m2)
    obtain ⟨desc, g3⟩ := second_some descm (h3 _ m3)
    obtain ⟨tail, t1, t2, t3⟩ := ih (i + 1) (by omega)
    refine ⟨⟨id, key, desc⟩ :: tail, ?_, by simp [t2], ?_⟩
    · simp only [confirmationsFrom, e1, e2, e3, Option.some_bind, g1, g2, g3, t1, Option.map_some']
    · intro j hj
      cases j with
      | zero => exact ⟨idm, keym, descm, id, key, desc, e1, e2, e3, g1, g2, g3, by simp⟩
      | succ j =>
        obtain ⟨a, b, c, d, e, f, q1, q2, q3, q4, q5, q6, q7⟩ :=
          t3 j (by simp only [List.length_cons] at hj; omega)
        refine ⟨a, b, c, d, e, f, ?_, ?_, ?_, q4, q5, q6, ?_⟩
        · rw [← q1]; congr 1; omega
        · rw [← q2]; congr 1; omega
        · rw [← q3]; congr 1; omega
        · simpa using q7

theorem findAll_two (re : Bytes → Option (List Bytes)) (b : Bytes)
    (hre : ∀ s m, re s = some m → 2 ≤ m.length) :
    ∀ m ∈ regexp.FindAllSubmatch re b, 2 ≤ m.length := by
  intro m hm
  obtain ⟨s, hs⟩ := findAllFrom_mem re m b 0 hm
  exact hre s m hs

theorem match_of_length (re : Bytes → Option (List Bytes)) (b : Bytes)
    (h : 1 ≤ (regexp.FindAllSubmatch re b).length) : regexp.Match re b = true := by
  unfold regexp.Match
  cases hl : regexp.FindAllSubmatch re b with
  | nil => rw [hl] at h; simp at h
  | cons _ _ => rfl

theorem match_of_nil (re : Bytes → Option (List Bytes)) (b : Bytes)
    (h : regexp.FindAllSubmatch re b = []) : regexp.Match re b = false := by
  simp [regexp.Match, h]

/-- C18: an occurrence of a marker being a match that `FindAllSubmatch`
reports for its expression: for every response body in which the id
marker, the key marker and the description marker each occur the same
number n >= 1 of times, the extraction in `FetchConfirmations` returns
exactly n records, the i-th record holding the first group of the i-th id
match, of the i-th key match and of the i-th description match; and for
every body in which one of the three markers does not occur at all, it
returns nil. -/
theorem C18_extraction_pairs_by_position (response : Bytes) (n : Nat) :
    ((regexp.FindAllSubmatch confIDRegex response).length = n →
      (regexp.FindAllSubmatch confKeyRegex response).length = n →
      (regexp.FindAllSubmatch confDescRegex response).length = n → 1 ≤ n →
      ∃ ret, extractConfirmations response = some ret ∧ ret.length = n ∧
        ∀ i, i < n →
          ∃ idm keym descm id key desc,
            (regexp.FindAllSubmatch confIDRegex response)[i]? = some idm ∧
            (regexp.FindAllSubmatch confKeyRegex response)[i]? = some keym ∧
            (regexp.FindAllSubmatch confDescRegex response)[i]? = some descm ∧
            idm[1]? = some id ∧ keym[1]? = some key ∧ descm[1]? = some desc ∧
            ret[i]? = some ⟨id, key, desc⟩) ∧
    (regexp.FindAllSubmatch confIDRegex response = [] ∨
      regexp.FindAllSubmatch confKeyRegex response = [] ∨
      regexp.FindAllSubmatch confDescRegex response = [] →
      extractConfirmations response = some []) := by
  constructor
  · intro hid hkey hdesc hn
    have h1 := findAll_two confIDRegex response
      (fun s m h => by rw [quotedDigits_length _ s m h])
    have h2 := findAll_two confKeyRegex response
      (fun s m h => by rw [quotedDigits_length _ s m h])
    have h3 := findAll_two confDescRegex response
      (fun s m h => by rw [divDescription_length s m h]; omega)
    obtain ⟨ret, r1, r2, r3⟩ := confirmationsFrom_spec _ _ _ h1 h2 h3 (by rw [hkey, hid])
      (by rw [hdesc, hid]) (regexp.FindAllSubmatch confIDRegex response) 0 (by simp)
    refine ⟨ret, ?_, by rw [r2, hid], ?_⟩
    · simp only [extractConfirmations, match_of_length confIDRegex response (by omega),
        match_of_length confKeyRegex response (by omega),
        match_of_length confDescRegex response (by omega), Bool.and_self, Bool.not_true,
        Bool.false_eq_true, if_false, r1]
    · intro i hi
      have := r3 i (by omega)
      simpa only [Nat.zero_add] using this
  · intro h
    have : (regexp.Match confIDRegex response && regexp.Match confKeyRegex response &&
        regexp.Match confDescRegex response) = false := by
      rcases h with h | h | h
      · simp [match_of_nil _ _ h]
      · simp [match_of_nil _ _ h]
      · simp [match_of_nil _ _ h]
    simp [extractConfirmations, this]

/-- C18 witness: a body with two confirmations gives the two records in
the order of the body, and a body without key marker gives nil. -/
theorem C18_extraction_pairs_by_position_witness :
    extractConfirmations twoConfirmations
      = some [⟨ascii "123", ascii "456", ascii "Confirm trade A"⟩,
              ⟨ascii "9", ascii "88", ascii "Sell - item B"⟩] ∧
    (∃ ret, extractConfirmations twoConfirmations = some ret ∧ ret.length = 2 ∧
        ∀ i, i < 2 →
          ∃ idm keym descm id key desc,
            (regexp.FindAllSubmatch confIDRegex twoConfirmations)[i]? = some idm ∧
            (regexp.FindAllSubmatch confKeyRegex twoConfirmations)[i]? = some keym ∧
            (regexp.FindAllSubmatch confDescRegex twoConfirmations)[i]? = some descm ∧
            idm[1]? = some id ∧ keym[1]? = some key ∧ descm[1]? = some desc ∧
            ret[i]? = some ⟨id, key, desc⟩) ∧
    extractConfirmations (ascii "<div data-confid=\"1\"><div>Confirm x</div>") = some [] :=
  ⟨by decide,
   (C18_extraction_pairs_by_position twoConfirmations 2).1 (by decide) (by decide) (by decide)
     (by decide),
   (C18_extraction_pairs_by_position (ascii "<div data-confid=\"1\"><div>Confirm x</div>") 0).2
     (Or.inr (Or.inl (by decide)))⟩

/-! ## The confirmation URL -/

theorem unhex_upperhex (n : Nat) (h : n < 16) : spec.unhex (url.upperhex n) = some n := by
  unfold url.upperhex spec.unhex
  split_ifs <;> first | omega | (congr 1; omega)

theorem unescape_escape (s : Bytes) (h : ∀ c ∈ s, c < 256) :
    spec.queryUnescape (url.QueryEscape s) = some s := by
  induction s with
  | nil => rfl
  | cons c rest ih =>
    have hc : c < 256 := h c (List.mem_cons_self _ _)
    have ih := ih (fun x hx => h x (List.mem_cons_of_mem _ hx))
    unfold url.QueryEscape
    split_ifs with h1 h2
    · have h37 : c ≠ 37 := by rintro rfl; simp [url.unreserved] at h1
      have h43 : c ≠ 43 := by rintro rfl; simp [url.unreserved] at h1
      rw [spec.queryUnescape]
      · simp [ih]
      · intro a b r e; simp at e; exact fun _ => h37 e
      · intro e; exact h37 e
      · intro e; exact h43 e
    · subst h2
      simp [spec.queryUnescape, ih]
    · simp only [spec.queryUnescape, unhex_upperhex (c / 16) (by omega),
        unhex_upperhex (c % 16) (by omega), ih]
      congr 2
      omega

theorem upperhex_range (n : Nat) : 48 ≤ url.upperhex n ∧ url.upperhex n ≠ 61 ∧
    url.upperhex n ≠ 63 ∧ (n < 16 → url.upperhex n < 128) := by
  unfold url.upperhex
  split_ifs <;> omega

theorem escape_free (s : Bytes) : ∀ c ∈ url.QueryEscape s, c ≠ 38 ∧ c ≠ 61 ∧ c ≠ 63 := by
  induction s with
  | nil => intro c h; simp [url.QueryEscape] at h
  | cons d rest ih =>
    intro c h
    unfold url.QueryEscape at h
    have u1 := upperhex_range (d / 16)
    have u2 := upperhex_range (d % 16)
    split_ifs at h with h1 h2
    · rcases List.mem_cons.mp h with rfl | h
      · refine ⟨?_, ?_, ?_⟩ <;> (rintro rfl; simp [url.unreserved] at h1)
      · exact ih c h
    · rcases List.mem_cons.mp h with rfl | h
      · omega
      · exact ih c h
    · simp only [List.mem_cons] at h
      rcases h with rfl | rfl | rfl | h
      · omega
      · omega
      · omega
      · exact ih c h

theorem escape_lt (s : Bytes) (hs : ∀ c ∈ s, c < 256) : ∀ c ∈ url.QueryEscape s, c < 256 := by
  induction s with
  | nil => intro c h; simp [url.QueryEscape] at h
  | cons d rest ih =>
    intro c h
    have hd : d < 256 := hs d (List.mem_cons_self _ _)
    have ih := ih (fun x hx => hs x (List.mem_cons_of_mem _ hx))
    unfold url.QueryEscape at h
    have u1 := (upperhex_range (d / 16)).2.2.2 (by omega)
    have u2 := (upperhex_range (d % 16)).2.2.2 (by omega)
    split_ifs at h with h1 h2
    · rcases List.mem_cons.mp h with rfl | h
      · exact hd
      · exact ih c h
    · rcases List.mem_cons.mp h with rfl | h
      · omega
      · exact ih c h
    · simp only [List.mem_cons] at h
      rcases h with rfl | rfl | rfl | h
      · omega
      · omega
      · omega
      · exact ih c h

theorem split_none (sep : Nat) (l : Bytes) (h : ∀ c ∈ l, c ≠ sep) : spec.split sep l = [l] := by
  induction l with
  | nil => rfl
  | cons c rest ih =>
    have hc := h c (List.mem_cons_self _ _)
    simp [spec.split, hc, ih (fun x hx => h x (List.mem_cons_of_mem _ hx))]

theorem split_append (sep : Nat) (l r : Bytes) (h : ∀ c ∈ l, c ≠ sep) :
    spec.split sep (l ++ sep :: r) = l :: spec.split sep r := by
  induction l with
  | nil => simp [spec.split]
  | cons c rest ih =>
    have hc := h c (List.mem_cons_self _ _)
    simp [spec.split, hc, ih (fun x hx => h x (List.mem_cons_of_mem _ hx))]

theorem encodeSymbol_lt (v : Nat) : base64.encodeSymbol v < 256 ∧ base64.encodeSymbol v ≠ 37 := by
  unfold base64.encodeSymbol
  split_ifs <;> omega

theorem encode_lt (h : Bytes) : ∀ c ∈ base64.EncodeToString h, c < 256 := by
  induction h using base64.EncodeToString.induct with
  | case1 b0 b1 b2 rest ih =>
    intro c hc
    simp only [base64.EncodeToString, List.mem_cons] at hc
    rcases hc with rfl | rfl | rfl | rfl | hc
    · exact (encodeSymbol_lt _).1
    · exact (encodeSymbol_lt _).1
    · exact (encodeSymbol_lt _).1
    · exact (encodeSymbol_lt _).1
    · exact ih c hc
  | case2 b0 b1 =>
    intro c hc
    simp only [base64.EncodeToString, List.mem_cons, List.mem_singleton, List.not_mem_nil,
      or_false] at hc
    rcases hc with rfl | rfl | rfl | rfl
    · exact (encodeSymbol_lt _).1
    · exact (encodeSymbol_lt _).1
    · exact (encodeSymbol_lt _).1
    · omega
  | case3 b0 =>
    intro c hc
    simp only [base64.EncodeToString, List.mem_cons, List.mem_singleton, List.not_mem_nil,
      or_false] at hc
    rcases hc with rfl | rfl | rfl | rfl
    · exact (encodeSymbol_lt _).1
    · exact (encodeSymbol_lt _).1
    · omega
    · omega
  | case4 => intro c hc; simp [base64.EncodeToString] at hc

theorem encode_has_pad (h : Bytes) (hlen : h.length = 20) : 61 ∈ base64.EncodeToString h := by
  match h, hlen with
  | [b0, b1, b2, b3, b4, b5, b6, b7, b8, b9, b10, b11, b12, b13, b14, b15, b16, b17, b18, b19],
    _ => simp [base64.EncodeToString]

theorem escape_ne_of_pad (s : Bytes) (h : 61 ∈ s) : url.QueryEscape s ≠ s := by
  intro e
  rw [← e] at h
  exact (escape_free s 61 h).2.1 rfl

theorem formatUint_lt (v : Nat) : ∀ c ∈ strconv.FormatUint v, c < 256 := by
  intro c hc
  have := formatDigits_all 20 v [] (by simp) c hc
  omega

theorem formatInt_lt (v : Int) : ∀ c ∈ strconv.FormatInt v, c < 256 := by
  intro c hc
  unfold strconv.FormatInt at hc
  split_ifs at hc
  · rcases List.mem_cons.mp hc with rfl | hc
    · omega
    · exact formatUint_lt _ c hc
  · exact formatUint_lt _ c hc

theorem steamID_string_lt (id : SteamID) : ∀ c ∈ SteamID.String id, c < 256 := by
  intro c hc
  unfold SteamID.String at hc
  split_ifs at hc
  · exact formatUint_lt _ c hc
  · simp at hc

theorem decodePair_escaped (key value : Bytes) (hk : ∀ c ∈ key, c < 256)
    (hv : ∀ c ∈ value, c < 256) :
    spec.decodePair (url.QueryEscape key ++ [61] ++ url.QueryEscape value)
      = some (key, value) := by
  have e : url.QueryEscape key ++ [61] ++ url.QueryEscape value
      = url.QueryEscape key ++ 61 :: url.QueryEscape value := by simp
  rw [e]
  simp only [spec.decodePair,
    split_append 61 _ _ (fun c hc => (escape_free key c hc).2.1),
    split_none 61 _ (fun c hc => (escape_free value c hc).2.1),
    unescape_escape key hk, List.intercalate, List.intersperse, List.flatten, List.append_nil,
    unescape_escape value hv]

theorem encode_six (p a k t tag : Bytes) :
    url.Values.Encode
      [(ascii "p", [p]), (ascii "a", [a]), (ascii "k", [k]), (ascii "t", [t]),
       (ascii "m", [ascii "android"]), (ascii "tag", [tag])]
      = (url.QueryEscape (ascii "a") ++ [61] ++ url.QueryEscape a) ++ 38 ::
        ((url.QueryEscape (ascii "k") ++ [61] ++ url.QueryEscape k) ++ 38 ::
        ((url.QueryEscape (ascii "m") ++ [61] ++ url.QueryEscape (ascii "android")) ++ 38 ::
        ((url.QueryEscape (ascii "p") ++ [61] ++ url.QueryEscape p) ++ 38 ::
        ((url.QueryEscape (ascii "t") ++ [61] ++ url.QueryEscape t) ++ 38 ::
        (url.QueryEscape (ascii "tag") ++ [61] ++ url.QueryEscape tag))))) := by
  have hs : List.foldr url.insertByKey []
      [(ascii "p", [p]), (ascii "a", [a]), (ascii "k", [k]), (ascii "t", [t]),
       (ascii "m", [ascii "android"]), (ascii "tag", [tag])]
      = [(ascii "a", [a]), (ascii "k", [k]), (ascii "m", [ascii "android"]), (ascii "p", [p]),
         (ascii "t", [t]), (ascii "tag", [tag])] := by
    rfl
  simp only [url.Values.Encode, hs, List.flatMap, List.map, List.flatten, List.append_nil,
    List.singleton_append, List.foldl, List.length_nil, gt_iff_lt, lt_self_iff_false, if_false,
    List.nil_append, List.length_append, List.length_cons]
  simp

theorem pair_free (key value : Bytes) :
    ∀ c ∈ url.QueryEscape key ++ [61] ++ url.QueryEscape value, c ≠ 38 ∧ c ≠ 63 := by
  intro c hc
  simp only [List.mem_append, List.mem_singleton] at hc
  rcases hc with (hc | rfl) | hc
  · exact ⟨(escape_free key c hc).1, (escape_free key c hc).2.2⟩
  · omega
  · exact ⟨(escape_free value c hc).1, (escape_free value c hc).2.2⟩

theorem decodeQuery_six (p a k t tag : Bytes) (hp : ∀ c ∈ p, c < 256) (ha : ∀ c ∈ a, c < 256)
    (hk : ∀ c ∈ k, c < 256) (ht : ∀ c ∈ t, c < 256) (htag : ∀ c ∈ tag, c < 256) :
    spec.decodeQuery (APIEndpoints.CommunityBase ++ ascii "/mobileconf/conf?" ++
      url.Values.Encode
        [(ascii "p", [p]), (ascii "a", [a]), (ascii "k", [k]), (ascii "t", [t]),
         (ascii "m", [ascii "android"]), (ascii "tag", [tag])])
      = some [(ascii "a", a), (ascii "k", k), (ascii "m", ascii "android"), (ascii "p", p),
              (ascii "t", t), (ascii "tag", tag)] := by
  have he : APIEndpoints.CommunityBase ++ ascii "/mobileconf/conf?"
      = ascii "https://steamcommunity.com/mobileconf/conf" ++ [63] := by decide
  have hfree : ∀ c ∈ url.Values.Encode
        [(ascii "p", [p]), (ascii "a", [a]), (ascii "k", [k]), (ascii "t", [t]),
         (ascii "m", [ascii "android"]), (ascii "tag", [tag])], c ≠ 63 := by
    rw [encode_six]
    intro c hc
    simp only [List.mem_append, List.mem_cons] at hc
    rcases hc with hc | rfl | hc | rfl | hc | rfl | hc | rfl | hc | rfl | hc
    all_goals first
      | omega
      | exact (pair_free _ _ c (by simp only [List.mem_append, List.mem_cons]; exact hc)).2
  have hsplit : spec.split 63 (APIEndpoints.CommunityBase ++ ascii "/mobileconf/conf?" ++
      url.Values.Encode
        [(ascii "p", [p]), (ascii "a", [a]), (ascii "k", [k]), (ascii "t", [t]),
         (ascii "m", [ascii "android"]), (ascii "tag", [tag])])
      = [ascii "https://steamcommunity.com/mobileconf/conf", url.Values.Encode
        [(ascii "p", [p]), (ascii "a", [a]), (ascii "k", [k]), (ascii "t", [t]),
         (ascii "m", [ascii "android"]), (ascii "tag", [tag])]] := by
    rw [he, List.append_assoc, List.singleton_append,
      split_append 63 _ _ (by decide), split_none 63 _ hfree]
  have hmid : ∀ c ∈ ascii "android", c < 256 := by decide
  unfold spec.decodeQuery
  rw [hsplit]
  simp only [List.drop_succ_cons, List.drop_zero, List.intercalate, List.intersperse,
    List.flatten, List.append_nil]
  rw [encode_six,
    split_append 38 _ _ (fun c hc => (pair_free _ _ c hc).1),
    split_append 38 _ _ (fun c hc => (pair_free _ _ c hc).1),
    split_append 38 _ _ (fun c hc => (pair_free _ _ c hc).1),
    split_append 38 _ _ (fun c hc => (pair_free _ _ c hc).1),
    split_append 38 _ _ (fun c hc => (pair_free _ _ c hc).1),
    split_none 38 _ (fun c hc => (pair_free _ _ c hc).1)]
  simp only [spec.decodePairs, decodePair_escaped (ascii "a") a (by decide) ha,
    decodePair_escaped (ascii "k") k (by decide) hk,
    decodePair_escaped (ascii "m") (ascii "android") (by decide) hmid,
    decodePair_escaped (ascii "p") p (by decide) hp,
    decodePair_escaped (ascii "t") t (by decide) ht,
    decodePair_escaped (ascii "tag") tag (by decide) htag]

/-- C20: for every account with a session, every instant and tag (the
device identifier and the tag being byte strings), decoding once the query
string of the URL built by `generateConfirmationURL` gives a, k, m, p, t
and tag with p = the device identifier, a = the text of the account id,
t = the decimal Unix seconds of the signed instant, m = "android", tag =
the tag, and k = the base64 text of the HMAC digest still percent-encoded:
that k differs from the base64 text, which only a second decoding gives
back.  The signature travels percent-encoded twice. -/
theorem C20_signature_is_percent_encoded_twice (s : SteamGuardAccount) (session : SessionData)
    (tag : Bytes) (t : timeAligner) (q : TimeQuery) (hs : s.Session = some session)
    (hdev : ∀ c ∈ s.DeviceID, c < 256) (htag : ∀ c ∈ tag, c < 256) :
    ∃ urlStr, s.generateConfirmationURL tag t q = some (urlStr, (t.GetSteamTime q).1.2) ∧
      spec.decodeQuery urlStr
        = some [(ascii "a", SteamID.String session.SteamID),
                (ascii "k", url.QueryEscape (base64.EncodeToString
                  (hmac.SumSHA1 (base64.DecodeString s.IdentitySecret).1
                    (confirmationBuffer (t.GetSteamTime q).1.1 tag)))),
                (ascii "m", ascii "android"), (ascii "p", s.DeviceID),
                (ascii "t", strconv.FormatInt (t.GetSteamTime q).1.1.Unix),
                (ascii "tag", tag)] ∧
      url.QueryEscape (base64.EncodeToString
          (hmac.SumSHA1 (base64.DecodeString s.IdentitySecret).1
            (confirmationBuffer (t.GetSteamTime q).1.1 tag)))
        ≠ base64.EncodeToString
          (hmac.SumSHA1 (base64.DecodeString s.IdentitySecret).1
            (confirmationBuffer (t.GetSteamTime q).1.1 tag)) ∧
      spec.queryUnescape (url.QueryEscape (base64.EncodeToString
          (hmac.SumSHA1 (base64.DecodeString s.IdentitySecret).1
            (confirmationBuffer (t.GetSteamTime q).1.1 tag))))
        = some (base64.EncodeToString
          (hmac.SumSHA1 (base64.DecodeString s.IdentitySecret).1
            (confirmationBuffer (t.GetSteamTime q).1.1 tag))) := by
  have hurl : s.generateConfirmationURL tag t q
      = some (APIEndpoints.CommunityBase ++ ascii "/mobileconf/conf?" ++
          url.Values.Encode
            [(ascii "p", [s.DeviceID]), (ascii "a", [SteamID.String session.SteamID]),
             (ascii "k", [s.generateConfirmationHashForTime (t.GetSteamTime q).1.1 tag]),
             (ascii "t", [strconv.FormatInt (t.GetSteamTime q).1.1.Unix]),
             (ascii "m", [ascii "android"]), (ascii "tag", [tag])],
          (t.GetSteamTime q).1.2) := by
    simp only [SteamGuardAccount.generateConfirmationURL,
      SteamGuardAccount.generateConfirmationQueryParams, hs, Option.map_some']
  refine ⟨_, hurl, ?_, ?_, ?_⟩
  · exact decodeQuery_six _ _ _ _ _ hdev (steamID_string_lt _)
      (escape_lt _ (encode_lt _)) (formatInt_lt _) htag
  · exact escape_ne_of_pad _ (encode_has_pad _ (hmac_length _ _))
  · exact unescape_escape _ (encode_lt _)

set_option maxRecDepth 1000000 in
/-- C20 witness: the account of `sampleSession` with the identity secret
"AAAA" and the device "android:dev ice", the tag "conf", the instant
1445567000; the URL carries `k=qSghBpINrdechlOjSoliiCszYBk%253D`, which
decodes once to `qSghBpINrdechlOjSoliiCszYBk%3D`, while the base64 text of
the digest is `qSghBpINrdechlOjSoliiCszYBk=`. -/
theorem C20_signature_is_percent_encoded_twice_witness :
    ((confirmingAccount (ascii "AAAA") (ascii "android:dev ice")).generateConfirmationURL
        (ascii "conf") TimeAligner (answeredQuery 1445567000 1445567000)).map (fun r => r.1)
      = some (ascii ("https://steamcommunity.com/mobileconf/conf?a=76561197960265728" ++
          "&k=qSghBpINrdechlOjSoliiCszYBk%253D&m=android&p=android%3Adev+ice" ++
          "&t=1445567000&tag=conf")) ∧
    base64.EncodeToString (hmac.SumSHA1 [0, 0, 0] (confirmationBuffer ⟨1445567000, 0⟩
      (ascii "conf"))) = ascii "qSghBpINrdechlOjSoliiCszYBk=" ∧
    ∃ urlStr, (confirmingAccount (ascii "AAAA") (ascii "android:dev ice")).generateConfirmationURL
        (ascii "conf") TimeAligner (answeredQuery 1445567000 1445567000)
        = some (urlStr, (TimeAligner.GetSteamTime (answeredQuery 1445567000 1445567000)).1.2) ∧
      (spec.decodeQuery urlStr).map (fun ps => ps.lookup (ascii "k"))
        = some (some (ascii "qSghBpINrdechlOjSoliiCszYBk%3D")) := by
  refine ⟨by decide, by decide, ?_⟩
  obtain ⟨urlStr, h1, h2, _, _⟩ := C20_signature_is_percent_encoded_twice
    (confirmingAccount (ascii "AAAA") (ascii "android:dev ice")) sampleSession (ascii "conf")
    TimeAligner (answeredQuery 1445567000 1445567000) rfl (by decide) (by decide)
  refine ⟨urlStr, h1, ?_⟩
  rw [h2]
  decide

/-! ## The URL of a GET request with parameters -/

theorem newRequest_get (s : steamWeb) (check : Bytes → Bytes → error)
    (hm : s.method = ascii "GET") (hp : s.params.length > 0) :
    s.newRequest check
      = match check (ascii "GET") ((if 63 ∈ s.urlStr then [38] else [63]) ++ s.params.Encode) with
        | some err => (none, some err)
        | none =>
          (some { Method := ascii "GET",
                  URL := (if 63 ∈ s.urlStr then [38] else [63]) ++ s.params.Encode,
                  Body := none, Header := s.headers }, none) := by
  unfold steamWeb.newRequest http.NewRequest
  simp only [hp, hm, if_true]
  by_cases hq : 63 ∈ s.urlStr
  · simp only [hq, if_true]
    cases check (ascii "GET") ([38] ++ s.params.Encode) <;> rfl
  · simp only [hq, if_false]
    cases check (ascii "GET") ([63] ++ s.params.Encode) <;> rfl

/-- C21: for every GET request prepared with a URL u and a non-empty
parameter set p, the URL text of the request `newRequest` builds is "?"
(or "&" when u contains "?") followed by the encoded form of p and nothing
else: u is not part of it, so for a non-empty u it is not the URL of the
specification, u followed by the separator and the encoded parameters.
The request is built whenever the library accepts that text.  The request
of `AlignTime` gets the URL "?steamid=0". -/
theorem C21_get_parameters_replace_the_url (s : steamWeb) (check : Bytes → Bytes → error)
    (hm : s.method = ascii "GET") (hp : s.params.length > 0) :
    (check (ascii "GET") ((if 63 ∈ s.urlStr then [38] else [63]) ++ s.params.Encode) = none →
      s.newRequest check
        = (some { Method := ascii "GET",
                  URL := (if 63 ∈ s.urlStr then [38] else [63]) ++ s.params.Encode,
                  Body := none, Header := s.headers }, none)) ∧
    (∀ req, (s.newRequest check).1 = some req →
      req.URL = (if 63 ∈ s.urlStr then [38] else [63]) ++ s.params.Encode ∧
      req.URL.length = 1 + s.params.Encode.length ∧
      (s.urlStr ≠ [] → req.URL ≠ spec.requestURL s.urlStr s.params)) ∧
    (timeAligner.alignRequest.newRequest acceptAll).1.map (fun req => req.URL)
      = some (ascii "?steamid=0") ∧
    spec.requestURL timeAligner.alignRequest.urlStr timeAligner.alignRequest.params
      = ascii "https://api.steampowered.com/ITwoFactorService/QueryTime/v0001?steamid=0" := by
  refine ⟨?_, ?_, by decide, by decide⟩
  · intro hc
    rw [newRequest_get s check hm hp, hc]
  · intro req hreq
    rw [newRequest_get s check hm hp] at hreq
    have hlen : ((if 63 ∈ s.urlStr then [38] else [63]) ++ s.params.Encode).length
        = 1 + s.params.Encode.length := by
      split_ifs <;> simp [Nat.add_comm]
    cases hc : check (ascii "GET") ((if 63 ∈ s.urlStr then [38] else [63]) ++ s.params.Encode) with
    | some err => rw [hc] at hreq; simp at hreq
    | none =>
      rw [hc] at hreq
      simp only [Option.some.injEq] at hreq
      subst hreq
      refine ⟨rfl, hlen, ?_⟩
      intro hu e
      have h2 := congrArg List.length e
      rw [hlen] at h2
      have hpos : 0 < s.urlStr.length := List.length_pos.mpr hu
      unfold spec.requestURL at h2
      split_ifs at h2 <;> simp at h2 <;> omega

set_option maxRecDepth 1000000 in
/-- C21 witness: the request of `sendConfirmationAjax` for the
confirmation 11 with key 22 and the operation "allow"; the URL of the
request is the query alone, without "https://steamcommunity.com/mobileconf/ajaxop". -/
theorem C21_get_parameters_replace_the_url_witness :
    ∃ s, (confirmingAccount (ascii "AAAA") (ascii "android:dev")).confirmationAjaxRequest
        ⟨ascii "11", ascii "22", []⟩ (ascii "allow") TimeAligner
        (answeredQuery 1445567000 1445567000) = some s ∧
      s.urlStr = ascii "https://steamcommunity.com/mobileconf/ajaxop" ∧
      s.newRequest acceptAll
        = (some { Method := ascii "GET",
                  URL := ascii ("?a=76561197960265728&cid=11&ck=22" ++
                    "&k=qSghBpINrdechlOjSoliiCszYBk%253D&m=android&op=allow&p=android%3Adev" ++
                    "&t=1445567000&tag=allow"),
                  Body := none, Header := s.headers }, none) := by
  refine ⟨_, rfl, by decide, ?_⟩
  rw [(C21_get_parameters_replace_the_url _ acceptAll rfl (by decide)).1 rfl]
  decide

/-! ## Indexing the occurrence lists -/

theorem confirmationsFrom_short (ids keys descs : List (List Bytes)) (rest : List (List Bytes)) :
    ∀ i, (keys.length < i + rest.length ∨ descs.length < i + rest.length) →
      i ≤ keys.length → i ≤ descs.length → confirmationsFrom ids keys descs i rest = none := by
  induction rest with
  | nil => intro i h h1 h2; simp only [List.length_nil] at h; omega
  | cons r rest ih =>
    intro i h h1 h2
    simp only [List.length_cons] at h
    unfold confirmationsFrom
    by_cases hd : descs.length ≤ i
    · simp [List.getElem?_eq_none hd]
    · by_cases hk : keys.length ≤ i
      · simp only [List.getElem?_eq_none hk, Option.none_bind]
        split <;> simp_all
      · have := ih (i + 1) (by omega) (by omega) (by omega)
        rw [this]
        split <;> simp

theorem confirmationsFrom_long (ids keys descs : List (List Bytes))
    (h1 : ∀ m ∈ ids, 2 ≤ m.length) (h2 : ∀ m ∈ keys, 2 ≤ m.length)
    (h3 : ∀ m ∈ descs, 2 ≤ m.length) (hk : ids.length ≤ keys.length)
    (hd : ids.length ≤ descs.length) (rest : List (List Bytes)) :
    ∀ i, i + rest.length = ids.length →
      ∃ ret, confirmationsFrom ids keys descs i rest = some ret := by
  induction rest with
  | nil => intro i _; exact ⟨[], rfl⟩
  | cons r rest ih =>
    intro i hi
    simp only [List.length_cons] at hi
    obtain ⟨idm, e1, m1⟩ := getElem?_some_mem ids i (by omega)
    obtain ⟨keym, e2, m2⟩ := getElem?_some_mem keys i (by omega)
    obtain ⟨descm, e3, m3⟩ := getElem?_some_mem descs i (by omega)
    obtain ⟨id, g1⟩ := second_some idm (h1 _ m1)
    obtain ⟨key, g2⟩ := second_some keym (h2 _ m2)
    obtain ⟨desc, g3⟩ := second_some descm (h3 _ m3)
    obtain ⟨tail, t1⟩ := ih (i + 1) (by omega)
    exact ⟨⟨id, key, desc⟩ :: tail, by
      simp only [confirmationsFrom, e1, e2, e3, Option.some_bind, g1, g2, g3, t1,
        Option.map_some']⟩

theorem match_iff_ne_nil (re : Bytes → Option (List Bytes)) (b : Bytes) :
    regexp.Match re b = true ↔ regexp.FindAllSubmatch re b ≠ [] := by
  unfold regexp.Match
  cases regexp.FindAllSubmatch re b <;> simp

/-- C22: the extraction in `FetchConfirmations` indexes an occurrence list
out of range, and panics, exactly for the response bodies in which the
three markers all occur and the id marker occurs more often than the key
marker or than the description marker; for every other body it completes.
A body with two id markers, one key marker and one description marker is
such a body. -/
theorem C22_uneven_markers_index_out_of_range (response : Bytes) :
    (extractConfirmations response = none ↔
      regexp.FindAllSubmatch confIDRegex response ≠ [] ∧
      regexp.FindAllSubmatch confKeyRegex response ≠ [] ∧
      regexp.FindAllSubmatch confDescRegex response ≠ [] ∧
      ((regexp.FindAllSubmatch confKeyRegex response).length
          < (regexp.FindAllSubmatch confIDRegex response).length ∨
        (regexp.FindAllSubmatch confDescRegex response).length
          < (regexp.FindAllSubmatch confIDRegex response).length)) ∧
    (regexp.FindAllSubmatch confIDRegex unevenConfirmations).length = 2 ∧
    (regexp.FindAllSubmatch confKeyRegex unevenConfirmations).length = 1 ∧
    (regexp.FindAllSubmatch confDescRegex unevenConfirmations).length = 1 ∧
    extractConfirmations unevenConfirmations = none := by
  refine ⟨?_, by decide, by decide, by decide, by decide⟩
  have h1 := findAll_two confIDRegex response
    (fun s m h => by rw [quotedDigits_length _ s m h])
  have h2 := findAll_two confKeyRegex response
    (fun s m h => by rw [quotedDigits_length _ s m h])
  have h3 := findAll_two confDescRegex response
    (fun s m h => by rw [divDescription_length s m h]; omega)
  by_cases hall : regexp.FindAllSubmatch confIDRegex response ≠ [] ∧
      regexp.FindAllSubmatch confKeyRegex response ≠ [] ∧
      regexp.FindAllSubmatch confDescRegex response ≠ []
  · obtain ⟨a1, a2, a3⟩ := hall
    have e : extractConfirmations response
        = confirmationsFrom (regexp.FindAllSubmatch confIDRegex response)
            (regexp.FindAllSubmatch confKeyRegex response)
            (regexp.FindAllSubmatch confDescRegex response) 0
            (regexp.FindAllSubmatch confIDRegex response) := by
      simp only [extractConfirmations, (match_iff_ne_nil _ _).mpr a1,
        (match_iff_ne_nil _ _).mpr a2, (match_iff_ne_nil _ _).mpr a3, Bool.and_self,
        Bool.not_true, Bool.false_eq_true, if_false]
    rw [e]
    constructor
    · intro hnone
      refine ⟨a1, a2, a3, ?_⟩
      by_contra hlen
      obtain ⟨ret, hret⟩ := confirmationsFrom_long _ _ _ h1 h2 h3 (by omega) (by omega)
        (regexp.FindAllSubmatch confIDRegex response) 0 (by simp)
      rw [hret] at hnone
      simp at hnone
    · rintro ⟨_, _, _, hlen⟩
      exact confirmationsFrom_short _ _ _ _ 0 (by simpa using hlen) (by omega) (by omega)
  · have e : extractConfirmations response = some [] := by
      have : (regexp.Match confIDRegex response && regexp.Match confKeyRegex response &&
          regexp.Match confDescRegex response) = false := by
        by_contra hne
        simp only [Bool.not_eq_false, Bool.and_eq_true] at hne
        exact hall ⟨(match_iff_ne_nil _ _).mp hne.1.1, (match_iff_ne_nil _ _).mp hne.1.2,
          (match_iff_ne_nil _ _).mp hne.2⟩
      simp [extractConfirmations, this]
    rw [e]
    constructor
    · intro h; simp at h
    · rintro ⟨a1, a2, a3, _⟩; exact absurd ⟨a1, a2, a3⟩ hall

/-- C22 witness: the body `unevenConfirmations`; the second round of the
loop reads `confDescs[1]` of a list of one entry. -/
theorem C22_uneven_markers_index_out_of_range_witness :
    extractConfirmations unevenConfirmations = none :=
  (C22_uneven_markers_index_out_of_range unevenConfirmations).1.mpr
    ⟨by decide, by decide, by decide, by decide⟩

end steamauth
